import Mathlib

/-!
# mjit_compile.c : the method JIT translator of YARV, embedded in Lean

Shallow embedding of `src/mjit_compile.c`.

* `unsigned int` values (`stack_size`, `pos`, `next_pos`, `stack_max`, indices printed
  with `%d`) are natural numbers; every arithmetic operation of the source on them is
  reduced modulo `2^32` (`uadd`, `usub`, `u32`).
* `VALUE` words are natural numbers.
* The sink `FILE *f` is the list of the `fprintf` calls made on it, in order: one
  `Fprintf` record per call, holding the format string and the arguments. A helper of
  the source that only prints returns the records it prints; the caller appends them.
  Output on `stderr` (the warnings) is not part of `f` and is not modelled.
* `insns.inc`, `insns_info.inc`, `vm_core.h` are not part of the source file: what
  `mjit_compile.c` reads from them is collected in `VMInfo` and taken as a parameter.
* The C functions `compile_insn` and `compile_insns` call each other. The embedding
  bounds the nesting by a fuel counter; `mjit_compile` starts with `iseq_size + 1`,
  which is proved to be enough (`compile_insns_loop_total`).
-/

namespace MJIT

/-! ## Machine arithmetic -/

/-- A `VALUE` word of the VM. -/
abbrev VALUE := Nat

/-- Conversion to `unsigned int`: `(unsigned int)x`. -/
def u32 (n : Nat) : Nat := n % 4294967296

/-- Addition of `unsigned int`: `a + b`. -/
def uadd (a b : Nat) : Nat := (a + b) % 4294967296

/-- Subtraction of `unsigned int`: `a - b`, wrapping below zero. -/
def usub (a b : Nat) : Nat := (a % 4294967296 + 4294967296 - b % 4294967296) % 4294967296

/-- Conversion of an `unsigned int` bit pattern to `int`. -/
def int_of_u32 (n : Nat) : Int :=
  if n % 4294967296 < 2147483648 then (n % 4294967296 : Nat) else (n % 4294967296 : Nat) - 4294967296

/-- The statement `u += i` for `unsigned int u` and `int i`. -/
def uadd_int (u : Nat) (i : Int) : Nat := (((u : Int) + i) % 4294967296).toNat

/-! ## Opcodes and the tables of the VM -/

/-- The opcode constants `YARVINSN_*` named in `mjit_compile.c`: every `case` label of
the `switch` of `compile_insn`, the four labels that are commented out there
(`getblockparam`, `setblockparam`, `defineclass`, `once`), and `other` for a value of
`insn` that is none of these constants. -/
inductive YARVINSN where
  | nop | getlocal | setlocal | getblockparam | setblockparam
  | getspecial | setspecial | getinstancevariable | setinstancevariable
  | getclassvariable | setclassvariable | getconstant | setconstant
  | getglobal | setglobal | putnil | putself | putobject | putspecialobject
  | putiseq | putstring | concatstrings | tostring | freezestring | toregexp
  | intern | newarray | duparray | expandarray | concatarray | splatarray
  | newhash | newrange | pop | dup | dupn | swap | reverse | reput | topn | setn
  | adjuststack | defined | checkmatch | checkkeyword | trace | trace2
  | defineclass | send | opt_str_freeze | opt_str_uminus | opt_newarray_max
  | opt_newarray_min | opt_send_without_block | invokesuper | invokeblock
  | leave | throw | jump | branchif | branchunless | branchnil | branchiftype
  | getinlinecache | setinlinecache | once | opt_case_dispatch
  | opt_plus | opt_minus | opt_mult | opt_div | opt_mod | opt_eq | opt_neq
  | opt_lt | opt_le | opt_gt | opt_ge | opt_ltlt | opt_aref | opt_aset
  | opt_aset_with | opt_aref_with | opt_length | opt_size | opt_empty_p
  | opt_succ | opt_not | opt_regexpmatch1 | opt_regexpmatch2
  | bitblt | answer
  | getlocal_OP__WC__0 | getlocal_OP__WC__1 | setlocal_OP__WC__0 | setlocal_OP__WC__1
  | putobject_OP_INT2FIX_O_0_C_ | putobject_OP_INT2FIX_O_1_C_
  | other
  deriving DecidableEq, Repr

/-- What `mjit_compile.c` reads from files that are not part of it. -/
structure VMInfo where
  /-- The value `insn` read from the word at an instruction offset:
  `(int)body->iseq_encoded[pos]`, or `rb_vm_insn_addr2insn` of it under threaded code. -/
  insn_of_word : VALUE → Nat
  /-- The numbering of `insns.inc`: the constant `YARVINSN_*` a value of `insn` equals. -/
  opcode : Nat → YARVINSN
  /-- The table `insn_len` of `insns_info.inc`: words of an instruction, opcode included. -/
  insn_len : Nat → Nat
  /-- The table `insn_name` of `insns_info.inc`. -/
  insn_name : Nat → String
  /-- The field `orig_argc` of the `struct rb_call_info` at the address held by an operand
  (an `int`, given as its 32-bit pattern). -/
  ci_orig_argc : VALUE → Nat
  /-- The field `flag` of the `struct rb_call_info` at that address. -/
  ci_flag : VALUE → Nat
  /-- The constant `VM_CALL_ARGS_BLOCKARG` of `vm_core.h`. -/
  VM_CALL_ARGS_BLOCKARG : Nat
  /-- The constant `RUBY_EVENT_RETURN` of `ruby.h`. -/
  RUBY_EVENT_RETURN : Nat
  /-- The constant `RUBY_EVENT_B_RETURN` of `ruby.h`. -/
  RUBY_EVENT_B_RETURN : Nat
  /-- The entries `rb_hash_foreach` visits in the hash held by an operand, in order: the
  key and `FIX2INT` of the value. -/
  rb_hash_foreach : VALUE → List (VALUE × Nat)
  /-- The build option `OPT_CALL_THREADED_CODE`. -/
  OPT_CALL_THREADED_CODE : Bool

/-- The fields of `struct rb_iseq_constant_body` the translator reads. -/
structure rb_iseq_constant_body where
  /-- The words at `body->iseq_encoded`. -/
  iseq_encoded : List VALUE
  /-- The address `body->iseq_encoded` (printed in the `cfp->pc` assignments). -/
  iseq_encoded_addr : Nat
  /-- The field `stack_max`. -/
  stack_max : Nat

/-- The field `iseq_size`: the number of words at `iseq_encoded`. -/
def rb_iseq_constant_body.iseq_size (body : rb_iseq_constant_body) : Nat :=
  body.iseq_encoded.length

/-! ## The sink -/

/-- One argument of a `fprintf` call. -/
inductive Arg where
  /-- An argument printed with `%d` (an `unsigned int` or `int`, as its 32-bit pattern). -/
  | d (n : Nat)
  /-- An argument printed with `0x%"PRIxVALUE"`. -/
  | x (v : VALUE)
  /-- An argument printed with `%s`. -/
  | s (str : String)
  deriving DecidableEq, Repr

/-- One call `fprintf(f, fmt, args...)`. `PRIxVALUE` is written `lx`. -/
structure Fprintf where
  fmt : String
  args : List Arg
  deriving DecidableEq, Repr

/-- The sink `FILE *f`: the calls made on it so far. -/
abbrev FILE := List Fprintf

/-- The records of `for (i = 0; i < n; i++) step(i)`. -/
def for_lines (n : Nat) (step : Nat → List Fprintf) : List Fprintf :=
  match n with
  | 0 => []
  | k + 1 => for_lines k step ++ step k

/-! ## Compiler state -/

/-- The `struct compile_status`. -/
structure compile_status where
  /-- Has TRUE if compilation has had no issue. -/
  success : Bool
  /-- The array `compiled_for_pos`: TRUE at `pos` if the pos is compiled. -/
  compiled_for_pos : List Bool
  deriving DecidableEq, Repr

/-- The `struct compile_branch`. -/
structure compile_branch where
  /-- Simulates sp (stack pointer) of YARV. -/
  stack_size : Nat
  /-- If TRUE, compilation in this branch should stop. -/
  finish_p : Bool
  deriving DecidableEq, Repr

/-- Ghost record of the driver's work, kept beside the state and never read by the
translator. `start` is logged at the top of an iteration of the loop of `compile_insns`
(offset, opcode, the branch and the success flag at that point); `finish` at the bottom of
the same iteration, after the `stack_max` check (offset, opcode, the branch as it was at
the top of the iteration, the next offset, the branch and the success flag at that
point). -/
inductive TraceEvent where
  | start (pos : Nat) (insn : Nat) (b : compile_branch) (success : Bool)
  | finish (pos : Nat) (insn : Nat) (b_in : compile_branch) (next_pos : Nat)
      (b : compile_branch) (success : Bool)
  deriving DecidableEq, Repr

/-- What one `mjit_compile` call shares between all its branches: the sink, the
`compile_status`, and the ghost trace. -/
structure compile_state where
  f : FILE
  status : compile_status
  trace : List TraceEvent
  deriving DecidableEq, Repr

/-- Append the records of some `fprintf` calls to the sink. -/
def compile_state.emit (st : compile_state) (lines : List Fprintf) : compile_state :=
  { st with f := st.f ++ lines }

/-- The statement `status->success = FALSE`. -/
def compile_state.fail (st : compile_state) : compile_state :=
  { st with status := { st.status with success := false } }

/-! ## Emitter helpers -/

/-- The function `fprint_getlocal`. -/
def fprint_getlocal (push_pos : Nat) (idx level : VALUE) : List Fprintf :=
  [⟨"  stack[%d] = *(vm_get_ep(cfp->ep, 0x%lx) - 0x%lx);\n", [.d push_pos, .x level, .x idx]⟩,
   ⟨"  RB_DEBUG_COUNTER_INC(lvar_get);\n", []⟩] ++
  (if level > 0 then [⟨"  RB_DEBUG_COUNTER_INC(lvar_get_dynamic);\n", []⟩] else [])

/-- The function `fprint_setlocal`. -/
def fprint_setlocal (pop_pos : Nat) (idx level : VALUE) : List Fprintf :=
  [⟨"  vm_env_write(vm_get_ep(cfp->ep, 0x%lx), -(int)0x%lx, stack[%d]);\n",
      [.x level, .x idx, .d pop_pos]⟩,
   ⟨"  RB_DEBUG_COUNTER_INC(lvar_set);\n", []⟩] ++
  (if level > 0 then [⟨"  RB_DEBUG_COUNTER_INC(lvar_set_dynamic);\n", []⟩] else [])

/-- The function `fprint_args`: push back stack in local variable to YARV's stack pointer. -/
def fprint_args (argc pos : Nat) : List Fprintf :=
  if argc ≠ 0 then
    for_lines argc fun i =>
      [⟨"    *(cfp->sp) = stack[%d];\n", [.d (uadd pos i)]⟩,
       ⟨"    cfp->sp++;\n", []⟩]
  else []

/-- The function `fprint_call_method`. -/
def fprint_call_method (ci cc : VALUE) (result_pos : Nat) : List Fprintf :=
  [⟨"    \x7b\n", []⟩,
   ⟨"      VALUE v = (*((CALL_CACHE)0x%lx)->call)(th, cfp, &calling, 0x%lx, 0x%lx);\n",
      [.x cc, .x ci, .x cc]⟩,
   ⟨"      if (v == Qundef && (v = mjit_exec(th)) == Qundef) \x7b\n", []⟩,
   ⟨"        VM_ENV_FLAGS_SET(th->ec.cfp->ep, VM_FRAME_FLAG_FINISH);\n", []⟩,
   ⟨"        stack[%d] = vm_exec(th);\n", [.d result_pos]⟩,
   ⟨"      \x7d else \x7b\n", []⟩,
   ⟨"        stack[%d] = v;\n", [.d result_pos]⟩,
   ⟨"      \x7d\n", []⟩,
   ⟨"    \x7d\n", []⟩]

/-- The function `fprint_opt_call_variables`. -/
def fprint_opt_call_variables (stack_size argc : Nat) : List Fprintf :=
  [⟨"    VALUE recv = stack[%d];\n", [.d (usub stack_size argc)]⟩] ++
  (if argc ≥ 2 then [⟨"    VALUE obj = stack[%d];\n", [.d (usub stack_size (usub argc 1))]⟩]
   else []) ++
  (if argc ≥ 3 then [⟨"    VALUE obj2 = stack[%d];\n", [.d (usub stack_size (usub argc 2))]⟩]
   else [])

/-- The function `fprint_opt_call_fallback` (`ci`, `cc` and `key` are not used by it). -/
def fprint_opt_call_fallback (stack_size argc : Nat) : List Fprintf :=
  [⟨"    if (result == Qundef) \x7b\n", []⟩,
   ⟨"      cfp->sp = cfp->ep + %d;\n", [.d (uadd stack_size 1)]⟩,
   ⟨"      goto cancel;\n", []⟩,
   ⟨"    \x7d\n", []⟩,
   ⟨"    stack[%d] = result;\n", [.d (usub stack_size argc)]⟩]

/-- The function `fprint_opt_call`: print optimized call with redefinition fallback and
return stack size change. `format` and `va` are the format and the variadic arguments. -/
def fprint_opt_call (stack_size argc : Nat) (format : String) (va : List Arg) :
    List Fprintf × Int :=
  ([⟨"  \x7b\n", []⟩] ++ fprint_opt_call_variables stack_size argc ++
   [⟨"    VALUE result = ", []⟩, ⟨format, va⟩, ⟨";\n", []⟩] ++
   fprint_opt_call_fallback stack_size argc ++
   [⟨"  \x7d\n", []⟩],
   int_of_u32 (usub 1 argc))

/-- The function `fprint_opt_call_with_key`: same as `fprint_opt_call`. -/
def fprint_opt_call_with_key (stack_size argc : Nat) (format : String) (va : List Arg) :
    List Fprintf × Int :=
  ([⟨"  \x7b\n", []⟩] ++ fprint_opt_call_variables stack_size argc ++
   [⟨"    VALUE result = ", []⟩, ⟨format, va⟩, ⟨";\n", []⟩] ++
   fprint_opt_call_fallback stack_size argc ++
   [⟨"  \x7d\n", []⟩],
   int_of_u32 (usub 1 argc))

/-- The function `compile_case_dispatch_each`, for one entry of the hash: `offset` is
`FIX2INT(value)`. -/
def compile_case_dispatch_each (base_pos : Nat) (offset : Nat) : List Fprintf :=
  [⟨"    case %d:\n", [.d (u32 offset)]⟩,
   ⟨"      goto label_%d;\n", [.d (uadd base_pos (u32 offset))]⟩,
   ⟨"      break;\n", []⟩]

/-! ## The per-opcode translator -/

/-- What `compile_insn` hands back: its return value `next_pos`, the branch `*b`, and the
shared state (sink and `*status`). -/
structure insn_result where
  next_pos : Nat
  b : compile_branch
  st : compile_state

/-- The `switch (insn)` statement of `compile_insn`. `s` is `b->stack_size` on entry,
`operands i` is `operands[i]`, `next_pos` is `pos + insn_len(insn)`, and `compile_insns` is
the driver the branch arms call. -/
def compile_insn_switch (vm : VMInfo)
    (compile_insns : Nat → Nat → compile_state → Option compile_state)
    (st : compile_state) (insn : Nat) (operands : Nat → VALUE) (pos : Nat)
    (b : compile_branch) (next_pos : Nat) : Option insn_result :=
  let s := b.stack_size
  match vm.opcode insn with
  | .nop => some ⟨next_pos, b, st⟩
  | .getlocal =>
    some ⟨next_pos, { b with stack_size := uadd s 1 },
      st.emit (fprint_getlocal s (operands 0) (operands 1))⟩
  | .setlocal =>
    some ⟨next_pos, { b with stack_size := usub s 1 },
      st.emit (fprint_setlocal (usub s 1) (operands 0) (operands 1))⟩
  | .getspecial =>
    some ⟨next_pos, { b with stack_size := uadd s 1 },
      st.emit [⟨"  stack[%d] = vm_getspecial(th, VM_EP_LEP(cfp->ep), 0x%lx, 0x%lx);\n",
        [.d s, .x (operands 0), .x (operands 1)]⟩]⟩
  | .setspecial =>
    some ⟨next_pos, { b with stack_size := usub s 1 },
      st.emit [⟨"  lep_svar_set(th, VM_EP_LEP(cfp->ep), 0x%lx, stack[%d]);\n",
        [.x (operands 0), .d (usub s 1)]⟩]⟩
  | .getinstancevariable =>
    some ⟨next_pos, { b with stack_size := uadd s 1 },
      st.emit [⟨"  stack[%d] = vm_getinstancevariable(cfp->self, 0x%lx, 0x%lx);\n",
        [.d s, .x (operands 0), .x (operands 1)]⟩]⟩
  | .setinstancevariable =>
    some ⟨next_pos, { b with stack_size := usub s 1 },
      st.emit [⟨"  vm_setinstancevariable(cfp->self, 0x%lx, stack[%d], 0x%lx);\n",
        [.x (operands 0), .d (usub s 1), .x (operands 1)]⟩]⟩
  | .getclassvariable =>
    some ⟨next_pos, { b with stack_size := uadd s 1 },
      st.emit [⟨"  stack[%d] = rb_cvar_get(vm_get_cvar_base(rb_vm_get_cref(cfp->ep), cfp), 0x%lx);\n",
        [.d s, .x (operands 0)]⟩]⟩
  | .setclassvariable =>
    some ⟨next_pos, { b with stack_size := usub s 1 },
      st.emit [⟨"  vm_ensure_not_refinement_module(cfp->self);\n", []⟩,
        ⟨"  rb_cvar_set(vm_get_cvar_base(rb_vm_get_cref(cfp->ep), cfp), 0x%lx, stack[%d]);\n",
          [.x (operands 0), .d (usub s 1)]⟩]⟩
  | .getconstant =>
    some ⟨next_pos, b,
      st.emit [⟨"  stack[%d] = vm_get_ev_const(th, stack[%d], 0x%lx, 0);\n",
        [.d (usub s 1), .d (usub s 1), .x (operands 0)]⟩]⟩
  | .setconstant =>
    some ⟨next_pos, b,
      st.emit [⟨"  vm_check_if_namespace(stack[%d]);\n", [.d (usub s 2)]⟩,
        ⟨"  vm_ensure_not_refinement_module(cfp->self);\n", []⟩,
        ⟨"  rb_const_set(stack[%d], 0x%lx, stack[%d]);\n",
          [.d (usub s 2), .x (operands 0), .d (usub s 1)]⟩]⟩
  | .getglobal =>
    some ⟨next_pos, { b with stack_size := uadd s 1 },
      st.emit [⟨"  stack[%d] = GET_GLOBAL((VALUE)0x%lx);\n", [.d s, .x (operands 0)]⟩]⟩
  | .setglobal =>
    some ⟨next_pos, { b with stack_size := usub s 1 },
      st.emit [⟨"  SET_GLOBAL((VALUE)0x%lx, stack[%d]);\n", [.x (operands 0), .d (usub s 1)]⟩]⟩
  | .putnil =>
    some ⟨next_pos, { b with stack_size := uadd s 1 },
      st.emit [⟨"  stack[%d] = Qnil;\n", [.d s]⟩]⟩
  | .putself =>
    some ⟨next_pos, { b with stack_size := uadd s 1 },
      st.emit [⟨"  stack[%d] = cfp->self;\n", [.d s]⟩]⟩
  | .putobject =>
    some ⟨next_pos, { b with stack_size := uadd s 1 },
      st.emit [⟨"  stack[%d] = (VALUE)0x%lx;\n", [.d s, .x (operands 0)]⟩]⟩
  | .putspecialobject =>
    some ⟨next_pos, { b with stack_size := uadd s 1 },
      st.emit [⟨"  stack[%d] = vm_get_special_object(cfp->ep, (enum vm_special_object_type)0x%lx);\n",
        [.d s, .x (operands 0)]⟩]⟩
  | .putiseq =>
    some ⟨next_pos, { b with stack_size := uadd s 1 },
      st.emit [⟨"  stack[%d] = (VALUE)0x%lx;\n", [.d s, .x (operands 0)]⟩]⟩
  | .putstring =>
    some ⟨next_pos, { b with stack_size := uadd s 1 },
      st.emit [⟨"  stack[%d] = rb_str_resurrect(0x%lx);\n", [.d s, .x (operands 0)]⟩]⟩
  | .concatstrings =>
    some ⟨next_pos, { b with stack_size := uadd s (usub 1 (u32 (operands 0))) },
      st.emit [⟨"  stack[%d] = rb_str_concat_literals(0x%lx, stack + %d);\n",
        [.d (usub s (u32 (operands 0))), .x (operands 0), .d (usub s (u32 (operands 0)))]⟩]⟩
  | .tostring =>
    some ⟨next_pos, { b with stack_size := usub s 1 },
      st.emit [⟨"  stack[%d] = rb_obj_as_string_result(stack[%d], stack[%d]);\n",
        [.d (usub s 2), .d (usub s 1), .d (usub s 2)]⟩]⟩
  | .freezestring =>
    some ⟨next_pos, b,
      st.emit [⟨"  vm_freezestring(stack[%d], 0x%lx);\n", [.d (usub s 1), .x (operands 0)]⟩]⟩
  | .toregexp =>
    some ⟨next_pos, { b with stack_size := uadd s (usub 1 (u32 (operands 1))) },
      st.emit [⟨"  \x7b\n", []⟩,
        ⟨"    VALUE rb_reg_new_ary(VALUE ary, int options);\n", []⟩,
        ⟨"    VALUE rb_ary_tmp_new_from_values(VALUE, long, const VALUE *);\n", []⟩,
        ⟨"    const VALUE ary = rb_ary_tmp_new_from_values(0, 0x%lx, stack + %d);\n",
          [.x (operands 1), .d (usub s (u32 (operands 1)))]⟩,
        ⟨"    stack[%d] = rb_reg_new_ary(ary, (int)0x%lx);\n",
          [.d (usub s (u32 (operands 1))), .x (operands 0)]⟩,
        ⟨"    rb_ary_clear(ary);\n", []⟩,
        ⟨"  \x7d\n", []⟩]⟩
  | .intern =>
    some ⟨next_pos, b,
      st.emit [⟨"  stack[%d] = rb_str_intern(stack[%d]);\n", [.d (usub s 1), .d (usub s 1)]⟩]⟩
  | .newarray =>
    some ⟨next_pos, { b with stack_size := uadd s (usub 1 (u32 (operands 0))) },
      st.emit [⟨"  stack[%d] = rb_ary_new4(0x%lx, stack + %d);\n",
        [.d (usub s (u32 (operands 0))), .x (operands 0), .d (usub s (u32 (operands 0)))]⟩]⟩
  | .duparray =>
    some ⟨next_pos, { b with stack_size := uadd s 1 },
      st.emit [⟨"  stack[%d] = rb_ary_resurrect(0x%lx);\n", [.d s, .x (operands 0)]⟩]⟩
  | .expandarray =>
    let space_size := uadd (u32 (operands 0)) (u32 (operands 1 % 2))
    let s1 := usub s 1
    some ⟨next_pos, { b with stack_size := uadd s1 space_size },
      st.emit ([⟨"  vm_expandarray(cfp, stack[%d], 0x%lx, (int)0x%lx);\n",
          [.d s1, .x (operands 0), .x (operands 1)]⟩] ++
        for_lines space_size fun i =>
          [⟨"  cfp->sp--;\n", []⟩,
           ⟨"  stack[%d] = *(cfp->sp);\n", [.d (usub (usub (uadd s1 space_size) 1) i)]⟩])⟩
  | .concatarray =>
    some ⟨next_pos, { b with stack_size := usub s 1 },
      st.emit [⟨"  stack[%d] = vm_concat_array(stack[%d], stack[%d]);\n",
        [.d (usub s 2), .d (usub s 2), .d (usub s 1)]⟩]⟩
  | .splatarray =>
    some ⟨next_pos, b,
      st.emit [⟨"  stack[%d] = vm_splat_array(0x%lx, stack[%d]);\n",
        [.d (usub s 1), .x (operands 0), .d (usub s 1)]⟩]⟩
  | .newhash =>
    some ⟨next_pos, { b with stack_size := uadd s (usub 1 (u32 (operands 0))) },
      st.emit ([⟨"  \x7b\n", []⟩,
          ⟨"    VALUE val;\n", []⟩,
          ⟨"    RUBY_DTRACE_CREATE_HOOK(HASH, 0x%lx);\n", [.x (operands 0)]⟩,
          ⟨"    val = rb_hash_new_with_size(0x%lx / 2);\n", [.x (operands 0)]⟩] ++
        (if operands 0 ≠ 0 then
          [⟨"    rb_hash_bulk_insert(0x%lx, stack + %d, val);\n",
            [.x (operands 0), .d (usub s (u32 (operands 0)))]⟩]
         else []) ++
        [⟨"    stack[%d] = val;\n", [.d (usub s (u32 (operands 0)))]⟩,
          ⟨"  \x7d\n", []⟩])⟩
  | .newrange =>
    some ⟨next_pos, { b with stack_size := usub s 1 },
      st.emit [⟨"  stack[%d] = rb_range_new(stack[%d], stack[%d], (int)0x%lx);\n",
        [.d (usub s 2), .d (usub s 2), .d (usub s 1), .x (operands 0)]⟩]⟩
  | .pop => some ⟨next_pos, { b with stack_size := usub s 1 }, st⟩
  | .dup =>
    some ⟨next_pos, { b with stack_size := uadd s 1 },
      st.emit [⟨"  stack[%d] = stack[%d];\n", [.d s, .d (usub s 1)]⟩]⟩
  | .dupn =>
    some ⟨next_pos, { b with stack_size := uadd s (u32 (operands 0)) },
      st.emit [⟨"  MEMCPY(stack + %d, stack + %d, VALUE, 0x%lx);\n",
        [.d s, .d (usub s (u32 (operands 0))), .x (operands 0)]⟩]⟩
  | .swap =>
    some ⟨next_pos, b,
      st.emit [⟨"  \x7b\n", []⟩,
        ⟨"    VALUE tmp = stack[%d];\n", [.d (usub s 1)]⟩,
        ⟨"    stack[%d] = stack[%d];\n", [.d (usub s 1), .d (usub s 2)]⟩,
        ⟨"    stack[%d] = tmp;\n", [.d (usub s 2)]⟩,
        ⟨"  \x7d\n", []⟩]⟩
  | .reverse =>
    let n := u32 (operands 0)
    let base := usub s n
    some ⟨next_pos, b,
      st.emit ([⟨"  \x7b\n", []⟩,
          ⟨"    VALUE v0;\n", []⟩,
          ⟨"    VALUE v1;\n", []⟩] ++
        (for_lines (n / 2) fun i =>
          [⟨"    v0 = stack[%d];\n", [.d (uadd base i)]⟩,
           ⟨"    v1 = stack[%d];\n", [.d (usub (usub (uadd base n) i) 1)]⟩,
           ⟨"    stack[%d] = v1;\n", [.d (uadd base i)]⟩,
           ⟨"    stack[%d] = v0;\n", [.d (usub (usub (uadd base n) i) 1)]⟩]) ++
        [⟨"  \x7d\n", []⟩])⟩
  | .reput =>
    some ⟨next_pos, b,
      st.emit [⟨"  stack[%d] = stack[%d];\n", [.d (usub s 1), .d (usub s 1)]⟩]⟩
  | .topn =>
    some ⟨next_pos, { b with stack_size := uadd s 1 },
      st.emit [⟨"  stack[%d] = stack[%d];\n", [.d s, .d (usub s (u32 (operands 0)))]⟩]⟩
  | .setn =>
    some ⟨next_pos, b,
      st.emit [⟨"  stack[%d] = stack[%d];\n",
        [.d (usub (usub s 1) (u32 (operands 0))), .d (usub s 1)]⟩]⟩
  | .adjuststack =>
    some ⟨next_pos, { b with stack_size := usub s (u32 (operands 0)) }, st⟩
  | .defined =>
    some ⟨next_pos, b,
      st.emit [⟨"  stack[%d] = vm_defined(th, cfp, 0x%lx, 0x%lx, 0x%lx, stack[%d]);\n",
        [.d (usub s 1), .x (operands 0), .x (operands 1), .x (operands 2), .d (usub s 1)]⟩]⟩
  | .checkmatch =>
    some ⟨next_pos, { b with stack_size := usub s 1 },
      st.emit [⟨"  stack[%d] = vm_check_match(stack[%d], stack[%d], 0x%lx);\n",
        [.d (usub s 2), .d (usub s 2), .d (usub s 1), .x (operands 0)]⟩]⟩
  | .checkkeyword =>
    some ⟨next_pos, { b with stack_size := uadd s 1 },
      st.emit [⟨"  stack[%d] = vm_check_keyword(0x%lx, 0x%lx, cfp->ep);\n",
        [.d s, .x (operands 0), .x (operands 1)]⟩]⟩
  | .trace =>
    some ⟨next_pos, b,
      st.emit ([⟨"  vm_dtrace((rb_event_flag_t)0x%lx, th);\n", [.x (operands 0)]⟩] ++
        (if operands 0 &&& (vm.RUBY_EVENT_RETURN ||| vm.RUBY_EVENT_B_RETURN) ≠ 0 then
          [⟨"  EXEC_EVENT_HOOK(th, (rb_event_flag_t)0x%lx, cfp->self, 0, 0, 0, stack[%d]);\n",
            [.x (operands 0), .d (usub s 1)]⟩]
         else
          [⟨"  EXEC_EVENT_HOOK(th, (rb_event_flag_t)0x%lx, cfp->self, 0, 0, 0, Qundef);\n",
            [.x (operands 0)]⟩]))⟩
  | .trace2 =>
    some ⟨next_pos, b,
      st.emit [⟨"  vm_dtrace((rb_event_flag_t)0x%lx, th);\n", [.x (operands 0)]⟩,
        ⟨"  EXEC_EVENT_HOOK(th, (rb_event_flag_t)0x%lx, cfp->self, 0, 0, 0, 0x%lx);\n",
          [.x (operands 0), .x (operands 1)]⟩]⟩
  | .send =>
    let orig_argc := vm.ci_orig_argc (operands 0)
    let push_count :=
      uadd orig_argc (if vm.ci_flag (operands 0) &&& vm.VM_CALL_ARGS_BLOCKARG ≠ 0 then 1 else 0)
    some ⟨next_pos, { b with stack_size := usub s push_count },
      st.emit ([⟨"  \x7b\n", []⟩,
          ⟨"    struct rb_calling_info calling;\n", []⟩] ++
        fprint_args (uadd push_count 1) (usub (usub s push_count) 1) ++
        [⟨"    vm_caller_setup_arg_block(th, cfp, &calling, 0x%lx, 0x%lx, FALSE);\n",
            [.x (operands 0), .x (operands 2)]⟩,
          ⟨"    calling.argc = %d;\n", [.d orig_argc]⟩,
          ⟨"    vm_search_method(0x%lx, 0x%lx, calling.recv = stack[%d]);\n",
            [.x (operands 0), .x (operands 1), .d (usub (usub s 1) push_count)]⟩] ++
        fprint_call_method (operands 0) (operands 1) (usub (usub s push_count) 1) ++
        [⟨"  \x7d\n", []⟩])⟩
  | .opt_str_freeze =>
    some ⟨next_pos, { b with stack_size := uadd s 1 },
      st.emit [⟨"  if (BASIC_OP_UNREDEFINED_P(BOP_FREEZE, STRING_REDEFINED_OP_FLAG)) \x7b\n", []⟩,
        ⟨"    stack[%d] = 0x%lx;\n", [.d s, .x (operands 0)]⟩,
        ⟨"  \x7d else \x7b\n", []⟩,
        ⟨"    stack[%d] = rb_funcall(rb_str_resurrect(0x%lx), idFreeze, 0);\n",
          [.d s, .x (operands 0)]⟩,
        ⟨"  \x7d\n", []⟩]⟩
  | .opt_str_uminus =>
    some ⟨next_pos, { b with stack_size := uadd s 1 },
      st.emit [⟨"  if (BASIC_OP_UNREDEFINED_P(BOP_UMINUS, STRING_REDEFINED_OP_FLAG)) \x7b\n", []⟩,
        ⟨"    stack[%d] = 0x%lx;\n", [.d s, .x (operands 0)]⟩,
        ⟨"  \x7d else \x7b\n", []⟩,
        ⟨"    stack[%d] = rb_funcall(rb_str_resurrect(0x%lx), idUMinus, 0);\n",
          [.d s, .x (operands 0)]⟩,
        ⟨"  \x7d\n", []⟩]⟩
  | .opt_newarray_max =>
    some ⟨next_pos, { b with stack_size := uadd s (usub 1 (u32 (operands 0))) },
      st.emit [⟨"  stack[%d] = vm_opt_newarray_max(0x%lx, stack + %d);\n",
        [.d (usub s (u32 (operands 0))), .x (operands 0), .d (usub s (u32 (operands 0)))]⟩]⟩
  | .opt_newarray_min =>
    some ⟨next_pos, { b with stack_size := uadd s (usub 1 (u32 (operands 0))) },
      st.emit [⟨"  stack[%d] = vm_opt_newarray_min(0x%lx, stack + %d);\n",
        [.d (usub s (u32 (operands 0))), .x (operands 0), .d (usub s (u32 (operands 0)))]⟩]⟩
  | .opt_send_without_block =>
    let orig_argc := vm.ci_orig_argc (operands 0)
    some ⟨next_pos, { b with stack_size := usub s orig_argc },
      st.emit ([⟨"  \x7b\n", []⟩,
          ⟨"    struct rb_calling_info calling;\n", []⟩,
          ⟨"    calling.block_handler = VM_BLOCK_HANDLER_NONE;\n", []⟩,
          ⟨"    calling.argc = %d;\n", [.d orig_argc]⟩,
          ⟨"    vm_search_method(0x%lx, 0x%lx, calling.recv = stack[%d]);\n",
            [.x (operands 0), .x (operands 1), .d (usub (usub s 1) orig_argc)]⟩] ++
        fprint_args (uadd orig_argc 1) (usub (usub s orig_argc) 1) ++
        fprint_call_method (operands 0) (operands 1) (usub (usub s orig_argc) 1) ++
        [⟨"  \x7d\n", []⟩])⟩
  | .invokesuper =>
    let orig_argc := vm.ci_orig_argc (operands 0)
    let push_count :=
      uadd orig_argc (if vm.ci_flag (operands 0) &&& vm.VM_CALL_ARGS_BLOCKARG ≠ 0 then 1 else 0)
    some ⟨next_pos, { b with stack_size := usub s push_count },
      st.emit ([⟨"  \x7b\n", []⟩,
          ⟨"    struct rb_calling_info calling;\n", []⟩,
          ⟨"    calling.argc = %d;\n", [.d orig_argc]⟩] ++
        fprint_args (uadd push_count 1) (usub (usub s push_count) 1) ++
        [⟨"    vm_caller_setup_arg_block(th, cfp, &calling, 0x%lx, 0x%lx, TRUE);\n",
            [.x (operands 0), .x (operands 2)]⟩,
          ⟨"    calling.recv = cfp->self;\n", []⟩,
          ⟨"    vm_search_super_method(th, cfp, &calling, 0x%lx, 0x%lx);\n",
            [.x (operands 0), .x (operands 1)]⟩] ++
        fprint_call_method (operands 0) (operands 1) (usub (usub s push_count) 1) ++
        [⟨"  \x7d\n", []⟩])⟩
  | .invokeblock =>
    let orig_argc := vm.ci_orig_argc (operands 0)
    some ⟨next_pos, { b with stack_size := uadd s (usub 1 orig_argc) },
      st.emit ([⟨"  \x7b\n", []⟩,
          ⟨"    struct rb_calling_info calling;\n", []⟩,
          ⟨"    calling.argc = %d;\n", [.d orig_argc]⟩,
          ⟨"    calling.block_handler = VM_BLOCK_HANDLER_NONE;\n", []⟩,
          ⟨"    calling.recv = cfp->self;\n", []⟩] ++
        fprint_args orig_argc (usub s orig_argc) ++
        [⟨"    stack[%d] = vm_invoke_block(th, cfp, &calling, 0x%lx);\n",
            [.d (usub s orig_argc), .x (operands 0)]⟩,
          ⟨"    if (stack[%d] == Qundef) \x7b\n", [.d (usub s orig_argc)]⟩,
          ⟨"      VM_ENV_FLAGS_SET(th->ec.cfp->ep, VM_FRAME_FLAG_FINISH);\n", []⟩,
          ⟨"      stack[%d] = vm_exec(th);\n", [.d (usub s orig_argc)]⟩,
          ⟨"    \x7d\n", []⟩,
          ⟨"  \x7d\n", []⟩])⟩
  | .leave =>
    let st := if s ≠ 1 then st.fail else st
    some ⟨next_pos, { b with finish_p := true },
      st.emit ([⟨"  RUBY_VM_CHECK_INTS(th);\n", []⟩,
          ⟨"  vm_pop_frame(th, cfp, cfp->ep);\n", []⟩] ++
        (if vm.OPT_CALL_THREADED_CODE then
          [⟨"  th->retval = stack[%d];\n", [.d (usub s 1)]⟩,
           ⟨"  return 0;\n", []⟩]
         else
          [⟨"  return stack[%d];\n", [.d (usub s 1)]⟩]))⟩
  | .throw =>
    some ⟨next_pos, { stack_size := usub s 1, finish_p := true },
      st.emit [⟨"  RUBY_VM_CHECK_INTS(th);\n", []⟩,
        ⟨"  THROW_EXCEPTION(vm_throw(th, cfp, 0x%lx, stack[%d]));\n",
          [.x (operands 0), .d (usub s 1)]⟩]⟩
  | .jump =>
    let next_pos := uadd (uadd pos (vm.insn_len insn)) (u32 (operands 0))
    some ⟨next_pos, b,
      st.emit [⟨"  RUBY_VM_CHECK_INTS(th);\n", []⟩,
        ⟨"  goto label_%d;\n", [.d next_pos]⟩]⟩
  | .branchif =>
    let b := { b with stack_size := usub s 1 }
    let st := st.emit [⟨"  if (RTEST(stack[%d])) \x7b\n", [.d b.stack_size]⟩,
      ⟨"    RUBY_VM_CHECK_INTS(th);\n", []⟩,
      ⟨"    goto label_%d;\n", [.d (uadd (uadd pos (vm.insn_len insn)) (u32 (operands 0)))]⟩,
      ⟨"  \x7d\n", []⟩]
    match compile_insns b.stack_size (uadd pos (vm.insn_len insn)) st with
    | none => none
    | some st => some ⟨uadd (uadd pos (vm.insn_len insn)) (u32 (operands 0)), b, st⟩
  | .branchunless =>
    let b := { b with stack_size := usub s 1 }
    let st := st.emit [⟨"  if (!RTEST(stack[%d])) \x7b\n", [.d b.stack_size]⟩,
      ⟨"    RUBY_VM_CHECK_INTS(th);\n", []⟩,
      ⟨"    goto label_%d;\n", [.d (uadd (uadd pos (vm.insn_len insn)) (u32 (operands 0)))]⟩,
      ⟨"  \x7d\n", []⟩]
    match compile_insns b.stack_size (uadd pos (vm.insn_len insn)) st with
    | none => none
    | some st => some ⟨uadd (uadd pos (vm.insn_len insn)) (u32 (operands 0)), b, st⟩
  | .branchnil =>
    let b := { b with stack_size := usub s 1 }
    let st := st.emit [⟨"  if (NIL_P(stack[%d])) \x7b\n", [.d b.stack_size]⟩,
      ⟨"    RUBY_VM_CHECK_INTS(th);\n", []⟩,
      ⟨"    goto label_%d;\n", [.d (uadd (uadd pos (vm.insn_len insn)) (u32 (operands 0)))]⟩,
      ⟨"  \x7d\n", []⟩]
    match compile_insns b.stack_size (uadd pos (vm.insn_len insn)) st with
    | none => none
    | some st => some ⟨uadd (uadd pos (vm.insn_len insn)) (u32 (operands 0)), b, st⟩
  | .branchiftype =>
    some ⟨next_pos, { b with stack_size := usub s 1 },
      st.emit [⟨"  if (TYPE(stack[%d]) == (int)0x%lx) \x7b\n", [.d (usub s 1), .x (operands 0)]⟩,
        ⟨"    RUBY_VM_CHECK_INTS(th);\n", []⟩,
        ⟨"    goto label_%d;\n", [.d (uadd (uadd pos (vm.insn_len insn)) (u32 (operands 1)))]⟩,
        ⟨"  \x7d\n", []⟩]⟩
  | .getinlinecache =>
    some ⟨next_pos, { b with stack_size := uadd s 1 },
      st.emit [⟨"  stack[%d] = vm_ic_hit_p(0x%lx, cfp->ep);", [.d s, .x (operands 1)]⟩,
        ⟨"  if (stack[%d] != Qnil) \x7b\n", [.d s]⟩,
        ⟨"    goto label_%d;\n", [.d (uadd (uadd pos (vm.insn_len insn)) (u32 (operands 0)))]⟩,
        ⟨"  \x7d\n", []⟩]⟩
  | .setinlinecache =>
    some ⟨next_pos, b,
      st.emit [⟨"  vm_ic_update(0x%lx, stack[%d], cfp->ep);\n", [.x (operands 0), .d (usub s 1)]⟩]⟩
  | .opt_case_dispatch =>
    let base_pos := uadd pos (vm.insn_len insn)
    some ⟨next_pos, { b with stack_size := usub s 1 },
      st.emit ([⟨"  switch (vm_case_dispatch(0x%lx, 0x%lx, stack[%d])) \x7b\n",
          [.x (operands 0), .x (operands 1), .d (usub s 1)]⟩] ++
        ((vm.rb_hash_foreach (operands 0)).map
          (fun kv => compile_case_dispatch_each base_pos kv.2)).flatten ++
        [⟨"  \x7d\n", []⟩])⟩
  | .opt_plus =>
    let r := fprint_opt_call s 2 "vm_opt_plus(recv, obj)" []
    some ⟨next_pos, { b with stack_size := uadd_int s r.2 }, st.emit r.1⟩
  | .opt_minus =>
    let r := fprint_opt_call s 2 "vm_opt_minus(recv, obj)" []
    some ⟨next_pos, { b with stack_size := uadd_int s r.2 }, st.emit r.1⟩
  | .opt_mult =>
    let r := fprint_opt_call s 2 "vm_opt_mult(recv, obj)" []
    some ⟨next_pos, { b with stack_size := uadd_int s r.2 }, st.emit r.1⟩
  | .opt_div =>
    let r := fprint_opt_call s 2 "vm_opt_div(recv, obj)" []
    some ⟨next_pos, { b with stack_size := uadd_int s r.2 }, st.emit r.1⟩
  | .opt_mod =>
    let r := fprint_opt_call s 2 "vm_opt_mod(recv, obj)" []
    some ⟨next_pos, { b with stack_size := uadd_int s r.2 }, st.emit r.1⟩
  | .opt_eq =>
    let r := fprint_opt_call s 2 "opt_eq_func(recv, obj, 0x%lx, 0x%lx)"
      [.x (operands 0), .x (operands 1)]
    some ⟨next_pos, { b with stack_size := uadd_int s r.2 }, st.emit r.1⟩
  | .opt_neq =>
    let r := fprint_opt_call s 2 "vm_opt_neq(0x%lx, 0x%lx, 0x%lx, 0x%lx, recv, obj)"
      [.x (operands 0), .x (operands 1), .x (operands 2), .x (operands 3)]
    some ⟨next_pos, { b with stack_size := uadd_int s r.2 }, st.emit r.1⟩
  | .opt_lt =>
    let r := fprint_opt_call s 2 "vm_opt_lt(recv, obj)" []
    some ⟨next_pos, { b with stack_size := uadd_int s r.2 }, st.emit r.1⟩
  | .opt_le =>
    let r := fprint_opt_call s 2 "vm_opt_le(recv, obj)" []
    some ⟨next_pos, { b with stack_size := uadd_int s r.2 }, st.emit r.1⟩
  | .opt_gt =>
    let r := fprint_opt_call s 2 "vm_opt_gt(recv, obj)" []
    some ⟨next_pos, { b with stack_size := uadd_int s r.2 }, st.emit r.1⟩
  | .opt_ge =>
    let r := fprint_opt_call s 2 "vm_opt_ge(recv, obj)" []
    some ⟨next_pos, { b with stack_size := uadd_int s r.2 }, st.emit r.1⟩
  | .opt_ltlt =>
    let r := fprint_opt_call s 2 "vm_opt_ltlt(recv, obj)" []
    some ⟨next_pos, { b with stack_size := uadd_int s r.2 }, st.emit r.1⟩
  | .opt_aref =>
    let r := fprint_opt_call s 2 "vm_opt_aref(recv, obj)" []
    some ⟨next_pos, { b with stack_size := uadd_int s r.2 }, st.emit r.1⟩
  | .opt_aset =>
    let r := fprint_opt_call s 3 "vm_opt_aset(recv, obj, obj2)" []
    some ⟨next_pos, { b with stack_size := uadd_int s r.2 }, st.emit r.1⟩
  | .opt_aset_with =>
    let r := fprint_opt_call_with_key s 2 "vm_opt_aset_with(recv, 0x%lx, obj)" [.x (operands 2)]
    some ⟨next_pos, { b with stack_size := uadd_int s r.2 }, st.emit r.1⟩
  | .opt_aref_with =>
    let r := fprint_opt_call_with_key s 1 "vm_opt_aref_with(recv, 0x%lx)" [.x (operands 2)]
    some ⟨next_pos, { b with stack_size := uadd_int s r.2 }, st.emit r.1⟩
  | .opt_length =>
    some ⟨next_pos, b, st.emit (fprint_opt_call s 1 "vm_opt_length(recv, BOP_LENGTH)" []).1⟩
  | .opt_size =>
    some ⟨next_pos, b, st.emit (fprint_opt_call s 1 "vm_opt_length(recv, BOP_SIZE)" []).1⟩
  | .opt_empty_p =>
    some ⟨next_pos, b, st.emit (fprint_opt_call s 1 "vm_opt_empty_p(recv)" []).1⟩
  | .opt_succ =>
    some ⟨next_pos, b, st.emit (fprint_opt_call s 1 "vm_opt_succ(recv)" []).1⟩
  | .opt_not =>
    some ⟨next_pos, b,
      st.emit (fprint_opt_call s 1 "vm_opt_not(0x%lx, 0x%lx, recv)"
        [.x (operands 0), .x (operands 1)]).1⟩
  | .opt_regexpmatch1 =>
    some ⟨next_pos, b,
      st.emit [⟨"  stack[%d] = vm_opt_regexpmatch1((VALUE)0x%lx, stack[%d]);\n",
        [.d (usub s 1), .x (operands 0), .d (usub s 1)]⟩]⟩
  | .opt_regexpmatch2 =>
    let r := fprint_opt_call s 2 "vm_opt_regexpmatch2(recv, obj)" []
    some ⟨next_pos, { b with stack_size := uadd_int s r.2 }, st.emit r.1⟩
  | .bitblt =>
    some ⟨next_pos, { b with stack_size := uadd s 1 },
      st.emit [⟨"  stack[%d] = rb_str_new2(\"a bit of bacon, lettuce and tomato\");\n", [.d s]⟩]⟩
  | .answer =>
    some ⟨next_pos, { b with stack_size := uadd s 1 },
      st.emit [⟨"  stack[%d] = INT2FIX(42);\n", [.d s]⟩]⟩
  | .getlocal_OP__WC__0 =>
    some ⟨next_pos, { b with stack_size := uadd s 1 },
      st.emit (fprint_getlocal s (operands 0) 0)⟩
  | .getlocal_OP__WC__1 =>
    some ⟨next_pos, { b with stack_size := uadd s 1 },
      st.emit (fprint_getlocal s (operands 0) 1)⟩
  | .setlocal_OP__WC__0 =>
    some ⟨next_pos, { b with stack_size := usub s 1 },
      st.emit (fprint_setlocal (usub s 1) (operands 0) 0)⟩
  | .setlocal_OP__WC__1 =>
    some ⟨next_pos, { b with stack_size := usub s 1 },
      st.emit (fprint_setlocal (usub s 1) (operands 0) 1)⟩
  | .putobject_OP_INT2FIX_O_0_C_ =>
    some ⟨next_pos, { b with stack_size := uadd s 1 },
      st.emit [⟨"  stack[%d] = INT2FIX(0);\n", [.d s]⟩]⟩
  | .putobject_OP_INT2FIX_O_1_C_ =>
    some ⟨next_pos, { b with stack_size := uadd s 1 },
      st.emit [⟨"  stack[%d] = INT2FIX(1);\n", [.d s]⟩]⟩
  -- default: getblockparam, setblockparam, defineclass, once and any other value
  | _ => some ⟨next_pos, b, st.fail⟩

/-- The last statement of `compile_insn`: if next_pos is already compiled, next
instruction will not be compiled in C code and needs `goto`. The array is read only when
`next_pos < body->iseq_size`; a read outside the array yields `none`. -/
def compile_insn_goto (vm : VMInfo) (body : rb_iseq_constant_body) (insn : Nat)
    (r : insn_result) : Option insn_result :=
  let goto_next : insn_result :=
    { r with st := r.st.emit [⟨"  goto label_%d;\n", [.d r.next_pos]⟩] }
  if r.next_pos < body.iseq_size then
    match r.st.status.compiled_for_pos[r.next_pos]? with
    | none => none
    | some compiled =>
      if compiled = true ∨ vm.opcode insn = .jump then some goto_next else some r
  else if vm.opcode insn = .jump then some goto_next else some r

/-- The function `compile_insn`: compile one insn to F, may modify `b->stack_size` and
return next position. -/
def compile_insn (vm : VMInfo)
    (compile_insns : Nat → Nat → compile_state → Option compile_state)
    (st : compile_state) (body : rb_iseq_constant_body) (insn : Nat)
    (operands : Nat → VALUE) (pos : Nat) (b : compile_branch) : Option insn_result :=
  let next_pos := uadd pos (vm.insn_len insn)
  let st := st.emit [⟨"  cfp->pc = (VALUE *)0x%lx;\n", [.x (body.iseq_encoded_addr + 8 * pos)]⟩]
  match compile_insn_switch vm compile_insns st insn operands pos b next_pos with
  | none => none
  | some r => compile_insn_goto vm body insn r

/-! ## The driver -/

/-- The pointer `body->iseq_encoded + (pos+1)` the driver hands to `compile_insn` as
`operands`: `operands[i]` is the word at `pos + 1 + i`, and 0 beyond the last word. -/
def operands_at (body : rb_iseq_constant_body) (pos : Nat) : Nat → VALUE :=
  fun i => body.iseq_encoded.getD (pos + 1 + i) 0

/-- The `while` loop of `compile_insns`, entered with the branch `branch`. The result is
`none` when the fuel is used up or an array is read outside its bounds. -/
def compile_insns_loop (vm : VMInfo) (body : rb_iseq_constant_body) :
    Nat → compile_branch → Nat → compile_state → Option compile_state
  | 0, _, _, _ => none
  | fuel + 1, branch, pos, st =>
    if pos < body.iseq_size then
      match st.status.compiled_for_pos[pos]?, body.iseq_encoded[pos]? with
      | some compiled, some word =>
        if compiled = true ∨ branch.finish_p = true then some st
        else
          let insn := vm.insn_of_word word
          let st : compile_state :=
            { st with
              status := { st.status with
                compiled_for_pos := st.status.compiled_for_pos.set pos true }
              trace := st.trace ++ [.start pos insn branch st.status.success] }
          let st := st.emit [⟨"\nlabel_%d: /* %s */\n", [.d pos, .s (vm.insn_name insn)]⟩]
          match compile_insn vm
              (fun stack_size pos st =>
                compile_insns_loop vm body fuel ⟨stack_size, false⟩ pos st)
              st body insn (operands_at body pos) pos branch with
          | none => none
          | some r =>
            let st :=
              if r.st.status.success = true ∧ r.b.stack_size > body.stack_max then r.st.fail
              else r.st
            let st : compile_state :=
              { st with
                trace := st.trace ++ [.finish pos insn branch r.next_pos r.b st.status.success] }
            if st.status.success = false then some st
            else compile_insns_loop vm body fuel r.b r.next_pos st
      | _, _ => none
    else some st

/-- The function `compile_insns`: compile one conditional branch. -/
def compile_insns (vm : VMInfo) (body : rb_iseq_constant_body) (fuel : Nat)
    (st : compile_state) (stack_size pos : Nat) : Option compile_state :=
  compile_insns_loop vm body fuel ⟨stack_size, false⟩ pos st

/-! ## Prologue and cancel epilogue -/

/-- The function `compile_cancel_handler`: print basic block code to cancel JIT execution. -/
def compile_cancel_handler (body : rb_iseq_constant_body) : List Fprintf :=
  [⟨"cancel:\n", []⟩] ++
  (for_lines body.stack_max fun i =>
    [⟨"  *((VALUE *)cfp->ep + %d) = stack[%d];\n", [.d (uadd i 1), .d i]⟩]) ++
  [⟨"  return Qundef;\n", []⟩]

/-- The state `mjit_compile` hands to `compile_insns`: the header printed, the flag TRUE,
the array zeroed. -/
def mjit_compile_init (body : rb_iseq_constant_body) (funcname : String) : compile_state :=
  let st : compile_state :=
    { f := [⟨"VALUE %s(rb_thread_t *th, rb_control_frame_t *cfp) \x7b\n", [.s funcname]⟩]
      status := { success := true, compiled_for_pos := List.replicate body.iseq_size false }
      trace := [] }
  if body.stack_max > 0 then st.emit [⟨"  VALUE stack[%d];\n", [.d body.stack_max]⟩] else st

/-- The function `mjit_compile`: compile ISeq to C code in F. The result is the state at
its `return`: `f` holds what was printed, `status.success` is the value returned (1 if it
succeeds to compile), `trace` is the ghost trace. -/
def mjit_compile (vm : VMInfo) (body : rb_iseq_constant_body) (funcname : String) :
    Option compile_state :=
  match compile_insns vm body (body.iseq_size + 1) (mjit_compile_init body funcname) 0 0 with
  | none => none
  | some st => some ((st.emit (compile_cancel_handler body)).emit [⟨"\x7d\n", []⟩])

/-! ## A sample VM

A concrete `VMInfo`, used where a statement is evaluated at a concrete input. -/

/-- A sample opcode table: the instructions in the order of `insns.def` of the time of
the source (value `i` is the `i`-th entry, counted from 0). `opt_call_c_function`, value
90, has no `case` in `compile_insn`. -/
def sample_opcodes : List YARVINSN := [
  YARVINSN.nop, YARVINSN.getlocal, YARVINSN.setlocal, YARVINSN.getblockparam,
  YARVINSN.setblockparam, YARVINSN.getspecial, YARVINSN.setspecial,
  YARVINSN.getinstancevariable, YARVINSN.setinstancevariable, YARVINSN.getclassvariable,
  YARVINSN.setclassvariable, YARVINSN.getconstant, YARVINSN.setconstant, YARVINSN.getglobal,
  YARVINSN.setglobal, YARVINSN.putnil, YARVINSN.putself, YARVINSN.putobject,
  YARVINSN.putspecialobject, YARVINSN.putiseq, YARVINSN.putstring, YARVINSN.concatstrings,
  YARVINSN.tostring, YARVINSN.freezestring, YARVINSN.toregexp, YARVINSN.intern,
  YARVINSN.newarray, YARVINSN.duparray, YARVINSN.expandarray, YARVINSN.concatarray,
  YARVINSN.splatarray, YARVINSN.newhash, YARVINSN.newrange, YARVINSN.pop, YARVINSN.dup,
  YARVINSN.dupn, YARVINSN.swap, YARVINSN.reverse, YARVINSN.reput, YARVINSN.topn, YARVINSN.setn,
  YARVINSN.adjuststack, YARVINSN.defined, YARVINSN.checkmatch, YARVINSN.checkkeyword,
  YARVINSN.trace, YARVINSN.trace2, YARVINSN.defineclass, YARVINSN.send,
  YARVINSN.opt_str_freeze, YARVINSN.opt_str_uminus, YARVINSN.opt_newarray_max,
  YARVINSN.opt_newarray_min, YARVINSN.opt_send_without_block, YARVINSN.invokesuper,
  YARVINSN.invokeblock, YARVINSN.leave, YARVINSN.throw, YARVINSN.jump, YARVINSN.branchif,
  YARVINSN.branchunless, YARVINSN.branchnil, YARVINSN.branchiftype, YARVINSN.getinlinecache,
  YARVINSN.setinlinecache, YARVINSN.once, YARVINSN.opt_case_dispatch, YARVINSN.opt_plus,
  YARVINSN.opt_minus, YARVINSN.opt_mult, YARVINSN.opt_div, YARVINSN.opt_mod, YARVINSN.opt_eq,
  YARVINSN.opt_neq, YARVINSN.opt_lt, YARVINSN.opt_le, YARVINSN.opt_gt, YARVINSN.opt_ge,
  YARVINSN.opt_ltlt, YARVINSN.opt_aref, YARVINSN.opt_aset, YARVINSN.opt_aset_with,
  YARVINSN.opt_aref_with, YARVINSN.opt_length, YARVINSN.opt_size, YARVINSN.opt_empty_p,
  YARVINSN.opt_succ, YARVINSN.opt_not, YARVINSN.opt_regexpmatch1, YARVINSN.opt_regexpmatch2,
  YARVINSN.other, YARVINSN.bitblt, YARVINSN.answer, YARVINSN.getlocal_OP__WC__0,
  YARVINSN.getlocal_OP__WC__1, YARVINSN.setlocal_OP__WC__0, YARVINSN.setlocal_OP__WC__1,
  YARVINSN.putobject_OP_INT2FIX_O_0_C_, YARVINSN.putobject_OP_INT2FIX_O_1_C_]

/-- The length in words of each instruction of `sample_opcodes`. -/
def sample_lens : List Nat := [
  1, 3, 3, 3, 3, 3, 2, 3, 3, 2, 2, 2, 2, 2, 2, 1, 1, 2, 2, 2, 2, 2, 1, 2, 3, 1, 2, 2, 3, 1, 2,
  2, 2, 1, 1, 2, 1, 2, 1, 2, 2, 2, 4, 2, 3, 2, 3, 4, 4, 2, 2, 2, 2, 3, 4, 2, 1, 2, 2, 2, 2, 2,
  3, 3, 2, 3, 3, 3, 3, 3, 3, 3, 3, 5, 3, 3, 3, 3, 3, 3, 3, 4, 4, 3, 3, 3, 3, 3, 2, 3, 2, 1, 1,
  2, 2, 2, 2, 1, 1]

/-- The name of each instruction of `sample_opcodes`. -/
def sample_names : List String := [
  "nop", "getlocal", "setlocal", "getblockparam", "setblockparam", "getspecial", "setspecial",
  "getinstancevariable", "setinstancevariable", "getclassvariable", "setclassvariable",
  "getconstant", "setconstant", "getglobal", "setglobal", "putnil", "putself", "putobject",
  "putspecialobject", "putiseq", "putstring", "concatstrings", "tostring", "freezestring",
  "toregexp", "intern", "newarray", "duparray", "expandarray", "concatarray", "splatarray",
  "newhash", "newrange", "pop", "dup", "dupn", "swap", "reverse", "reput", "topn", "setn",
  "adjuststack", "defined", "checkmatch", "checkkeyword", "trace", "trace2", "defineclass",
  "send", "opt_str_freeze", "opt_str_uminus", "opt_newarray_max", "opt_newarray_min",
  "opt_send_without_block", "invokesuper", "invokeblock", "leave", "throw", "jump", "branchif",
  "branchunless", "branchnil", "branchiftype", "getinlinecache", "setinlinecache", "once",
  "opt_case_dispatch", "opt_plus", "opt_minus", "opt_mult", "opt_div", "opt_mod", "opt_eq",
  "opt_neq", "opt_lt", "opt_le", "opt_gt", "opt_ge", "opt_ltlt", "opt_aref", "opt_aset",
  "opt_aset_with", "opt_aref_with", "opt_length", "opt_size", "opt_empty_p", "opt_succ",
  "opt_not", "opt_regexpmatch1", "opt_regexpmatch2", "opt_call_c_function", "bitblt", "answer",
  "getlocal_OP__WC__0", "getlocal_OP__WC__1", "setlocal_OP__WC__0", "setlocal_OP__WC__1",
  "putobject_OP_INT2FIX_O_0_C_", "putobject_OP_INT2FIX_O_1_C_"]

/-- A sample VM: a word of the stream is the opcode value itself (no threaded code), the
opcode tables are `sample_opcodes`, `sample_lens` and `sample_names`, the call info at
address `a` has `orig_argc = a` and no flag set, hashes are empty, and the constants have
their values of `vm_core.h` and `ruby.h`. -/
def sample_vm : VMInfo where
  insn_of_word w := w
  opcode i := sample_opcodes.getD i .other
  insn_len i := sample_lens.getD i 1
  insn_name i := sample_names.getD i "unknown"
  ci_orig_argc a := u32 a
  ci_flag _ := 0
  VM_CALL_ARGS_BLOCKARG := 2
  RUBY_EVENT_RETURN := 16
  RUBY_EVENT_B_RETURN := 512
  rb_hash_foreach _ := []
  OPT_CALL_THREADED_CODE := false

/-! ## Notions used to state the properties -/

/-- The arm of `compile_insn_switch` for one instruction, run on an empty sink with the
flag TRUE and a driver that does nothing: `next_pos`, the branch after the arm, the
records the arm prints (`st.f`) and whether the arm kept the flag (`st.status.success`). -/
def arm (vm : VMInfo) (insn : Nat) (operands : Nat → VALUE) (pos : Nat) (b : compile_branch) :
    Option insn_result :=
  compile_insn_switch vm (fun _ _ st => some st) ⟨[], ⟨true, []⟩, []⟩ insn operands pos b
    (uadd pos (vm.insn_len insn))

/-- The opcodes whose arm calls the driver on the fall-through offset. -/
def is_fork (op : YARVINSN) : Bool :=
  match op with
  | .branchif | .branchunless | .branchnil => true
  | _ => false

/-- The offset `k` when the record is the label line `label_<k>:` printed by the driver. -/
def label_pos (r : Fprintf) : Option Nat :=
  if r.fmt = "\nlabel_%d: /* %s */\n" then
    match r.args with
    | .d k :: _ => some k
    | _ => none
  else none

/-- The offset `k` when the record is a line `goto label_<k>;`. -/
def goto_target (r : Fprintf) : Option Nat :=
  if r.fmt = "  goto label_%d;\n" ∨ r.fmt = "    goto label_%d;\n" ∨
      r.fmt = "      goto label_%d;\n" then
    match r.args with
    | [.d k] => some k
    | _ => none
  else none

/-- The offset of a `start` event. -/
def TraceEvent.start_pos : TraceEvent → Option Nat
  | .start pos _ _ _ => some pos
  | .finish _ _ _ _ _ _ => none

/-- A `finish` event logged with the success flag FALSE. -/
def TraceEvent.is_failure : TraceEvent → Bool
  | .finish _ _ _ _ _ success => !success
  | .start _ _ _ _ => false

/-- The number of offsets not yet compiled. -/
def unvisited (st : compile_state) : Nat := st.status.compiled_for_pos.count false

/-- A record that is not a label line. -/
def plain_line (l : Fprintf) : Bool := l.fmt != "\nlabel_%d: /* %s */\n"

/-- The line `goto label_<next_pos>;` that ends the translation of an instruction. -/
def goto_line (next_pos : Nat) : Fprintf := ⟨"  goto label_%d;\n", [.d next_pos]⟩

/-- A stretch of the driver's work, from the state `st` to the state `st'`: `out` is what
it printed and `evs` the events it logged. The fields relate the printed labels, the
events, the array `compiled_for_pos` and the success flag. -/
structure Run (vm : VMInfo) (body : rb_iseq_constant_body) (st st' : compile_state)
    (out : List Fprintf) (evs : List TraceEvent) : Prop where
  f_eq : st'.f = st.f ++ out
  trace_eq : st'.trace = st.trace ++ evs
  len : st'.status.compiled_for_pos.length = st.status.compiled_for_pos.length
  unv : unvisited st' ≤ unvisited st
  fail_mono : st.status.success = false → st'.status.success = false
  labels : out.filterMap label_pos = evs.filterMap TraceEvent.start_pos
  started : ∀ pos insn b succ, TraceEvent.start pos insn b succ ∈ evs →
    succ = true ∧ b.finish_p = false ∧ st.status.compiled_for_pos[pos]? = some false ∧
    (∃ w, body.iseq_encoded[pos]? = some w ∧ insn = vm.insn_of_word w) ∧
    ∃ np b' succ', TraceEvent.finish pos insn b np b' succ' ∈ evs
  finished : ∀ pos insn b np b' succ, TraceEvent.finish pos insn b np b' succ ∈ evs →
    TraceEvent.start pos insn b true ∈ evs ∧
    (succ = false → st'.status.success = false) ∧
    ∃ r0, arm vm insn (operands_at body pos) pos b = some r0 ∧ np = r0.next_pos ∧
      b' = r0.b ∧
      (succ = true → r0.st.status.success = true ∧ b'.stack_size ≤ body.stack_max)
  visited : ∀ k, st'.status.compiled_for_pos[k]? = some true ↔
    (st.status.compiled_for_pos[k]? = some true ∨ k ∈ evs.filterMap TraceEvent.start_pos)
  nodup : (evs.filterMap TraceEvent.start_pos).Nodup
  stops : evs.Pairwise (fun e e' => e.is_failure = true → e'.is_failure = true)
  after_fail : st.status.success = false → ∀ e ∈ evs, e.is_failure = true

/-- The line that moves the program counter, printed first by `compile_insn`. -/
def pc_line (body : rb_iseq_constant_body) (pos : Nat) : Fprintf :=
  ⟨"  cfp->pc = (VALUE *)0x%lx;\n", [.x (body.iseq_encoded_addr + 8 * pos)]⟩

/-- The label line the driver prints before it translates the instruction at `pos`. -/
def label_line (vm : VMInfo) (pos insn : Nat) : Fprintf :=
  ⟨"\nlabel_%d: /* %s */\n", [.d pos, .s (vm.insn_name insn)]⟩


/-- The specialised operator opcodes whose arm goes through `fprint_opt_call` or
`fprint_opt_call_with_key`, each with the `argc` its arm passes. -/
def opt_call_argc : List (YARVINSN × Nat) :=
  [(YARVINSN.opt_length, 1), (YARVINSN.opt_size, 1), (YARVINSN.opt_empty_p, 1),
   (YARVINSN.opt_succ, 1), (YARVINSN.opt_not, 1), (YARVINSN.opt_aref_with, 1),
   (YARVINSN.opt_plus, 2), (YARVINSN.opt_minus, 2), (YARVINSN.opt_mult, 2),
   (YARVINSN.opt_div, 2), (YARVINSN.opt_mod, 2), (YARVINSN.opt_eq, 2),
   (YARVINSN.opt_neq, 2), (YARVINSN.opt_lt, 2), (YARVINSN.opt_le, 2),
   (YARVINSN.opt_gt, 2), (YARVINSN.opt_ge, 2), (YARVINSN.opt_ltlt, 2),
   (YARVINSN.opt_aref, 2), (YARVINSN.opt_aset_with, 2), (YARVINSN.opt_regexpmatch2, 2),
   (YARVINSN.opt_aset, 3)]

/-- The format and the variadic arguments the arm of a specialised operator opcode
passes to `fprint_opt_call` or `fprint_opt_call_with_key`. -/
def opt_call_format (op : YARVINSN) (operands : Nat → VALUE) : String × List Arg :=
  match op with
  | .opt_plus => ("vm_opt_plus(recv, obj)", [])
  | .opt_minus => ("vm_opt_minus(recv, obj)", [])
  | .opt_mult => ("vm_opt_mult(recv, obj)", [])
  | .opt_div => ("vm_opt_div(recv, obj)", [])
  | .opt_mod => ("vm_opt_mod(recv, obj)", [])
  | .opt_eq => ("opt_eq_func(recv, obj, 0x%lx, 0x%lx)", [.x (operands 0), .x (operands 1)])
  | .opt_neq => ("vm_opt_neq(0x%lx, 0x%lx, 0x%lx, 0x%lx, recv, obj)",
      [.x (operands 0), .x (operands 1), .x (operands 2), .x (operands 3)])
  | .opt_lt => ("vm_opt_lt(recv, obj)", [])
  | .opt_le => ("vm_opt_le(recv, obj)", [])
  | .opt_gt => ("vm_opt_gt(recv, obj)", [])
  | .opt_ge => ("vm_opt_ge(recv, obj)", [])
  | .opt_ltlt => ("vm_opt_ltlt(recv, obj)", [])
  | .opt_aref => ("vm_opt_aref(recv, obj)", [])
  | .opt_aset => ("vm_opt_aset(recv, obj, obj2)", [])
  | .opt_aset_with => ("vm_opt_aset_with(recv, 0x%lx, obj)", [.x (operands 2)])
  | .opt_aref_with => ("vm_opt_aref_with(recv, 0x%lx)", [.x (operands 2)])
  | .opt_length => ("vm_opt_length(recv, BOP_LENGTH)", [])
  | .opt_size => ("vm_opt_length(recv, BOP_SIZE)", [])
  | .opt_empty_p => ("vm_opt_empty_p(recv)", [])
  | .opt_succ => ("vm_opt_succ(recv)", [])
  | .opt_not => ("vm_opt_not(0x%lx, 0x%lx, recv)", [.x (operands 0), .x (operands 1)])
  | .opt_regexpmatch2 => ("vm_opt_regexpmatch2(recv, obj)", [])
  | _ => ("", [])

/-- The opcodes whose arm sets `next_pos` to a branch target. -/
def redirects (op : YARVINSN) : Bool :=
  match op with
  | .jump | .branchif | .branchunless | .branchnil => true
  | _ => false

/-- The opcodes whose arm sets `finish_p`. -/
def ends_branch (op : YARVINSN) : Bool :=
  match op with
  | .leave | .throw => true
  | _ => false

/-- Where a record printed by the driver comes from, given the events logged: it is the
label line or the program counter line of an instruction that was started, or a record of
the arm of an instruction that was finished, or the trailing `goto label_<next_pos>;` of
an instruction that was finished, printed because `next_pos` was already compiled or the
instruction is a `jump`. -/
def line_origin (vm : VMInfo) (body : rb_iseq_constant_body) (evs : List TraceEvent)
    (st' : compile_state) (l : Fprintf) : Prop :=
  (∃ p insn b succ, TraceEvent.start p insn b succ ∈ evs ∧
    (l = label_line vm p insn ∨ l = pc_line body p)) ∨
  (∃ p insn b np b' succ r0, TraceEvent.finish p insn b np b' succ ∈ evs ∧
    arm vm insn (operands_at body p) p b = some r0 ∧ l ∈ r0.st.f) ∨
  (∃ p insn b np b' succ, TraceEvent.finish p insn b np b' succ ∈ evs ∧
    l = goto_line np ∧
    ((np < body.iseq_size ∧ st'.status.compiled_for_pos[np]? = some true) ∨
      vm.opcode insn = .jump))

/-- A control-flow path from offset 0 with an empty simulated stack: `Reach vm body pos b`
says that some path arrives at offset `pos` with the branch state `b`. From an instruction
whose branch is not finished a path follows the next offset its arm computes (the branch
target for `jump`, `branchif`, `branchunless` and `branchnil`, the offset after the
instruction otherwise) with the branch the arm leaves; from `branchif`, `branchunless`
and `branchnil` it also follows the offset after the instruction, with the `stack_size`
the arm leaves. -/
inductive Reach (vm : VMInfo) (body : rb_iseq_constant_body) :
    Nat → compile_branch → Prop where
  | entry : Reach vm body 0 ⟨0, false⟩
  | next (pos w : Nat) (b : compile_branch) (r0 : insn_result) :
      Reach vm body pos b → b.finish_p = false → body.iseq_encoded[pos]? = some w →
      arm vm (vm.insn_of_word w) (operands_at body pos) pos b = some r0 →
      Reach vm body r0.next_pos r0.b
  | fall (pos w : Nat) (b : compile_branch) (r0 : insn_result) :
      Reach vm body pos b → b.finish_p = false → body.iseq_encoded[pos]? = some w →
      is_fork (vm.opcode (vm.insn_of_word w)) = true →
      arm vm (vm.insn_of_word w) (operands_at body pos) pos b = some r0 →
      Reach vm body (uadd pos (vm.insn_len (vm.insn_of_word w))) ⟨r0.b.stack_size, false⟩

/-- More about a stretch of the driver's work that starts a loop of `compile_insns` at
the offset `pos0` with the branch `branch` and ends in the state `st'`: the walk went on
at the next offset of every instruction that finished with the flag TRUE and did not end
its branch; every instruction was started with the branch the loop was entered with or
with the branch another instruction finished with; every record printed has its origin;
when a control-flow path arrives at `pos0` with `branch`, one arrives at every
instruction started, with the branch it was started with. -/
structure Extra (vm : VMInfo) (body : rb_iseq_constant_body) (branch : compile_branch)
    (pos0 : Nat) (st' : compile_state) (out : List Fprintf) (evs : List TraceEvent) :
    Prop where
  continued : ∀ p insn b np b' succ, TraceEvent.finish p insn b np b' succ ∈ evs →
    succ = true → b'.finish_p = false → np < body.iseq_size →
    st'.status.compiled_for_pos[np]? = some true
  chain : ∀ p insn b succ, TraceEvent.start p insn b succ ∈ evs →
    b = branch ∨ ∃ p2 i2 b2 np2 s2, TraceEvent.finish p2 i2 b2 np2 b s2 ∈ evs
  origin : ∀ l ∈ out, line_origin vm body evs st' l
  reach : Reach vm body pos0 branch →
    ∀ p insn b succ, TraceEvent.start p insn b succ ∈ evs → Reach vm body p b

/-! ## Indices into the simulated stack -/

/-- The opcodes that have no arm in the `switch` of `compile_insn` and fall to its
`default:`: the four whose `case` labels are commented out, and any value that is none of
the `YARVINSN_*` constants named in the file. -/
def no_arm (op : YARVINSN) : Bool :=
  match op with
  | .getblockparam | .setblockparam | .defineclass | .once | .other => true
  | _ => false
/-- The opcodes whose arm prints a `goto label_<k>;` for a branch target `k` and lets the
walk go on at the offset after the instruction, with no walk of its own for `k`. -/
def jumps_aside (op : YARVINSN) : Bool :=
  match op with
  | .branchiftype | .getinlinecache | .opt_case_dispatch => true
  | _ => false

/-- A record that is not a line `goto label_<k>;`. -/
def no_goto (l : Fprintf) : Bool := (goto_target l).isNone

/-- Eight of the opcodes whose arm lowers `stack_size` by one: `pop`, `setlocal`,
`setglobal`, `setinstancevariable`, `branchif`, `branchunless`, `branchnil`, `throw`. -/
def pops_one (op : YARVINSN) : Bool :=
  match op with
  | .pop | .setlocal | .setglobal | .setinstancevariable
  | .branchif | .branchunless | .branchnil | .throw => true
  | _ => false

/-! ## Running the lines of reverse -/

/-- The variables the lines printed by the arm of `reverse` act on: the array `stack` and
the temporaries `v0` and `v1`. -/
structure reverse_vars (α : Type) where
  stack : Nat → α
  v0 : α
  v1 : α

/-- What a line printed by the arm of `reverse` does to the variables when it is run as
C: the assignments `v0 = stack[k];`, `v1 = stack[k];`, `stack[k] = v1;` and
`stack[k] = v0;`. The braces and the two declarations change nothing. -/
def run_line {α : Type} (m : reverse_vars α) (l : Fprintf) : reverse_vars α :=
  match l.args with
  | [.d k] =>
    if l.fmt = "    v0 = stack[%d];\n" then { m with v0 := m.stack k }
    else if l.fmt = "    v1 = stack[%d];\n" then { m with v1 := m.stack k }
    else if l.fmt = "    stack[%d] = v1;\n" then
      { m with stack := fun j => if j = k then m.v1 else m.stack j }
    else if l.fmt = "    stack[%d] = v0;\n" then
      { m with stack := fun j => if j = k then m.v0 else m.stack j }
    else m
  | _ => m

/-- Run the lines in order. -/
def run_lines {α : Type} (m : reverse_vars α) (lines : List Fprintf) : reverse_vars α :=
  lines.foldl run_line m

/-- The four lines of a swap of the slots `lo` and `hi` through `v0` and `v1`, as the arm
of `reverse` prints them. -/
def reverse_swap (lo hi : Nat) : List Fprintf :=
  [⟨"    v0 = stack[%d];\n", [.d lo]⟩,
   ⟨"    v1 = stack[%d];\n", [.d hi]⟩,
   ⟨"    stack[%d] = v1;\n", [.d lo]⟩,
   ⟨"    stack[%d] = v0;\n", [.d hi]⟩]

/-! ## Basic facts -/

theorem mem_for_lines (n : Nat) (step : Nat → List Fprintf) (l : Fprintf) :
    l ∈ for_lines n step ↔ ∃ i, i < n ∧ l ∈ step i := by
  induction n with
  | zero => simp [for_lines]
  | succ k ih =>
    simp only [for_lines, List.mem_append, ih]
    constructor
    · rintro (⟨i, hi, h⟩ | h)
      · exact ⟨i, by omega, h⟩
      · exact ⟨k, by omega, h⟩
    · rintro ⟨i, hi, h⟩
      by_cases hik : i = k
      · subst hik; exact Or.inr h
      · exact Or.inl ⟨i, by omega, h⟩


theorem all_for_lines (n : Nat) (step : Nat → List Fprintf) (p : Fprintf → Bool)
    (h : ∀ i, (step i).all p = true) : (for_lines n step).all p = true := by
  induction n with
  | zero => rfl
  | succ k ih => simp only [for_lines, List.all_append, ih, h, Bool.and_self]

theorem all_ite (c : Prop) [Decidable c] (a b : List Fprintf) (p : Fprintf → Bool)
    (ha : a.all p = true) (hb : b.all p = true) : (if c then a else b).all p = true := by
  split <;> assumption

theorem all_flatten_map {α : Type} (xs : List α) (g : α → List Fprintf) (p : Fprintf → Bool)
    (h : ∀ x, (g x).all p = true) : ((xs.map g).flatten).all p = true := by
  induction xs with
  | nil => rfl
  | cons a t ih => simp only [List.map_cons, List.flatten_cons, List.all_append, h, ih, Bool.and_self]

theorem all_append_intro (a b : List Fprintf) (p : Fprintf → Bool)
    (ha : a.all p = true) (hb : b.all p = true) : (a ++ b).all p = true := by
  simp [List.all_append, ha, hb]

set_option maxHeartbeats 4000000 in
/-- Every arm of the switch prints its records after what the sink holds, clears the flag
or keeps it, leaves the array and the trace alone, and calls the driver only in the arms
of `branchif`, `branchunless` and `branchnil`, once, on the fall-through offset. -/
theorem switch_eq (vm : VMInfo) (rec : Nat → Nat → compile_state → Option compile_state)
    (st : compile_state) (insn : Nat) (operands : Nat → VALUE) (pos : Nat) (b : compile_branch) :
    ∃ r0, arm vm insn operands pos b = some r0 ∧
      compile_insn_switch vm rec st insn operands pos b (uadd pos (vm.insn_len insn)) =
        (if is_fork (vm.opcode insn) = true then
            rec r0.b.stack_size (uadd pos (vm.insn_len insn)) (st.emit r0.st.f)
          else some ⟨st.f ++ r0.st.f,
            ⟨st.status.success && r0.st.status.success, st.status.compiled_for_pos⟩,
            st.trace⟩).map (fun st2 => ⟨r0.next_pos, r0.b, st2⟩) := by
  unfold arm compile_insn_switch
  cases h : vm.opcode insn <;>
    simp [is_fork, compile_state.emit, compile_state.fail] <;>
    (try split) <;> simp_all

set_option maxHeartbeats 4000000 in
/-- No arm of the switch prints a label line. -/
theorem arm_plain (vm : VMInfo) (insn : Nat) (operands : Nat → VALUE) (pos : Nat)
    (b : compile_branch) (r0 : insn_result) (h : arm vm insn operands pos b = some r0) :
    r0.st.f.all plain_line = true := by
  unfold arm compile_insn_switch at h
  cases hop : vm.opcode insn <;> simp only [hop, Option.some.injEq] at h <;>
    subst h <;>
    first
    | rfl
    | (simp only [compile_state.emit, compile_state.fail, fprint_getlocal, fprint_setlocal,
        fprint_args, fprint_call_method, compile_case_dispatch_each, List.nil_append]
       repeat' (first
         | rfl
         | apply all_append_intro
         | apply all_ite
         | apply all_for_lines
         | apply all_flatten_map
         | intro _
         | (split <;> rfl)))
theorem emit_nil (st : compile_state) : st.emit [] = st := by
  cases st; simp [compile_state.emit]

theorem bitmap_false_of (bm bm' : List Bool) (hlen : bm'.length = bm.length)
    (hvis : ∀ k : Nat, bm[k]? = some true → bm'[k]? = some true) (k : Nat)
    (h : bm'[k]? = some false) : bm[k]? = some false := by
  have hk : k < bm'.length := by
    by_contra hc
    have hn : bm'[k]? = none := List.getElem?_eq_none_iff.mpr (by omega)
    rw [hn] at h
    cases h
  have hk2 : k < bm.length := by omega
  rw [List.getElem?_eq_getElem hk2]
  cases hv : bm[k] with
  | false => rfl
  | true =>
    have := hvis k (by rw [List.getElem?_eq_getElem hk2, hv])
    rw [this] at h
    exact absurd h (by simp)

/-- A step that prints nothing, logs nothing and leaves the array alone. -/
theorem Run.idle (vm : VMInfo) (body : rb_iseq_constant_body) (st st' : compile_state)
    (hf : st'.f = st.f) (ht : st'.trace = st.trace)
    (hb : st'.status.compiled_for_pos = st.status.compiled_for_pos)
    (hs : st.status.success = false → st'.status.success = false) :
    Run vm body st st' [] [] where
  f_eq := by simp [hf]
  trace_eq := by simp [ht]
  len := by rw [hb]
  unv := by simp [unvisited, hb]
  fail_mono := hs
  labels := rfl
  started := by intro pos insn b succ h; simp at h
  finished := by intro pos insn b np b' succ h; simp at h
  visited := by intro k; simp [hb]
  nodup := by simp
  stops := by simp
  after_fail := by intro _ e he; simp at he

/-- Two stretches of work, one after the other. -/
theorem Run.trans (vm : VMInfo) (body : rb_iseq_constant_body) (a b c : compile_state)
    (o1 o2 : List Fprintf) (e1 e2 : List TraceEvent)
    (h1 : Run vm body a b o1 e1) (h2 : Run vm body b c o2 e2) :
    Run vm body a c (o1 ++ o2) (e1 ++ e2) where
  f_eq := by rw [h2.f_eq, h1.f_eq, List.append_assoc]
  trace_eq := by rw [h2.trace_eq, h1.trace_eq, List.append_assoc]
  len := by rw [h2.len, h1.len]
  unv := le_trans h2.unv h1.unv
  fail_mono := fun h => h2.fail_mono (h1.fail_mono h)
  labels := by rw [List.filterMap_append, List.filterMap_append, h1.labels, h2.labels]
  started := by
    intro pos insn br succ h
    rcases List.mem_append.mp h with h | h
    · obtain ⟨p1, p2, p3, p4, np, b', s', p5⟩ := h1.started pos insn br succ h
      exact ⟨p1, p2, p3, p4, np, b', s', List.mem_append_left _ p5⟩
    · obtain ⟨p1, p2, p3, p4, np, b', s', p5⟩ := h2.started pos insn br succ h
      refine ⟨p1, p2, ?_, p4, np, b', s', List.mem_append_right _ p5⟩
      exact bitmap_false_of _ _ h1.len (fun k hk => (h1.visited k).mpr (Or.inl hk)) pos p3
  finished := by
    intro pos insn br np b' succ h
    rcases List.mem_append.mp h with h | h
    · obtain ⟨p1, p2, p3⟩ := h1.finished pos insn br np b' succ h
      exact ⟨List.mem_append_left _ p1, fun hs => h2.fail_mono (p2 hs), p3⟩
    · obtain ⟨p1, p2, p3⟩ := h2.finished pos insn br np b' succ h
      exact ⟨List.mem_append_right _ p1, p2, p3⟩
  visited := by
    intro k
    rw [h2.visited k, h1.visited k, List.filterMap_append, List.mem_append]
    tauto
  nodup := by
    rw [List.filterMap_append, List.nodup_append]
    refine ⟨h1.nodup, h2.nodup, ?_⟩
    intro k hk1 hk2
    have hv : b.status.compiled_for_pos[k]? = some true := (h1.visited k).mpr (Or.inr hk1)
    obtain ⟨e, he, hek⟩ := List.mem_filterMap.mp hk2
    cases e with
    | finish _ _ _ _ _ _ => simp [TraceEvent.start_pos] at hek
    | start pos insn br succ =>
      simp [TraceEvent.start_pos] at hek
      subst hek
      have := (h2.started pos insn br succ he).2.2.1
      rw [hv] at this
      exact absurd this (by simp)
  stops := by
    rw [List.pairwise_append]
    refine ⟨h1.stops, h2.stops, ?_⟩
    intro x hx y hy hfx
    cases x with
    | start _ _ _ _ => simp [TraceEvent.is_failure] at hfx
    | finish pos insn br np b' succ =>
      simp [TraceEvent.is_failure] at hfx
      exact h2.after_fail ((h1.finished pos insn br np b' succ hx).2.1 hfx) y hy
  after_fail := by
    intro h e he
    rcases List.mem_append.mp he with he | he
    · exact h1.after_fail h e he
    · exact h2.after_fail (h1.fail_mono h) e he

theorem count_false_set (bm : List Bool) (pos : Nat) (h : bm[pos]? = some false) :
    (bm.set pos true).count false + 1 = bm.count false := by
  induction bm generalizing pos with
  | nil => simp at h
  | cons a t ih =>
    cases pos with
    | zero =>
      simp at h
      subst h
      simp
    | succ k =>
      simp at h
      have := ih k (by simpa using h)
      cases a <;> simp [List.count_cons] <;> omega

theorem bitmap_set_get (bm : List Bool) (pos k : Nat) (hpos : bm[pos]? = some false) :
    (bm.set pos true)[k]? = some true ↔ (k = pos ∨ bm[k]? = some true) := by
  have hlt : pos < bm.length := by
    by_contra hc
    have hn : bm[pos]? = none := List.getElem?_eq_none_iff.mpr (by omega)
    rw [hn] at hpos
    cases hpos
  rw [List.getElem?_set]
  by_cases h : pos = k
  · subst h
    simp [hlt]
  · simp only [h, if_false]
    constructor
    · intro hk; exact Or.inr hk
    · rintro (hk | hk)
      · exact absurd hk.symm h
      · exact hk

theorem bitmap_set_false (bm : List Bool) (pos k : Nat)
    (h : (bm.set pos true)[k]? = some false) : k ≠ pos ∧ bm[k]? = some false := by
  rw [List.getElem?_set] at h
  by_cases hk : pos = k
  · subst hk
    simp only [if_true] at h
    split at h <;> simp at h
  · simp only [hk, if_false] at h
    exact ⟨fun e => hk e.symm, h⟩

/-- One iteration of the loop of `compile_insns`, put together from its parts: the
marking and the label, the arm (with the driver's work inside it for a branch), the
trailing `goto`, the `stack_max` check. -/
theorem Run.iteration (vm : VMInfo) (body : rb_iseq_constant_body)
    (st st3 st5 : compile_state) (pos w : Nat) (branch : compile_branch)
    (r0 : insn_result) (pre post out_i : List Fprintf) (evs_i : List TraceEvent)
    (hs : st.status.success = true)
    (hpos : st.status.compiled_for_pos[pos]? = some false)
    (hw : body.iseq_encoded[pos]? = some w) (hfin : branch.finish_p = false)
    (harm : arm vm (vm.insn_of_word w) (operands_at body pos) pos branch = some r0)
    (hpre : pre.filterMap label_pos = [pos]) (hpost : post.filterMap label_pos = [])
    (hinner : Run vm body
      ⟨st.f ++ pre, ⟨true, st.status.compiled_for_pos.set pos true⟩,
        st.trace ++ [.start pos (vm.insn_of_word w) branch true]⟩ st3 out_i evs_i)
    (hok : r0.st.status.success = false → st3.status.success = false)
    (hf5 : st5.f = st3.f ++ post)
    (hb5 : st5.status.compiled_for_pos = st3.status.compiled_for_pos)
    (hs5 : st5.status.success = true ↔
      (st3.status.success = true ∧ r0.b.stack_size ≤ body.stack_max))
    (ht5 : st5.trace = st3.trace ++
      [.finish pos (vm.insn_of_word w) branch r0.next_pos r0.b st5.status.success]) :
    Run vm body st st5 (pre ++ out_i ++ post)
      (.start pos (vm.insn_of_word w) branch true :: evs_i ++
        [.finish pos (vm.insn_of_word w) branch r0.next_pos r0.b st5.status.success]) where
  f_eq := by rw [hf5, hinner.f_eq]; simp [List.append_assoc]
  trace_eq := by rw [ht5, hinner.trace_eq]; simp [List.append_assoc]
  len := by rw [hb5, hinner.len]; simp
  unv := by
    have h1 := hinner.unv
    have h2 := count_false_set _ _ hpos
    simp only [unvisited, hb5] at h1 ⊢
    omega
  fail_mono := by intro h; rw [hs] at h; cases h
  labels := by
    simp only [List.filterMap_append, hpre, hpost, hinner.labels, List.filterMap_cons,
      TraceEvent.start_pos, List.filterMap_nil, List.append_nil, List.singleton_append]
  started := by
    intro p insn b succ h
    simp only [List.cons_append, List.mem_cons, List.mem_append, List.not_mem_nil,
      or_false] at h
    rcases h with h | h | h
    · injection h with e1 e2 e3 e4
      subst e1 e2 e3 e4
      exact ⟨rfl, hfin, hpos, ⟨w, hw, rfl⟩, r0.next_pos, r0.b, st5.status.success,
        by simp⟩
    · obtain ⟨p1, p2, p3, p4, np, b', s', p5⟩ := hinner.started p insn b succ h
      refine ⟨p1, p2, (bitmap_set_false _ _ _ p3).2, p4, np, b', s', ?_⟩
      simp [p5]
    · cases h
  finished := by
    intro p insn b np b' succ h
    simp only [List.cons_append, List.mem_cons, List.mem_append, List.not_mem_nil,
      or_false] at h
    rcases h with h | h | h
    · cases h
    · obtain ⟨p1, p2, p3⟩ := hinner.finished p insn b np b' succ h
      refine ⟨by simp [p1], ?_, p3⟩
      intro hsf
      have := p2 hsf
      cases h5 : st5.status.success with
      | false => rfl
      | true => rw [(hs5.mp h5).1] at this; cases this
    · injection h with e1 e2 e3 e4 e5 e6
      subst e1 e2 e3 e4 e5 e6
      refine ⟨by simp, fun h => h, r0, harm, rfl, rfl, ?_⟩
      intro h5
      obtain ⟨h3, hle⟩ := hs5.mp h5
      refine ⟨?_, hle⟩
      cases hr : r0.st.status.success with
      | true => rfl
      | false => rw [hok hr] at h3; cases h3
  visited := by
    intro k
    rw [hb5, hinner.visited k]
    simp only [bitmap_set_get _ _ _ hpos, List.cons_append, List.filterMap_cons,
      TraceEvent.start_pos, List.filterMap_append, List.filterMap_nil, List.append_nil,
      List.mem_cons]
    tauto
  nodup := by
    simp only [List.cons_append, List.filterMap_cons, TraceEvent.start_pos,
      List.filterMap_append, List.filterMap_nil, List.append_nil, List.nodup_cons]
    refine ⟨?_, hinner.nodup⟩
    intro hk
    obtain ⟨e, he, hek⟩ := List.mem_filterMap.mp hk
    cases e with
    | finish _ _ _ _ _ _ => simp [TraceEvent.start_pos] at hek
    | start p insn br succ =>
      simp [TraceEvent.start_pos] at hek
      subst hek
      exact (bitmap_set_false _ _ _ (hinner.started p insn br succ he).2.2.1).1 rfl
  stops := by
    rw [List.cons_append, List.pairwise_cons]
    refine ⟨fun e _ h => by simp [TraceEvent.is_failure] at h, ?_⟩
    rw [List.pairwise_append]
    refine ⟨hinner.stops, by simp, ?_⟩
    intro x hx y hy hfx
    rw [List.mem_singleton] at hy
    subst hy
    cases x with
    | start _ _ _ _ => simp [TraceEvent.is_failure] at hfx
    | finish p insn br np b' succ =>
      simp [TraceEvent.is_failure] at hfx
      have := (hinner.finished p insn br np b' succ hx).2.1 hfx
      cases h5 : st5.status.success with
      | false => simp [TraceEvent.is_failure]
      | true => rw [(hs5.mp h5).1] at this; cases this
  after_fail := by intro h; rw [hs] at h; cases h

/-- The three arms that call the driver: they pop one slot, keep the flag, and hand the
taken target back as the next offset. -/
theorem arm_fork (vm : VMInfo) (insn : Nat) (operands : Nat → VALUE) (pos : Nat)
    (b : compile_branch) (r0 : insn_result) (h : arm vm insn operands pos b = some r0)
    (hf : is_fork (vm.opcode insn) = true) :
    r0.st.status.success = true ∧ r0.b = ⟨usub b.stack_size 1, b.finish_p⟩ ∧
      r0.next_pos = uadd (uadd pos (vm.insn_len insn)) (u32 (operands 0)) := by
  cases hop : vm.opcode insn <;> simp [hop, is_fork] at hf <;>
    (unfold arm compile_insn_switch at h
     simp only [hop, compile_state.emit, Option.some.injEq] at h
     subst h
     exact ⟨rfl, rfl, rfl⟩)

/-- The trailing `goto` of `compile_insn` reads the array inside its bounds and prints
`goto label_<next_pos>;` exactly when `next_pos` is already compiled or the instruction is
a `jump`. -/
theorem compile_insn_goto_eq (vm : VMInfo) (body : rb_iseq_constant_body) (insn : Nat)
    (r : insn_result) (hlen : r.st.status.compiled_for_pos.length = body.iseq_size) :
    compile_insn_goto vm body insn r =
      some ⟨r.next_pos, r.b, r.st.emit
        (if (r.next_pos < body.iseq_size ∧
              r.st.status.compiled_for_pos[r.next_pos]? = some true) ∨
            vm.opcode insn = .jump then [goto_line r.next_pos] else [])⟩ := by
  unfold compile_insn_goto
  by_cases hlt : r.next_pos < body.iseq_size
  · have hv : r.st.status.compiled_for_pos[r.next_pos]? =
        some (r.st.status.compiled_for_pos[r.next_pos]) :=
      List.getElem?_eq_getElem (by omega)
    simp only [hlt, if_true, hv, true_and, Option.some.injEq]
    cases r.st.status.compiled_for_pos[r.next_pos] <;>
      by_cases hj : vm.opcode insn = .jump <;> simp [hj, goto_line, emit_nil]
  · by_cases hj : vm.opcode insn = .jump <;> simp [hlt, hj, goto_line, emit_nil]

/-- The function `compile_insn` in three steps: the program counter line, the arm, the
trailing `goto`. -/
theorem compile_insn_eq (vm : VMInfo) (rec : Nat → Nat → compile_state → Option compile_state)
    (st : compile_state) (body : rb_iseq_constant_body) (insn : Nat)
    (operands : Nat → VALUE) (pos : Nat) (b : compile_branch) :
    ∃ r0, arm vm insn operands pos b = some r0 ∧
      compile_insn vm rec st body insn operands pos b =
        match (if is_fork (vm.opcode insn) = true then
            rec r0.b.stack_size (uadd pos (vm.insn_len insn))
              ⟨st.f ++ pc_line body pos :: r0.st.f, st.status, st.trace⟩
          else some ⟨st.f ++ pc_line body pos :: r0.st.f,
            ⟨st.status.success && r0.st.status.success, st.status.compiled_for_pos⟩,
            st.trace⟩) with
        | none => none
        | some st3 => compile_insn_goto vm body insn ⟨r0.next_pos, r0.b, st3⟩ := by
  obtain ⟨r0, harm, heq⟩ := switch_eq vm rec
    (st.emit [⟨"  cfp->pc = (VALUE *)0x%lx;\n", [.x (body.iseq_encoded_addr + 8 * pos)]⟩])
    insn operands pos b
  refine ⟨r0, harm, ?_⟩
  unfold compile_insn
  simp only [heq]
  by_cases hf : is_fork (vm.opcode insn) = true
  · simp only [hf, if_true, compile_state.emit, pc_line, List.append_assoc,
      List.singleton_append]
    cases rec r0.b.stack_size (uadd pos (vm.insn_len insn))
      ⟨st.f ++ ⟨"  cfp->pc = (VALUE *)0x%lx;\n", [.x (body.iseq_encoded_addr + 8 * pos)]⟩ ::
        r0.st.f, st.status, st.trace⟩ <;> rfl
  · simp [hf, compile_state.emit, pc_line]

theorem line_origin_mono (vm : VMInfo) (body : rb_iseq_constant_body)
    (evs evs' : List TraceEvent) (st st' : compile_state) (l : Fprintf)
    (hsub : ∀ e ∈ evs, e ∈ evs')
    (hmono : ∀ k : Nat, st.status.compiled_for_pos[k]? = some true →
      st'.status.compiled_for_pos[k]? = some true)
    (h : line_origin vm body evs st l) : line_origin vm body evs' st' l := by
  rcases h with ⟨p, insn, b, succ, he, hl⟩ | ⟨p, insn, b, np, b', succ, r0, he, ha, hl⟩ |
    ⟨p, insn, b, np, b', succ, he, hl, hc⟩
  · exact Or.inl ⟨p, insn, b, succ, hsub _ he, hl⟩
  · exact Or.inr (Or.inl ⟨p, insn, b, np, b', succ, r0, hsub _ he, ha, hl⟩)
  · refine Or.inr (Or.inr ⟨p, insn, b, np, b', succ, hsub _ he, hl, ?_⟩)
    rcases hc with ⟨h1, h2⟩ | h
    · exact Or.inl ⟨h1, hmono _ h2⟩
    · exact Or.inr h

theorem Extra.nil (vm : VMInfo) (body : rb_iseq_constant_body) (branch : compile_branch)
    (pos0 : Nat) (st' : compile_state) : Extra vm body branch pos0 st' [] [] where
  continued := by intro p insn b np b' succ h; simp at h
  chain := by intro p insn b succ h; simp at h
  origin := by intro l h; simp at h
  reach := by intro _ p insn b succ h; simp at h

/-- One iteration of the loop and what follows it, for `Extra`. -/
theorem Extra.step (vm : VMInfo) (body : rb_iseq_constant_body) (branch : compile_branch)
    (pos w : Nat) (r0 : insn_result) (st3 st' : compile_state)
    (out_i out2 post : List Fprintf) (evs_i evs2 : List TraceEvent) (succ5 : Bool)
    (harm : arm vm (vm.insn_of_word w) (operands_at body pos) pos branch = some r0)
    (hw : body.iseq_encoded[pos]? = some w) (hfin0 : branch.finish_p = false)
    (hfork : is_fork (vm.opcode (vm.insn_of_word w)) = true ∨ evs_i = [])
    (hin : Extra vm body r0.b (uadd pos (vm.insn_len (vm.insn_of_word w))) st3 out_i evs_i)
    (hmono : ∀ k : Nat, st3.status.compiled_for_pos[k]? = some true →
      st'.status.compiled_for_pos[k]? = some true)
    (hpost : post = if (r0.next_pos < body.iseq_size ∧
        st3.status.compiled_for_pos[r0.next_pos]? = some true) ∨
        vm.opcode (vm.insn_of_word w) = .jump then [goto_line r0.next_pos] else [])
    (hcont : Extra vm body r0.b r0.next_pos st' out2 evs2)
    (hentry : succ5 = true → r0.b.finish_p = false → r0.next_pos < body.iseq_size →
      st'.status.compiled_for_pos[r0.next_pos]? = some true) :
    Extra vm body branch pos st'
      ((label_line vm pos (vm.insn_of_word w) :: pc_line body pos :: r0.st.f) ++ out_i ++
        post ++ out2)
      ((.start pos (vm.insn_of_word w) branch true :: evs_i ++
        [.finish pos (vm.insn_of_word w) branch r0.next_pos r0.b succ5]) ++ evs2) where
  continued := by
    intro p insn b np b' succ h hs hf hlt
    rcases List.mem_append.mp h with h | h
    · rcases List.mem_cons.mp h with h | h
      · cases h
      · rcases List.mem_append.mp h with h | h
        · exact hmono _ (hin.continued p insn b np b' succ h hs hf hlt)
        · have e := List.mem_singleton.mp h
          injection e with e1 e2 e3 e4 e5 e6
          subst e1 e2 e3 e4 e5 e6
          exact hentry hs hf hlt
    · exact hcont.continued p insn b np b' succ h hs hf hlt
  chain := by
    intro p insn b succ h
    have hfin : TraceEvent.finish pos (vm.insn_of_word w) branch r0.next_pos r0.b succ5 ∈
        (TraceEvent.start pos (vm.insn_of_word w) branch true :: evs_i ++
          [TraceEvent.finish pos (vm.insn_of_word w) branch r0.next_pos r0.b succ5]) ++
          evs2 :=
      List.mem_append_left _ (List.mem_cons_of_mem _ (List.mem_append_right _
        (List.mem_singleton.mpr rfl)))
    rcases List.mem_append.mp h with h | h
    · rcases List.mem_cons.mp h with h | h
      · injection h with e1 e2 e3 e4
        exact Or.inl e3
      · rcases List.mem_append.mp h with h | h
        · rcases hin.chain p insn b succ h with hb | ⟨p2, i2, b2, np2, s2, hm⟩
          · refine Or.inr ⟨pos, vm.insn_of_word w, branch, r0.next_pos, succ5, ?_⟩
            rw [hb]
            exact hfin
          · exact Or.inr ⟨p2, i2, b2, np2, s2, List.mem_append_left _
              (List.mem_cons_of_mem _ (List.mem_append_left _ hm))⟩
        · have e := List.mem_singleton.mp h
          cases e
    · rcases hcont.chain p insn b succ h with hb | ⟨p2, i2, b2, np2, s2, hm⟩
      · refine Or.inr ⟨pos, vm.insn_of_word w, branch, r0.next_pos, succ5, ?_⟩
        rw [hb]
        exact hfin
      · exact Or.inr ⟨p2, i2, b2, np2, s2, List.mem_append_right _ hm⟩
  origin := by
    intro l h
    have hstart : TraceEvent.start pos (vm.insn_of_word w) branch true ∈
        (TraceEvent.start pos (vm.insn_of_word w) branch true :: evs_i ++
          [TraceEvent.finish pos (vm.insn_of_word w) branch r0.next_pos r0.b succ5]) ++
          evs2 :=
      List.mem_append_left _ (List.mem_cons_self _ _)
    have hfin : TraceEvent.finish pos (vm.insn_of_word w) branch r0.next_pos r0.b succ5 ∈
        (TraceEvent.start pos (vm.insn_of_word w) branch true :: evs_i ++
          [TraceEvent.finish pos (vm.insn_of_word w) branch r0.next_pos r0.b succ5]) ++
          evs2 :=
      List.mem_append_left _ (List.mem_cons_of_mem _ (List.mem_append_right _
        (List.mem_singleton.mpr rfl)))
    simp only [List.cons_append, List.mem_cons, List.mem_append, List.append_assoc] at h
    rcases h with h | h | h | h | h | h
    · exact Or.inl ⟨pos, _, branch, true, hstart, Or.inl h⟩
    · exact Or.inl ⟨pos, _, branch, true, hstart, Or.inr h⟩
    · exact Or.inr (Or.inl ⟨pos, _, branch, r0.next_pos, r0.b, succ5, r0, hfin, harm, h⟩)
    · exact line_origin_mono vm body evs_i _ st3 st' l
        (fun e he => List.mem_append_left _ (List.mem_cons_of_mem _
          (List.mem_append_left _ he))) hmono (hin.origin l h)
    · rw [hpost] at h
      split at h
      · rename_i hc
        simp only [List.mem_singleton] at h
        refine Or.inr (Or.inr ⟨pos, _, branch, r0.next_pos, r0.b, succ5, hfin, h, ?_⟩)
        rcases hc with ⟨h1, h2⟩ | hj
        · exact Or.inl ⟨h1, hmono _ h2⟩
        · exact Or.inr hj
      · simp at h
    · exact line_origin_mono vm body evs2 _ st' st' l
        (fun e he => List.mem_append_right _ he) (fun _ hk => hk) (hcont.origin l h)
  reach := by
    intro hr p insn b succ h
    rcases List.mem_append.mp h with h | h
    · rcases List.mem_cons.mp h with h | h
      · injection h with e1 e2 e3 e4
        rw [e1, e3]
        exact hr
      · rcases List.mem_append.mp h with h | h
        · rcases hfork with hf | hnil
          · have hb0 : r0.b = ⟨r0.b.stack_size, false⟩ := by
              rw [(arm_fork vm _ _ _ _ r0 harm hf).2.1, hfin0]
            refine hin.reach ?_ p insn b succ h
            rw [hb0]
            exact Reach.fall pos w branch r0 hr hfin0 hw hf harm
          · rw [hnil] at h
            cases h
        · have e := List.mem_singleton.mp h
          cases e
    · exact hcont.reach (Reach.next pos w branch r0 hr hfin0 hw harm) p insn b succ h

/-- The driver is total: with more fuel than offsets left to compile, the loop of
`compile_insns` returns, and what it did is a `Run`. -/
theorem loop_run (vm : VMInfo) (body : rb_iseq_constant_body) :
    ∀ (fuel : Nat) (branch : compile_branch) (pos : Nat) (st : compile_state),
      st.status.success = true →
      st.status.compiled_for_pos.length = body.iseq_size →
      unvisited st < fuel →
      ∃ st' out evs, compile_insns_loop vm body fuel branch pos st = some st' ∧
        Run vm body st st' out evs ∧ Extra vm body branch pos st' out evs ∧
        (branch.finish_p = false → pos < body.iseq_size →
          st'.status.compiled_for_pos[pos]? = some true) := by
  intro fuel
  induction fuel with
  | zero => intro _ _ _ _ _ h; omega
  | succ n ih =>
    intro branch pos st hs hlen hfuel
    rw [compile_insns_loop]
    by_cases hlt : pos < body.iseq_size
    · obtain ⟨v, hv⟩ : ∃ v, st.status.compiled_for_pos[pos]? = some v :=
        ⟨_, List.getElem?_eq_getElem (by omega)⟩
      obtain ⟨w, hw⟩ : ∃ w, body.iseq_encoded[pos]? = some w :=
        ⟨_, List.getElem?_eq_getElem hlt⟩
      simp only [hlt, if_true, hv, hw]
      by_cases hstop : v = true ∨ branch.finish_p = true
      · simp only [hstop, if_true]
        refine ⟨st, [], [], rfl, Run.idle vm body st st rfl rfl rfl id,
          Extra.nil vm body branch pos st, ?_⟩
        intro hf _
        rcases hstop with h | h
        · rw [hv, h]
        · rw [hf] at h; cases h
      · simp only [hstop, if_false]
        have hvf : v = false := by
          cases v
          · rfl
          · exact absurd (Or.inl rfl) hstop
        have hfin : branch.finish_p = false := by
          cases hbf : branch.finish_p
          · rfl
          · exact absurd (Or.inr hbf) hstop
        subst hvf
        obtain ⟨r0, harm, heq⟩ := compile_insn_eq vm
          (fun stack_size pos st => compile_insns_loop vm body n ⟨stack_size, false⟩ pos st)
          (compile_state.emit
            { f := st.f,
              status := { success := st.status.success,
                          compiled_for_pos := st.status.compiled_for_pos.set pos true },
              trace := st.trace ++ [.start pos (vm.insn_of_word w) branch st.status.success] }
            [⟨"\nlabel_%d: /* %s */\n", [.d pos, .s (vm.insn_name (vm.insn_of_word w))]⟩])
          body (vm.insn_of_word w) (operands_at body pos) pos branch
        rw [heq]
        -- the state the arm (or the driver called by it) starts from
        have hunv := count_false_set _ _ hv
        obtain ⟨st3, out_i, evs_i, hX, hrun, hok, hex, hfork⟩ :
            ∃ st3 out_i evs_i,
              (if is_fork (vm.opcode (vm.insn_of_word w)) = true then
                  compile_insns_loop vm body n ⟨r0.b.stack_size, false⟩
                    (uadd pos (vm.insn_len (vm.insn_of_word w)))
                    ⟨st.f ++ label_line vm pos (vm.insn_of_word w) :: pc_line body pos ::
                        r0.st.f,
                      ⟨true, st.status.compiled_for_pos.set pos true⟩,
                      st.trace ++ [.start pos (vm.insn_of_word w) branch true]⟩
                else some ⟨st.f ++ label_line vm pos (vm.insn_of_word w) ::
                    pc_line body pos :: r0.st.f,
                  ⟨r0.st.status.success, st.status.compiled_for_pos.set pos true⟩,
                  st.trace ++ [.start pos (vm.insn_of_word w) branch true]⟩) = some st3 ∧
              Run vm body
                ⟨st.f ++ (label_line vm pos (vm.insn_of_word w) :: pc_line body pos ::
                    r0.st.f),
                  ⟨true, st.status.compiled_for_pos.set pos true⟩,
                  st.trace ++ [.start pos (vm.insn_of_word w) branch true]⟩ st3 out_i evs_i ∧
              (r0.st.status.success = false → st3.status.success = false) ∧
              Extra vm body r0.b (uadd pos (vm.insn_len (vm.insn_of_word w))) st3 out_i
                evs_i ∧
              (is_fork (vm.opcode (vm.insn_of_word w)) = true ∨ evs_i = []) := by
          by_cases hf : is_fork (vm.opcode (vm.insn_of_word w)) = true
          · simp only [hf, if_true]
            obtain ⟨st3, out_i, evs_i, h3, hrun, hex, _⟩ := ih ⟨r0.b.stack_size, false⟩
              (uadd pos (vm.insn_len (vm.insn_of_word w)))
              ⟨st.f ++ label_line vm pos (vm.insn_of_word w) :: pc_line body pos :: r0.st.f,
                ⟨true, st.status.compiled_for_pos.set pos true⟩,
                st.trace ++ [.start pos (vm.insn_of_word w) branch true]⟩
              rfl (by simpa using hlen) (by simp only [unvisited] at hfuel ⊢; omega)
            have hb0 : r0.b = ⟨r0.b.stack_size, false⟩ := by
              rw [(arm_fork vm _ _ _ _ r0 harm hf).2.1, hfin]
            refine ⟨st3, out_i, evs_i, h3, hrun, ?_, by rw [hb0]; exact hex,
              Or.inl trivial⟩
            intro hr
            rw [(arm_fork vm _ _ _ _ r0 harm hf).1] at hr
            cases hr
          · simp only [hf, if_false]
            refine ⟨_, [], [], rfl, Run.idle vm body _ _ rfl rfl rfl ?_, fun h => h,
              Extra.nil vm body r0.b _ _, Or.inr rfl⟩
            intro h
            cases h
        simp only [label_line] at hX
        simp only [compile_state.emit, hs, List.append_assoc, List.cons_append,
          List.nil_append, Bool.true_and]
        rw [hX]
        simp only []
        have hlen3 : st3.status.compiled_for_pos.length = body.iseq_size := by
          rw [hrun.len]; simpa using hlen
        rw [compile_insn_goto_eq vm body _ ⟨r0.next_pos, r0.b, st3⟩ hlen3]
        simp only []
        generalize hpost : (if (r0.next_pos < body.iseq_size ∧
            st3.status.compiled_for_pos[r0.next_pos]? = some true) ∨
            vm.opcode (vm.insn_of_word w) = .jump then [goto_line r0.next_pos]
          else []) = post
        have hpl : post.filterMap label_pos = [] := by
          rw [← hpost]
          split <;> simp [goto_line, label_pos]
        generalize h4 : (if (st3.emit post).status.success = true ∧
            r0.b.stack_size > body.stack_max then (st3.emit post).fail
          else st3.emit post) = st4
        have hf4 : st4.f = st3.f ++ post := by
          rw [← h4]; split <;> rfl
        have hb4 : st4.status.compiled_for_pos = st3.status.compiled_for_pos := by
          rw [← h4]; split <;> rfl
        have ht4 : st4.trace = st3.trace := by
          rw [← h4]; split <;> rfl
        have hs4 : st4.status.success = true ↔
            (st3.status.success = true ∧ r0.b.stack_size ≤ body.stack_max) := by
          rw [← h4]
          split
          · rename_i hc
            simp only [compile_state.fail, compile_state.emit] at hc ⊢
            constructor
            · intro h; cases h
            · intro h; omega
          · rename_i hc
            simp only [compile_state.emit] at hc ⊢
            constructor
            · intro h; exact ⟨h, by by_contra hgt; exact hc ⟨h, by omega⟩⟩
            · intro h; exact h.1
        have hiter := Run.iteration vm body st st3
          ⟨st4.f, st4.status, st4.trace ++
            [.finish pos (vm.insn_of_word w) branch r0.next_pos r0.b st4.status.success]⟩
          pos w branch r0
          (label_line vm pos (vm.insn_of_word w) :: pc_line body pos :: r0.st.f) post
          out_i evs_i hs hv hw hfin harm
          (by
            have hp := arm_plain vm _ _ _ _ r0 harm
            have : r0.st.f.filterMap label_pos = [] := by
              rw [List.filterMap_eq_nil_iff]
              intro l hl
              have := List.all_eq_true.mp hp l hl
              simp only [plain_line, bne_iff_ne, ne_eq] at this
              simp [label_pos, this]
            simp [label_line, pc_line, label_pos, this])
          hpl hrun hok hf4 hb4 hs4 (by rw [ht4])
        have hpos5 : st4.status.compiled_for_pos[pos]? = some true :=
          (hiter.visited pos).mpr (Or.inr (by simp [TraceEvent.start_pos]))
        by_cases hfail : st4.status.success = false
        · simp only [hfail, if_true]
          have hx := Extra.step vm body branch pos w r0 st3
            ⟨st4.f, st4.status, st4.trace ++
              [.finish pos (vm.insn_of_word w) branch r0.next_pos r0.b false]⟩
            out_i [] post evs_i [] false harm hw hfin hfork hex
            (fun k hk => by rw [hb4]; exact hk) hpost.symm (Extra.nil vm body r0.b _ _)
            (fun h => by cases h)
          simp only [List.append_nil] at hx
          exact ⟨_, _, _, rfl, by rw [hfail] at hiter; exact hiter, hx, fun _ _ => hpos5⟩
        · have hs4t : st4.status.success = true := by
            cases h : st4.status.success
            · exact absurd h hfail
            · rfl
          obtain ⟨st', out2, evs2, h2, hrun2, hex2, hentry2⟩ := ih r0.b r0.next_pos
            ⟨st4.f, st4.status, st4.trace ++
              [.finish pos (vm.insn_of_word w) branch r0.next_pos r0.b st4.status.success]⟩
            hs4t (by rw [hb4]; exact hlen3)
            (by
              have := hiter.unv
              have h1 := hrun.unv
              simp only [unvisited, hb4] at this h1 hfuel ⊢
              omega)
          have hmono2 : ∀ k : Nat, st4.status.compiled_for_pos[k]? = some true →
              st'.status.compiled_for_pos[k]? = some true :=
            fun k hk => (hrun2.visited k).mpr (Or.inl hk)
          have hx := Extra.step vm body branch pos w r0 st3 st' out_i out2 post evs_i evs2
            st4.status.success harm hw hfin hfork hex
            (fun k hk => hmono2 k (by rw [hb4]; exact hk)) hpost.symm hex2
            (fun _ => hentry2)
          refine ⟨st', _, _, ?_, Run.trans vm body _ _ _ _ _ _ _ hiter hrun2, hx,
            fun _ _ => hmono2 pos hpos5⟩
          simp only [hs4t, Bool.true_eq_false, if_false] at h2 ⊢
          exact h2
    · simp only [hlt, if_false]
      exact ⟨st, [], [], rfl, Run.idle vm body st st rfl rfl rfl id,
        Extra.nil vm body branch pos st, fun _ h => False.elim h⟩

/-! ## Machine arithmetic without wrap-around -/

theorem uadd_eq (a b : Nat) (h : a + b < 4294967296) : uadd a b = a + b := by
  unfold uadd; omega

theorem usub_eq (a b : Nat) (h : b ≤ a) (ha : a < 4294967296) : usub a b = a - b := by
  unfold usub; omega

theorem for_lines_eq (n : Nat) (step : Nat → List Fprintf) :
    for_lines n step = ((List.range n).map step).flatten := by
  induction n with
  | zero => rfl
  | succ k ih => simp [for_lines, ih, List.range_succ]

theorem for_lines_congr (n : Nat) (f g : Nat → List Fprintf) (h : ∀ i, i < n → f i = g i) :
    for_lines n f = for_lines n g := by
  induction n with
  | zero => rfl
  | succ k ih =>
    simp only [for_lines]
    rw [ih (fun i hi => h i (by omega)), h k (by omega)]

/-! ## The mjit_compile call as a whole -/

theorem mjit_compile_init_f (body : rb_iseq_constant_body) (funcname : String) :
    (mjit_compile_init body funcname).f =
      [⟨"VALUE %s(rb_thread_t *th, rb_control_frame_t *cfp) \x7b\n", [.s funcname]⟩] ++
        (if body.stack_max > 0 then [⟨"  VALUE stack[%d];\n", [.d body.stack_max]⟩] else []) := by
  unfold mjit_compile_init
  split <;> simp [compile_state.emit]

theorem mjit_compile_init_status (body : rb_iseq_constant_body) (funcname : String) :
    (mjit_compile_init body funcname).status = ⟨true, List.replicate body.iseq_size false⟩ := by
  unfold mjit_compile_init
  split <;> simp [compile_state.emit]

theorem mjit_compile_init_trace (body : rb_iseq_constant_body) (funcname : String) :
    (mjit_compile_init body funcname).trace = [] := by
  unfold mjit_compile_init
  split <;> simp [compile_state.emit]

/-- The call `mjit_compile` always returns: the driver started at offset 0 with
`stack_size` 0 returns a state `st0`, what it did is a `Run`, and `mjit_compile` adds the
cancel handler and the closing brace to what `st0` holds. -/
theorem mjit_compile_run (vm : VMInfo) (body : rb_iseq_constant_body) (funcname : String) :
    ∃ st0 out evs,
      compile_insns vm body (body.iseq_size + 1) (mjit_compile_init body funcname) 0 0 =
        some st0 ∧
      Run vm body (mjit_compile_init body funcname) st0 out evs ∧
      Extra vm body ⟨0, false⟩ 0 st0 out evs ∧
      mjit_compile vm body funcname =
        some ⟨st0.f ++ compile_cancel_handler body ++ [⟨"\x7d\n", []⟩], st0.status,
          st0.trace⟩ := by
  obtain ⟨st0, out, evs, h, hrun, hex, _⟩ := loop_run vm body (body.iseq_size + 1) ⟨0, false⟩ 0
    (mjit_compile_init body funcname)
    (by rw [mjit_compile_init_status])
    (by rw [mjit_compile_init_status]; simp)
    (by rw [unvisited, mjit_compile_init_status]; simp)
  refine ⟨st0, out, evs, h, hrun, hex, ?_⟩
  unfold mjit_compile compile_insns
  rw [h]
  simp [compile_state.emit]

/-- C11: for every instruction stream, function name and `stack_max`, and whether or not
compilation succeeds, `mjit_compile` returns, and what it printed is: the header line
`VALUE <funcname>(rb_thread_t *th, rb_control_frame_t *cfp) {`, then the declaration
`VALUE stack[<stack_max>];` if and only if `stack_max > 0`, then what the driver
`compile_insns` printed when started at offset 0 with `stack_size` 0, then the records of
`compile_cancel_handler` (which start with `cancel:`), then the line `}` as the last one. -/
theorem mjit_compile_output_shape (vm : VMInfo) (body : rb_iseq_constant_body)
    (funcname : String) :
    ∃ st0 body_lines st,
      compile_insns vm body (body.iseq_size + 1) (mjit_compile_init body funcname) 0 0 =
        some st0 ∧
      st0.f = (mjit_compile_init body funcname).f ++ body_lines ∧
      mjit_compile vm body funcname = some st ∧
      st.status.success = st0.status.success ∧
      st.f =
        [⟨"VALUE %s(rb_thread_t *th, rb_control_frame_t *cfp) \x7b\n", [.s funcname]⟩] ++
        (if body.stack_max > 0 then [⟨"  VALUE stack[%d];\n", [.d body.stack_max]⟩] else []) ++
        body_lines ++ compile_cancel_handler body ++ [⟨"\x7d\n", []⟩] ∧
      (compile_cancel_handler body).head? = some ⟨"cancel:\n", []⟩ ∧
      st.f.getLast? = some ⟨"\x7d\n", []⟩ := by
  obtain ⟨st0, out, evs, h, hrun, _, hm⟩ := mjit_compile_run vm body funcname
  refine ⟨st0, out, _, h, hrun.f_eq, hm, rfl, ?_, ?_, ?_⟩
  · simp only [hrun.f_eq, mjit_compile_init_f]
  · simp [compile_cancel_handler]
  · simp

/-! ## The emitter helpers -/

/-- C12: for every `stack_max` (an `unsigned int`), `compile_cancel_handler` prints
`cancel:`, then exactly `stack_max` spill lines in ascending order, the `i`-th
(`0 <= i < stack_max`) storing `stack[i]` at offset `i+1` above `cfp->ep`, then
`return Qundef;`; with `stack_max = 0` it prints no spill line, only `cancel:` and
`return Qundef;`. -/
theorem compile_cancel_handler_spills (body : rb_iseq_constant_body)
    (hmax : body.stack_max < 4294967296) :
    compile_cancel_handler body =
      [⟨"cancel:\n", []⟩] ++
      (List.range body.stack_max).map
        (fun i => ⟨"  *((VALUE *)cfp->ep + %d) = stack[%d];\n", [.d (i + 1), .d i]⟩) ++
      [⟨"  return Qundef;\n", []⟩] ∧
    (compile_cancel_handler body).length = body.stack_max + 2 ∧
    (body.stack_max = 0 →
      compile_cancel_handler body = [⟨"cancel:\n", []⟩, ⟨"  return Qundef;\n", []⟩]) := by
  have key : compile_cancel_handler body =
      [⟨"cancel:\n", []⟩] ++
      (List.range body.stack_max).map
        (fun i => ⟨"  *((VALUE *)cfp->ep + %d) = stack[%d];\n", [.d (i + 1), .d i]⟩) ++
      [⟨"  return Qundef;\n", []⟩] := by
    unfold compile_cancel_handler
    rw [for_lines_congr body.stack_max _
      (fun i => [⟨"  *((VALUE *)cfp->ep + %d) = stack[%d];\n", [.d (i + 1), .d i]⟩])
      (fun i hi => by rw [uadd_eq i 1 (by omega)])]
    rw [for_lines_eq]
    congr 2
    induction (List.range body.stack_max) with
    | nil => rfl
    | cons a t ih => simp [ih]
  refine ⟨key, ?_, ?_⟩
  · rw [key]; simp
  · intro h0
    rw [key, h0]
    rfl

theorem compile_cancel_handler_spills_witness :
    compile_cancel_handler ⟨[15, 56], 4096, 2⟩ =
      [⟨"cancel:\n", []⟩,
       ⟨"  *((VALUE *)cfp->ep + %d) = stack[%d];\n", [.d 1, .d 0]⟩,
       ⟨"  *((VALUE *)cfp->ep + %d) = stack[%d];\n", [.d 2, .d 1]⟩,
       ⟨"  return Qundef;\n", []⟩] :=
  (compile_cancel_handler_spills ⟨[15, 56], 4096, 2⟩ (by decide)).1

/-- C20: for every `argc` and base index `pos`, `fprint_args` prints exactly `argc`
copy/advance pairs, the `i`-th (`0 <= i < argc`) being `*(cfp->sp) = stack[pos+i];` (the
index computed as `unsigned int`, so it is `pos + i` itself when `pos + argc` does not
exceed `2^32`) followed by `cfp->sp++;`, in ascending `i`; for `argc = 0` it prints
nothing. -/
theorem fprint_args_pairs (argc pos : Nat) :
    fprint_args argc pos =
      ((List.range argc).map fun i =>
        [(⟨"    *(cfp->sp) = stack[%d];\n", [.d ((pos + i) % 4294967296)]⟩ : Fprintf),
         ⟨"    cfp->sp++;\n", []⟩]).flatten ∧
    (pos + argc ≤ 4294967296 →
      fprint_args argc pos =
        ((List.range argc).map fun i =>
          [(⟨"    *(cfp->sp) = stack[%d];\n", [.d (pos + i)]⟩ : Fprintf),
           ⟨"    cfp->sp++;\n", []⟩]).flatten) ∧
    (fprint_args argc pos).length = 2 * argc ∧
    fprint_args 0 pos = [] := by
  have key : fprint_args argc pos =
      for_lines argc fun i =>
        [⟨"    *(cfp->sp) = stack[%d];\n", [.d ((pos + i) % 4294967296)]⟩,
         ⟨"    cfp->sp++;\n", []⟩] := by
    unfold fprint_args
    by_cases h : argc = 0
    · subst h; rfl
    · simp only [ne_eq, h, not_false_eq_true, if_true, uadd]
  refine ⟨by rw [key, for_lines_eq], ?_, ?_, rfl⟩
  · intro hle
    rw [key, for_lines_congr argc _
      (fun i => [⟨"    *(cfp->sp) = stack[%d];\n", [.d (pos + i)]⟩, ⟨"    cfp->sp++;\n", []⟩])
      (fun i hi => by rw [Nat.mod_eq_of_lt (by omega)]), for_lines_eq]
  · rw [key]
    clear key
    induction argc with
    | zero => rfl
    | succ k ih =>
      simp only [for_lines, List.length_append, ih, List.length_cons, List.length_nil]
      omega

/-- C16: `opt_send_without_block` with call-info `argc = n`, translated at simulated
`stack_size = s >= n+1`: the arm prints the declaration of `calling`,
`calling.block_handler = VM_BLOCK_HANDLER_NONE`, `calling.argc = n`, the method search on
the receiver `stack[s-1-n]`, then exactly `n+1` copy/advance pairs for the slots
`stack[s-1-n] .. stack[s-1]` in ascending order, then the cached call that stores its
result (or the result of `vm_exec` when the call and `mjit_exec` both yield `Qundef`) in
`stack[s-1-n]`; it leaves `stack_size = s - n` and `next_pos` as it was. -/
theorem opt_send_without_block_arm (vm : VMInfo)
    (rec : Nat → Nat → compile_state → Option compile_state) (st : compile_state)
    (insn : Nat) (operands : Nat → VALUE) (pos : Nat) (b : compile_branch) (next_pos : Nat)
    (n s : Nat) (hop : vm.opcode insn = .opt_send_without_block)
    (hn : vm.ci_orig_argc (operands 0) = n) (hs : b.stack_size = s)
    (hle : n + 1 ≤ s) (hs32 : s < 4294967296) :
    compile_insn_switch vm rec st insn operands pos b next_pos =
      some ⟨next_pos, ⟨s - n, b.finish_p⟩,
        st.emit (
          [⟨"  \x7b\n", []⟩,
           ⟨"    struct rb_calling_info calling;\n", []⟩,
           ⟨"    calling.block_handler = VM_BLOCK_HANDLER_NONE;\n", []⟩,
           ⟨"    calling.argc = %d;\n", [.d n]⟩,
           ⟨"    vm_search_method(0x%lx, 0x%lx, calling.recv = stack[%d]);\n",
             [.x (operands 0), .x (operands 1), .d (s - 1 - n)]⟩] ++
          ((List.range (n + 1)).map fun i =>
            [(⟨"    *(cfp->sp) = stack[%d];\n", [.d (s - 1 - n + i)]⟩ : Fprintf),
             ⟨"    cfp->sp++;\n", []⟩]).flatten ++
          [⟨"    \x7b\n", []⟩,
           ⟨"      VALUE v = (*((CALL_CACHE)0x%lx)->call)(th, cfp, &calling, 0x%lx, 0x%lx);\n",
             [.x (operands 1), .x (operands 0), .x (operands 1)]⟩,
           ⟨"      if (v == Qundef && (v = mjit_exec(th)) == Qundef) \x7b\n", []⟩,
           ⟨"        VM_ENV_FLAGS_SET(th->ec.cfp->ep, VM_FRAME_FLAG_FINISH);\n", []⟩,
           ⟨"        stack[%d] = vm_exec(th);\n", [.d (s - 1 - n)]⟩,
           ⟨"      \x7d else \x7b\n", []⟩,
           ⟨"        stack[%d] = v;\n", [.d (s - 1 - n)]⟩,
           ⟨"      \x7d\n", []⟩,
           ⟨"    \x7d\n", []⟩,
           ⟨"  \x7d\n", []⟩])⟩ := by
  unfold compile_insn_switch
  simp only [hop, hn, hs]
  have e1 : usub (usub s 1) n = s - 1 - n := by
    rw [usub_eq s 1 (by omega) hs32, usub_eq (s - 1) n (by omega) (by omega)]
  have e2 : usub (usub s n) 1 = s - 1 - n := by
    rw [usub_eq s n (by omega) hs32, usub_eq (s - n) 1 (by omega) (by omega)]
    omega
  have e3 : usub s n = s - n := usub_eq s n (by omega) hs32
  have e4 : uadd n 1 = n + 1 := uadd_eq n 1 (by omega)
  rw [e1, e2, e3, e4]
  have e5 := (fprint_args_pairs (n + 1) (s - 1 - n)).2.1 (by omega)
  rw [e5]
  simp [fprint_call_method, compile_state.emit]

theorem opt_send_without_block_arm_witness :
    compile_insn_switch sample_vm (fun _ _ st => some st) ⟨[], ⟨true, []⟩, []⟩ 53
        (operands_at ⟨[53, 2, 0, 56], 4096, 3⟩ 0) 0 ⟨3, false⟩ 3 =
      some ⟨3, ⟨1, false⟩,
        (⟨[], ⟨true, []⟩, []⟩ : compile_state).emit (
          [⟨"  \x7b\n", []⟩,
           ⟨"    struct rb_calling_info calling;\n", []⟩,
           ⟨"    calling.block_handler = VM_BLOCK_HANDLER_NONE;\n", []⟩,
           ⟨"    calling.argc = %d;\n", [.d 2]⟩,
           ⟨"    vm_search_method(0x%lx, 0x%lx, calling.recv = stack[%d]);\n",
             [.x 2, .x 0, .d 0]⟩] ++
          ((List.range 3).map fun i =>
            [(⟨"    *(cfp->sp) = stack[%d];\n", [.d (0 + i)]⟩ : Fprintf),
             ⟨"    cfp->sp++;\n", []⟩]).flatten ++
          [⟨"    \x7b\n", []⟩,
           ⟨"      VALUE v = (*((CALL_CACHE)0x%lx)->call)(th, cfp, &calling, 0x%lx, 0x%lx);\n",
             [.x 0, .x 2, .x 0]⟩,
           ⟨"      if (v == Qundef && (v = mjit_exec(th)) == Qundef) \x7b\n", []⟩,
           ⟨"        VM_ENV_FLAGS_SET(th->ec.cfp->ep, VM_FRAME_FLAG_FINISH);\n", []⟩,
           ⟨"        stack[%d] = vm_exec(th);\n", [.d 0]⟩,
           ⟨"      \x7d else \x7b\n", []⟩,
           ⟨"        stack[%d] = v;\n", [.d 0]⟩,
           ⟨"      \x7d\n", []⟩,
           ⟨"    \x7d\n", []⟩,
           ⟨"  \x7d\n", []⟩])⟩ :=
  opt_send_without_block_arm sample_vm (fun _ _ st => some st) ⟨[], ⟨true, []⟩, []⟩ 53
    (operands_at ⟨[53, 2, 0, 56], 4096, 3⟩ 0) 0 ⟨3, false⟩ 3 2 3 (by decide) (by decide) rfl
    (by decide) (by decide)

theorem opt_call_delta (argc : Nat) (h : argc ≤ 3) :
    int_of_u32 (usub 1 argc) = 1 - (argc : Int) := by
  interval_cases argc <;> simp [int_of_u32, usub]

theorem uadd_int_delta (s argc : Nat) (h1 : argc ≤ s) (h2 : s + 1 < 4294967296) :
    uadd_int s (1 - (argc : Int)) = s + 1 - argc := by
  unfold uadd_int
  omega

theorem fprint_opt_call_lines (s argc : Nat) (format : String) (va : List Arg)
    (h1 : argc ≤ s) (h2 : s + 1 < 4294967296) (h3 : 1 ≤ argc) (h4 : argc ≤ 3) :
    (fprint_opt_call s argc format va).1 =
      [⟨"  \x7b\n", []⟩, ⟨"    VALUE recv = stack[%d];\n", [.d (s - argc)]⟩] ++
      (if 2 ≤ argc then [⟨"    VALUE obj = stack[%d];\n", [.d (s - (argc - 1))]⟩] else []) ++
      (if 3 ≤ argc then [⟨"    VALUE obj2 = stack[%d];\n", [.d (s - (argc - 2))]⟩] else []) ++
      [⟨"    VALUE result = ", []⟩, ⟨format, va⟩, ⟨";\n", []⟩,
       ⟨"    if (result == Qundef) \x7b\n", []⟩,
       ⟨"      cfp->sp = cfp->ep + %d;\n", [.d (s + 1)]⟩,
       ⟨"      goto cancel;\n", []⟩,
       ⟨"    \x7d\n", []⟩,
       ⟨"    stack[%d] = result;\n", [.d (s - argc)]⟩,
       ⟨"  \x7d\n", []⟩] := by
  have e0 : usub s argc = s - argc := usub_eq s argc h1 (by omega)
  have e1 : usub s (usub argc 1) = s - (argc - 1) := by
    rw [usub_eq argc 1 h3 (by omega), usub_eq s (argc - 1) (by omega) (by omega)]
  have e2 : 3 ≤ argc → usub s (usub argc 2) = s - (argc - 2) := by
    intro h
    rw [usub_eq argc 2 (by omega) (by omega), usub_eq s (argc - 2) (by omega) (by omega)]
  have e3 : uadd s 1 = s + 1 := uadd_eq s 1 h2
  unfold fprint_opt_call fprint_opt_call_variables fprint_opt_call_fallback
  simp only [e0, e1, e3]
  by_cases h : 3 ≤ argc
  · simp [h, e2 h, show 2 ≤ argc by omega]
  · simp [h]

/-- C17: every specialised operator opcode lowered through `fprint_opt_call` or
`fprint_opt_call_with_key` with `argc` operands (the pairs of `opt_call_argc`: `argc = 1`
for `opt_length`, `opt_size`, `opt_empty_p`, `opt_succ`, `opt_not`, `opt_aref_with`; 2 for
`opt_plus` ... `opt_regexpmatch2`, `opt_aset_with`; 3 for `opt_aset`), translated at
`stack_size = s >= argc`: the helper returns `1 - argc`, the new `stack_size` is
`s + 1 - argc`, the receiver is read from `stack[s-argc]`, the result is stored in
`stack[s-argc]`, and the `Qundef` fallback sets `cfp->sp` to `cfp->ep + (s + 1)`, with the
`s` of before the instruction, before `goto cancel`. -/
theorem opt_call_arm (vm : VMInfo)
    (rec : Nat → Nat → compile_state → Option compile_state) (st : compile_state)
    (insn : Nat) (operands : Nat → VALUE) (pos : Nat) (b : compile_branch) (next_pos : Nat)
    (op : YARVINSN) (argc : Nat) (hmem : (op, argc) ∈ opt_call_argc)
    (hop : vm.opcode insn = op) (hle : argc ≤ b.stack_size)
    (hs32 : b.stack_size + 1 < 4294967296) :
    (fprint_opt_call b.stack_size argc (opt_call_format op operands).1
        (opt_call_format op operands).2).2 = 1 - (argc : Int) ∧
    fprint_opt_call_with_key b.stack_size argc (opt_call_format op operands).1
        (opt_call_format op operands).2 =
      fprint_opt_call b.stack_size argc (opt_call_format op operands).1
        (opt_call_format op operands).2 ∧
    compile_insn_switch vm rec st insn operands pos b next_pos =
      some ⟨next_pos, ⟨b.stack_size + 1 - argc, b.finish_p⟩,
        st.emit (fprint_opt_call b.stack_size argc (opt_call_format op operands).1
          (opt_call_format op operands).2).1⟩ ∧
    (fprint_opt_call b.stack_size argc (opt_call_format op operands).1
        (opt_call_format op operands).2).1 =
      [⟨"  \x7b\n", []⟩,
        ⟨"    VALUE recv = stack[%d];\n", [.d (b.stack_size - argc)]⟩] ++
      (if 2 ≤ argc then
        [⟨"    VALUE obj = stack[%d];\n", [.d (b.stack_size - (argc - 1))]⟩] else []) ++
      (if 3 ≤ argc then
        [⟨"    VALUE obj2 = stack[%d];\n", [.d (b.stack_size - (argc - 2))]⟩] else []) ++
      [⟨"    VALUE result = ", []⟩,
       ⟨(opt_call_format op operands).1, (opt_call_format op operands).2⟩, ⟨";\n", []⟩,
       ⟨"    if (result == Qundef) \x7b\n", []⟩,
       ⟨"      cfp->sp = cfp->ep + %d;\n", [.d (b.stack_size + 1)]⟩,
       ⟨"      goto cancel;\n", []⟩,
       ⟨"    \x7d\n", []⟩,
       ⟨"    stack[%d] = result;\n", [.d (b.stack_size - argc)]⟩,
       ⟨"  \x7d\n", []⟩] := by
  have hargc : 1 ≤ argc ∧ argc ≤ 3 := by
    simp only [opt_call_argc, List.mem_cons, Prod.mk.injEq, List.mem_singleton,
      List.not_mem_nil, or_false] at hmem
    omega
  have hret : ∀ format va,
      (fprint_opt_call b.stack_size argc format va).2 = 1 - (argc : Int) :=
    fun _ _ => opt_call_delta argc hargc.2
  have hd := uadd_int_delta b.stack_size argc hle hs32
  have hkey : ∀ format va, fprint_opt_call_with_key b.stack_size argc format va =
      fprint_opt_call b.stack_size argc format va := fun _ _ => rfl
  have hb1 : b = ⟨b.stack_size + 1 - 1, b.finish_p⟩ := by cases b; simp
  refine ⟨hret _ _, hkey _ _, ?_,
    fprint_opt_call_lines _ _ _ _ hle hs32 hargc.1 hargc.2⟩
  simp only [opt_call_argc, List.mem_cons, Prod.mk.injEq, List.mem_singleton,
    List.not_mem_nil, or_false] at hmem
  rcases hmem with h | h | h | h | h | h | h | h | h | h | h | h | h | h | h | h | h | h |
    h | h | h | h <;>
  (obtain ⟨h1, h2⟩ := h
   subst h1 h2
   unfold compile_insn_switch
   simp only [hop, opt_call_format]
   first
   | (rw [hkey, hret, hd])
   | (rw [hret, hd])
   | (rw [← hb1]))

theorem opt_call_arm_witness :
    compile_insn_switch sample_vm (fun _ _ st => some st) ⟨[], ⟨true, []⟩, []⟩ 67
        (fun _ => 0) 2 ⟨2, false⟩ 5 =
      some ⟨5, ⟨1, false⟩,
        (⟨[], ⟨true, []⟩, []⟩ : compile_state).emit
          (fprint_opt_call 2 2 "vm_opt_plus(recv, obj)" []).1⟩ :=
  (opt_call_arm sample_vm (fun _ _ st => some st) ⟨[], ⟨true, []⟩, []⟩ 67 (fun _ => 0) 2
    ⟨2, false⟩ 5 .opt_plus 2 (by decide) (by decide) (by decide) (by decide)).2.2.1

/-! ## Control flow of one instruction -/

set_option maxHeartbeats 4000000 in
/-- Where each arm sends the walk, and which arms end the branch: the next offset is the
branch target for `jump`, `branchif`, `branchunless` and `branchnil` and the offset after
the instruction for every other opcode; `finish_p` is set by `leave` and `throw` only. -/
theorem arm_control (vm : VMInfo) (insn : Nat) (operands : Nat → VALUE) (pos : Nat)
    (b : compile_branch) (r0 : insn_result) (op : YARVINSN) (hop : vm.opcode insn = op)
    (h : arm vm insn operands pos b = some r0) :
    r0.next_pos =
      (if redirects op = true then uadd (uadd pos (vm.insn_len insn)) (u32 (operands 0))
       else uadd pos (vm.insn_len insn)) ∧
    r0.b.finish_p = (ends_branch op || b.finish_p) := by
  unfold arm compile_insn_switch at h
  cases op <;> simp only [hop, Option.some.injEq] at h <;> subst h <;> exact ⟨rfl, rfl⟩

theorem redirects_iff (op : YARVINSN) :
    redirects op = true ↔ (op = .jump ∨ is_fork op = true) := by
  cases op <;> simp [redirects, is_fork]

theorem ends_branch_iff (op : YARVINSN) :
    ends_branch op = true ↔ (op = .leave ∨ op = .throw) := by
  cases op <;> simp [ends_branch]

/-- What the trailing `goto` of `compile_insn` does when it returns. -/
theorem compile_insn_goto_some (vm : VMInfo) (body : rb_iseq_constant_body) (insn : Nat)
    (r1 r : insn_result) (h : compile_insn_goto vm body insn r1 = some r) :
    r = ⟨r1.next_pos, r1.b, r1.st.emit
      (if (r1.next_pos < body.iseq_size ∧
            r1.st.status.compiled_for_pos[r1.next_pos]? = some true) ∨
          vm.opcode insn = .jump then [goto_line r1.next_pos] else [])⟩ := by
  unfold compile_insn_goto at h
  by_cases hlt : r1.next_pos < body.iseq_size
  · simp only [hlt, if_true] at h
    cases hv : r1.st.status.compiled_for_pos[r1.next_pos]? with
    | none => rw [hv] at h; cases h
    | some v =>
      rw [hv] at h
      simp only [] at h
      cases v <;> by_cases hj : vm.opcode insn = .jump <;>
        simp [hj, hlt] at h ⊢ <;> subst h <;> simp [goto_line, emit_nil]
  · by_cases hj : vm.opcode insn = .jump <;>
      simp [hj, hlt] at h ⊢ <;> subst h <;> simp [goto_line, emit_nil]

/-- What `compile_insn` returns, when it returns: the next offset and the trailing
`goto`. -/
theorem compile_insn_next_pos_some (vm : VMInfo)
    (rec : Nat → Nat → compile_state → Option compile_state) (st : compile_state)
    (body : rb_iseq_constant_body) (insn : Nat) (operands : Nat → VALUE) (pos : Nat)
    (b : compile_branch) (r : insn_result)
    (h : compile_insn vm rec st body insn operands pos b = some r) :
    ∃ r1, compile_insn_switch vm rec (st.emit [pc_line body pos]) insn operands pos b
        (uadd pos (vm.insn_len insn)) = some r1 ∧
      (vm.opcode insn ≠ .jump → is_fork (vm.opcode insn) = false →
        r.next_pos = (pos + vm.insn_len insn) % 4294967296) ∧
      (vm.opcode insn = .jump →
        r.next_pos = (pos + vm.insn_len insn + operands 0 % 4294967296) % 4294967296) ∧
      r.st = r1.st.emit
        (if (r.next_pos < body.iseq_size ∧
              r1.st.status.compiled_for_pos[r.next_pos]? = some true) ∨
            vm.opcode insn = .jump then [goto_line r.next_pos] else []) ∧
      (vm.opcode insn = .jump →
        r.st.f = st.f ++ [pc_line body pos, ⟨"  RUBY_VM_CHECK_INTS(th);\n", []⟩,
          goto_line r.next_pos, goto_line r.next_pos]) ∧
      (vm.opcode insn ≠ .jump →
        ¬ (r.next_pos < body.iseq_size ∧
            r1.st.status.compiled_for_pos[r.next_pos]? = some true) →
        r.st = r1.st) := by
  unfold compile_insn at h
  simp only [] at h
  cases hsw : compile_insn_switch vm rec
      (st.emit [⟨"  cfp->pc = (VALUE *)0x%lx;\n", [.x (body.iseq_encoded_addr + 8 * pos)]⟩])
      insn operands pos b (uadd pos (vm.insn_len insn)) with
  | none => rw [hsw] at h; cases h
  | some r1 =>
    rw [hsw] at h
    simp only [] at h
    have hr := compile_insn_goto_some vm body insn r1 r h
    obtain ⟨r0, harm, heq⟩ := switch_eq vm rec
      (st.emit [⟨"  cfp->pc = (VALUE *)0x%lx;\n", [.x (body.iseq_encoded_addr + 8 * pos)]⟩])
      insn operands pos b
    rw [hsw] at heq
    have hnp : r1.next_pos = r0.next_pos := by
      split at heq
      · cases hrec : rec r0.b.stack_size (uadd pos (vm.insn_len insn))
            ((st.emit [⟨"  cfp->pc = (VALUE *)0x%lx;\n",
              [.x (body.iseq_encoded_addr + 8 * pos)]⟩]).emit r0.st.f) with
        | none => rw [hrec] at heq; cases heq
        | some s2 => rw [hrec] at heq; simp at heq; rw [heq]
      · simp at heq; rw [heq]
    have hctl := (arm_control vm insn operands pos b r0 _ rfl harm).1
    have hrn : r.next_pos = r1.next_pos := by rw [hr]
    refine ⟨r1, hsw, ?_, ?_, ?_, ?_, ?_⟩
    · intro hj hf
      have hnr : ¬ redirects (vm.opcode insn) = true := by
        rw [redirects_iff]
        rintro (h1 | h1)
        · exact hj h1
        · rw [hf] at h1; cases h1
      rw [hrn, hnp, hctl, if_neg hnr]
      rfl
    · intro hj
      have hre : redirects (vm.opcode insn) = true := (redirects_iff _).mpr (Or.inl hj)
      rw [hrn, hnp, hctl, if_pos hre]
      unfold uadd u32
      omega
    · rw [hrn]; rw [hr]
    · intro hj
      rw [hr]
      have hsimple : is_fork (vm.opcode insn) = false := by rw [hj]; rfl
      simp only [hsimple, Bool.false_eq_true, if_false, Option.map_some',
        Option.some.injEq] at heq
      unfold arm compile_insn_switch at harm
      simp only [hj, Option.some.injEq] at harm
      subst harm
      subst heq
      simp [hj, compile_state.emit, pc_line, goto_line]
    · intro hj hc
      rw [hrn] at hc
      rw [hr]
      simp [hj, hc, emit_nil]

/-- When the array has `iseq_size` entries and, for `branchif`, `branchunless` and
`branchnil`, the driver called on the fall-through offset returns and keeps that size,
`compile_insn` returns. -/
theorem compile_insn_returns (vm : VMInfo)
    (rec : Nat → Nat → compile_state → Option compile_state) (st : compile_state)
    (body : rb_iseq_constant_body) (insn : Nat) (operands : Nat → VALUE) (pos : Nat)
    (b : compile_branch)
    (hlen : st.status.compiled_for_pos.length = body.iseq_size)
    (hrec : is_fork (vm.opcode insn) = true →
      ∀ r0, arm vm insn operands pos b = some r0 →
      ∃ st2, rec r0.b.stack_size (uadd pos (vm.insn_len insn))
          (st.emit (pc_line body pos :: r0.st.f)) = some st2 ∧
        st2.status.compiled_for_pos.length = body.iseq_size) :
    ∃ r, compile_insn vm rec st body insn operands pos b = some r ∧
      r.st.status.compiled_for_pos.length = body.iseq_size := by
  obtain ⟨r0, harm, heq⟩ := compile_insn_eq vm rec st body insn operands pos b
  rw [heq]
  by_cases hf : is_fork (vm.opcode insn) = true
  · obtain ⟨st2, h2, hl2⟩ := hrec hf r0 harm
    have hst : (⟨st.f ++ pc_line body pos :: r0.st.f, st.status, st.trace⟩ : compile_state) =
        st.emit (pc_line body pos :: r0.st.f) := rfl
    rw [if_pos hf, hst, h2]
    simp only []
    rw [compile_insn_goto_eq vm body insn ⟨r0.next_pos, r0.b, st2⟩ hl2]
    exact ⟨_, rfl, hl2⟩
  · rw [if_neg hf]
    simp only []
    rw [compile_insn_goto_eq vm body insn ⟨r0.next_pos, r0.b,
      ⟨st.f ++ pc_line body pos :: r0.st.f,
        ⟨st.status.success && r0.st.status.success, st.status.compiled_for_pos⟩,
        st.trace⟩⟩ hlen]
    exact ⟨_, rfl, hlen⟩

/-- C18: `compile_insn` returns whenever the array has `iseq_size` entries and, for
`branchif`, `branchunless` and `branchnil`, the driver called on the fall-through offset
returns and keeps that size. For every opcode other than `jump` and these three it
returns `pos + insn_len` as the next offset; for `jump` with operand `d` it returns
`pos + insn_len + d` (all sums of `unsigned int`, modulo `2^32`). What `compile_insn`
prints ends with a trailing `goto label_<next>` if and only if (`next < iseq_size` and
offset `next` is already marked compiled) or the opcode is `jump`: a `jump` prints
`goto label_<target>` twice, and any other opcode that falls into an offset not yet
compiled prints none. -/
theorem compile_insn_next_offset (vm : VMInfo)
    (rec : Nat → Nat → compile_state → Option compile_state) (st : compile_state)
    (body : rb_iseq_constant_body) (insn : Nat) (operands : Nat → VALUE) (pos : Nat)
    (b : compile_branch)
    (hlen : st.status.compiled_for_pos.length = body.iseq_size)
    (hrec : is_fork (vm.opcode insn) = true →
      ∀ r0, arm vm insn operands pos b = some r0 →
      ∃ st2, rec r0.b.stack_size (uadd pos (vm.insn_len insn))
          (st.emit (pc_line body pos :: r0.st.f)) = some st2 ∧
        st2.status.compiled_for_pos.length = body.iseq_size) :
    ∃ r r1, compile_insn vm rec st body insn operands pos b = some r ∧
      compile_insn_switch vm rec (st.emit [pc_line body pos]) insn operands pos b
        (uadd pos (vm.insn_len insn)) = some r1 ∧
      (vm.opcode insn ≠ .jump → is_fork (vm.opcode insn) = false →
        r.next_pos = (pos + vm.insn_len insn) % 4294967296) ∧
      (vm.opcode insn = .jump →
        r.next_pos = (pos + vm.insn_len insn + operands 0 % 4294967296) % 4294967296) ∧
      r.st = r1.st.emit
        (if (r.next_pos < body.iseq_size ∧
              r1.st.status.compiled_for_pos[r.next_pos]? = some true) ∨
            vm.opcode insn = .jump then [goto_line r.next_pos] else []) ∧
      (vm.opcode insn = .jump →
        r.st.f = st.f ++ [pc_line body pos, ⟨"  RUBY_VM_CHECK_INTS(th);\n", []⟩,
          goto_line r.next_pos, goto_line r.next_pos]) ∧
      (vm.opcode insn ≠ .jump →
        ¬ (r.next_pos < body.iseq_size ∧
            r1.st.status.compiled_for_pos[r.next_pos]? = some true) →
        r.st = r1.st) := by
  obtain ⟨r, h, _⟩ := compile_insn_returns vm rec st body insn operands pos b hlen hrec
  obtain ⟨r1, h1, h2, h3, h4, h5, h6⟩ :=
    compile_insn_next_pos_some vm rec st body insn operands pos b r h
  exact ⟨r, r1, h, h1, h2, h3, h4, h5, h6⟩

theorem compile_insn_next_offset_witness :
    (∃ r r1, compile_insn sample_vm (fun _ _ st => some st)
          ⟨[], ⟨true, [false, false, false]⟩, []⟩ ⟨[58, 5, 56], 4096, 1⟩ 58
          (operands_at ⟨[58, 5, 56], 4096, 1⟩ 0) 0 ⟨0, false⟩ = some r ∧
        compile_insn_switch sample_vm (fun _ _ st => some st)
          ((⟨[], ⟨true, [false, false, false]⟩, []⟩ : compile_state).emit
            [pc_line ⟨[58, 5, 56], 4096, 1⟩ 0]) 58
          (operands_at ⟨[58, 5, 56], 4096, 1⟩ 0) 0 ⟨0, false⟩ (uadd 0 2) = some r1 ∧
        r.next_pos = 7 ∧
        r.st.f = [pc_line ⟨[58, 5, 56], 4096, 1⟩ 0, ⟨"  RUBY_VM_CHECK_INTS(th);\n", []⟩,
          goto_line r.next_pos, goto_line r.next_pos]) ∧
    (∃ r r1, compile_insn sample_vm
          (fun s p st => compile_insns_loop sample_vm ⟨[15, 60, 1, 15, 56], 4096, 1⟩ 5
            ⟨s, false⟩ p st)
          ⟨[], ⟨true, [true, true, false, false, false]⟩, []⟩
          ⟨[15, 60, 1, 15, 56], 4096, 1⟩ 60
          (operands_at ⟨[15, 60, 1, 15, 56], 4096, 1⟩ 1) 1 ⟨1, false⟩ = some r ∧
        compile_insn_switch sample_vm
          (fun s p st => compile_insns_loop sample_vm ⟨[15, 60, 1, 15, 56], 4096, 1⟩ 5
            ⟨s, false⟩ p st)
          ((⟨[], ⟨true, [true, true, false, false, false]⟩, []⟩ : compile_state).emit
            [pc_line ⟨[15, 60, 1, 15, 56], 4096, 1⟩ 1]) 60
          (operands_at ⟨[15, 60, 1, 15, 56], 4096, 1⟩ 1) 1 ⟨1, false⟩
          (uadd 1 (sample_vm.insn_len 60)) = some r1 ∧
        r.st = r1.st.emit
          (if (r.next_pos <
                (⟨[15, 60, 1, 15, 56], 4096, 1⟩ : rb_iseq_constant_body).iseq_size ∧
                r1.st.status.compiled_for_pos[r.next_pos]? = some true) ∨
              sample_vm.opcode 60 = .jump then [goto_line r.next_pos] else [])) := by
  constructor
  · obtain ⟨r, r1, h, h1, _, h3, _, h5, _⟩ := compile_insn_next_offset sample_vm
      (fun _ _ st => some st) ⟨[], ⟨true, [false, false, false]⟩, []⟩
      ⟨[58, 5, 56], 4096, 1⟩ 58 (operands_at ⟨[58, 5, 56], 4096, 1⟩ 0) 0 ⟨0, false⟩ rfl
      (fun hf => by cases hf)
    exact ⟨r, r1, h, h1, h3 (by decide), h5 (by decide)⟩
  · obtain ⟨r, r1, h, h1, _, _, h4, _, _⟩ := compile_insn_next_offset sample_vm
      (fun s p st => compile_insns_loop sample_vm ⟨[15, 60, 1, 15, 56], 4096, 1⟩ 5
        ⟨s, false⟩ p st)
      ⟨[], ⟨true, [true, true, false, false, false]⟩, []⟩
      ⟨[15, 60, 1, 15, 56], 4096, 1⟩ 60 (operands_at ⟨[15, 60, 1, 15, 56], 4096, 1⟩ 1) 1
      ⟨1, false⟩ rfl
      (by
        intro _ r0 h0
        have e : arm sample_vm 60 (operands_at ⟨[15, 60, 1, 15, 56], 4096, 1⟩ 1) 1
            ⟨1, false⟩ = some _ := rfl
        rw [e] at h0
        cases h0
        exact ⟨_, rfl, rfl⟩)
    exact ⟨r, r1, h, h1, h4⟩

/-- The branch `compile_insn` returns has `finish_p` set when the opcode is `leave` or
`throw`, and as it was otherwise. -/
theorem compile_insn_finish_p (vm : VMInfo)
    (rec : Nat → Nat → compile_state → Option compile_state) (st : compile_state)
    (body : rb_iseq_constant_body) (insn : Nat) (operands : Nat → VALUE) (pos : Nat)
    (b : compile_branch) (r : insn_result)
    (h : compile_insn vm rec st body insn operands pos b = some r) :
    r.b.finish_p = (ends_branch (vm.opcode insn) || b.finish_p) := by
  unfold compile_insn at h
  simp only [] at h
  cases hsw : compile_insn_switch vm rec
      (st.emit [⟨"  cfp->pc = (VALUE *)0x%lx;\n", [.x (body.iseq_encoded_addr + 8 * pos)]⟩])
      insn operands pos b (uadd pos (vm.insn_len insn)) with
  | none => rw [hsw] at h; cases h
  | some r1 =>
    rw [hsw] at h
    simp only [] at h
    have hr := compile_insn_goto_some vm body insn r1 r h
    obtain ⟨r0, harm, heq⟩ := switch_eq vm rec
      (st.emit [⟨"  cfp->pc = (VALUE *)0x%lx;\n", [.x (body.iseq_encoded_addr + 8 * pos)]⟩])
      insn operands pos b
    rw [hsw] at heq
    have hnb : r1.b = r0.b := by
      split at heq
      · cases hrec : rec r0.b.stack_size (uadd pos (vm.insn_len insn))
            ((st.emit [⟨"  cfp->pc = (VALUE *)0x%lx;\n",
              [.x (body.iseq_encoded_addr + 8 * pos)]⟩]).emit r0.st.f) with
        | none => rw [hrec] at heq; cases heq
        | some s2 => rw [hrec] at heq; simp at heq; rw [heq]
      · simp at heq; rw [heq]
    rw [hr]
    simp only []
    rw [hnb, (arm_control vm insn operands pos b r0 _ rfl harm).2]

/-- C19: `compile_insn` returns (when the array has `iseq_size` entries and, for
`branchif`, `branchunless` and `branchnil`, the driver called on the fall-through offset
returns and keeps that size) with `finish_p` set if and only if the opcode is `leave` or
`throw` (or `finish_p` was set before). The loop of `compile_insns` goes on with the
branch `compile_insn` returned: an iteration that translates a `leave` or a `throw` at
`pos` is the last of its invocation, which returns having logged this one instruction,
printed this one label and marked this one offset, so the offset after it stays as it
was, to be translated only if another branch reaches it; and a loop entered with
`finish_p` set returns the state as it is, whatever the offset. -/
theorem finish_p_ends_walk (vm : VMInfo)
    (rec : Nat → Nat → compile_state → Option compile_state) (st : compile_state)
    (body : rb_iseq_constant_body) (insn : Nat) (operands : Nat → VALUE) (pos : Nat)
    (b : compile_branch)
    (hlen : st.status.compiled_for_pos.length = body.iseq_size)
    (hrec : is_fork (vm.opcode insn) = true →
      ∀ r0, arm vm insn operands pos b = some r0 →
      ∃ st2, rec r0.b.stack_size (uadd pos (vm.insn_len insn))
          (st.emit (pc_line body pos :: r0.st.f)) = some st2 ∧
        st2.status.compiled_for_pos.length = body.iseq_size) :
    (∃ r, compile_insn vm rec st body insn operands pos b = some r ∧
      r.b.finish_p = (ends_branch (vm.opcode insn) || b.finish_p) ∧
      (b.finish_p = false →
        (r.b.finish_p = true ↔ (vm.opcode insn = .leave ∨ vm.opcode insn = .throw)))) ∧
    (∀ (fuel next : Nat) (b2 : compile_branch) (st2 : compile_state),
      b2.finish_p = true → st2.status.compiled_for_pos.length = body.iseq_size →
      compile_insns_loop vm body (fuel + 1) b2 next st2 = some st2) ∧
    (∀ (fuel p w : Nat) (branch : compile_branch) (st1 : compile_state),
      st1.status.compiled_for_pos.length = body.iseq_size →
      st1.status.compiled_for_pos[p]? = some false →
      body.iseq_encoded[p]? = some w → branch.finish_p = false →
      (vm.opcode (vm.insn_of_word w) = .leave ∨ vm.opcode (vm.insn_of_word w) = .throw) →
      ∃ st2 np b2 succ,
        compile_insns_loop vm body (fuel + 2) branch p st1 = some st2 ∧
        st2.trace = st1.trace ++
          [.start p (vm.insn_of_word w) branch st1.status.success,
           .finish p (vm.insn_of_word w) branch np b2 succ] ∧
        b2.finish_p = true ∧
        st2.status.compiled_for_pos = st1.status.compiled_for_pos.set p true ∧
        st2.f.filterMap label_pos = st1.f.filterMap label_pos ++ [p]) := by
  have hstop : ∀ (fuel next : Nat) (b2 : compile_branch) (st2 : compile_state),
      b2.finish_p = true → st2.status.compiled_for_pos.length = body.iseq_size →
      compile_insns_loop vm body (fuel + 1) b2 next st2 = some st2 := by
    intro fuel next b2 st2 hfin hl
    rw [compile_insns_loop]
    by_cases hlt : next < body.iseq_size
    · have hv : st2.status.compiled_for_pos[next]? =
          some (st2.status.compiled_for_pos[next]) := List.getElem?_eq_getElem (by omega)
      have hw : body.iseq_encoded[next]? = some (body.iseq_encoded[next]) :=
        List.getElem?_eq_getElem hlt
      simp only [hlt, if_true, hv, hw, hfin, or_true]
    · simp only [hlt, if_false]
  refine ⟨?_, hstop, ?_⟩
  · obtain ⟨r, h, _⟩ := compile_insn_returns vm rec st body insn operands pos b hlen hrec
    have hfp := compile_insn_finish_p vm rec st body insn operands pos b r h
    refine ⟨r, h, hfp, ?_⟩
    intro hb
    rw [hfp, hb, Bool.or_false, ends_branch_iff]
  · intro fuel p w branch st1 hl1 hv hw hfin hop
    have hlt : p < body.iseq_size := by
      obtain ⟨h1, _⟩ := List.getElem?_eq_some_iff.mp hw
      exact h1
    have hnf : ¬ is_fork (vm.opcode (vm.insn_of_word w)) = true := by
      rcases hop with h | h <;> rw [h] <;> decide
    have hends : ends_branch (vm.opcode (vm.insn_of_word w)) = true :=
      (ends_branch_iff _).mpr hop
    rw [compile_insns_loop]
    simp only [hlt, if_true, hv, hw, hfin, Bool.false_eq_true, or_self, if_false]
    generalize hS0 : (compile_state.emit _ _) = s0
    have h0f : s0.f = st1.f ++ [label_line vm p (vm.insn_of_word w)] := by
      rw [← hS0]; rfl
    have h0b : s0.status.compiled_for_pos = st1.status.compiled_for_pos.set p true := by
      rw [← hS0]; rfl
    have h0t : s0.trace =
        st1.trace ++ [.start p (vm.insn_of_word w) branch st1.status.success] := by
      rw [← hS0]; rfl
    obtain ⟨r0, harm, heq⟩ := compile_insn_eq vm
      (fun stack_size pos st => compile_insns_loop vm body (fuel + 1) ⟨stack_size, false⟩ pos st)
      s0 body (vm.insn_of_word w) (operands_at body p) p branch
    rw [heq, if_neg hnf]
    simp only []
    generalize hS3 : (⟨s0.f ++ pc_line body p :: r0.st.f,
      ⟨s0.status.success && r0.st.status.success, s0.status.compiled_for_pos⟩,
      s0.trace⟩ : compile_state) = s3
    have h3f : s3.f = s0.f ++ pc_line body p :: r0.st.f := by rw [← hS3]
    have h3b : s3.status.compiled_for_pos = s0.status.compiled_for_pos := by rw [← hS3]
    have h3t : s3.trace = s0.trace := by rw [← hS3]
    have hl3 : s3.status.compiled_for_pos.length = body.iseq_size := by
      rw [h3b, h0b, List.length_set]; exact hl1
    rw [compile_insn_goto_eq vm body _ ⟨r0.next_pos, r0.b, s3⟩ hl3]
    simp only []
    have hb0 : r0.b.finish_p = true := by
      rw [(arm_control vm _ _ p branch r0 _ rfl harm).2, hends]
      rfl
    have hplain : r0.st.f.filterMap label_pos = [] := by
      rw [List.filterMap_eq_nil_iff]
      intro l hl
      have := List.all_eq_true.mp (arm_plain vm _ _ _ _ r0 harm) l hl
      simp only [plain_line, bne_iff_ne, ne_eq] at this
      simp [label_pos, this]
    generalize hpost : (if (r0.next_pos < body.iseq_size ∧
        s3.status.compiled_for_pos[r0.next_pos]? = some true) ∨
        vm.opcode (vm.insn_of_word w) = .jump then [goto_line r0.next_pos]
      else []) = post
    have hpl : post.filterMap label_pos = [] := by
      rw [← hpost]
      split <;> simp [goto_line, label_pos]
    generalize h4 : (if (s3.emit post).status.success = true ∧
        r0.b.stack_size > body.stack_max then (s3.emit post).fail
      else s3.emit post) = st4
    have h4f : st4.f = s3.f ++ post := by
      rw [← h4]; split <;> rfl
    have h4b : st4.status.compiled_for_pos = s3.status.compiled_for_pos := by
      rw [← h4]; split <;> rfl
    have h4t : st4.trace = s3.trace := by
      rw [← h4]; split <;> rfl
    refine ⟨⟨st4.f, st4.status, st4.trace ++
        [.finish p (vm.insn_of_word w) branch r0.next_pos r0.b st4.status.success]⟩,
      r0.next_pos, r0.b, st4.status.success, ?_, ?_, hb0, ?_, ?_⟩
    · split
      · rfl
      · exact hstop fuel _ r0.b _ hb0 (by simp only [h4b]; exact hl3)
    · simp only [h4t, h3t, h0t, List.append_assoc, List.singleton_append]
    · simp only [h4b, h3b, h0b]
    · simp only [h4f, h3f, h0f, List.filterMap_append, List.filterMap_cons, hplain, hpl]
      simp [label_pos, pc_line, label_line]

theorem finish_p_ends_walk_witness :
    ∃ r st2 np b2 succ,
      compile_insn sample_vm (fun _ _ st => some st) ⟨[], ⟨true, [true, true, false]⟩, []⟩
        ⟨[15, 56, 15], 4096, 1⟩ 56 (operands_at ⟨[15, 56, 15], 4096, 1⟩ 1) 1 ⟨1, false⟩ =
        some r ∧
      r.b.finish_p = true ∧
      compile_insns_loop sample_vm ⟨[15, 56, 15], 4096, 1⟩ 2 ⟨1, false⟩ 1
        ⟨[], ⟨true, [true, false, false]⟩, []⟩ = some st2 ∧
      st2.trace = [.start 1 56 ⟨1, false⟩ true, .finish 1 56 ⟨1, false⟩ np b2 succ] ∧
      b2.finish_p = true ∧
      st2.status.compiled_for_pos = [true, true, false] := by
  obtain ⟨⟨r, h, _, hiff⟩, _, h3⟩ := finish_p_ends_walk sample_vm (fun _ _ st => some st)
    ⟨[], ⟨true, [true, true, false]⟩, []⟩ ⟨[15, 56, 15], 4096, 1⟩ 56
    (operands_at ⟨[15, 56, 15], 4096, 1⟩ 1) 1 ⟨1, false⟩ rfl (fun hf => by cases hf)
  obtain ⟨st2, np, b2, succ, hl, ht, hb, hbm, _⟩ := h3 0 1 56 ⟨1, false⟩
    ⟨[], ⟨true, [true, false, false]⟩, []⟩ rfl rfl rfl rfl (Or.inl (by decide))
  exact ⟨r, st2, np, b2, succ, h, (hiff rfl).mpr (Or.inl (by decide)), hl, ht, hb, hbm⟩

/-! ## Two end-to-end streams -/

/-- C14: the stream `[putnil, leave]` (two words, `putnil` and `leave` both of length 1, in
the build without `OPT_CALL_THREADED_CODE`) with any `stack_max >= 1`: `mjit_compile`
returns true and prints, after the header and the declaration of `stack`, `label_0:`,
the `cfp->pc` assignment of offset 0 and `stack[0] = Qnil;`, then `label_1:`, the
`cfp->pc` assignment of offset 1, the frame pop and `return stack[0];`, then the cancel
handler and the closing brace; with `stack_max = 1` the declaration is `VALUE stack[1];`
and the cancel handler has exactly one spill line; with `stack_max = 0` the same stream
returns false. -/
theorem putnil_leave (vm : VMInfo) (w0 w1 addr stack_max : Nat) (funcname : String)
    (h0 : vm.opcode (vm.insn_of_word w0) = .putnil)
    (h1 : vm.opcode (vm.insn_of_word w1) = .leave)
    (l0 : vm.insn_len (vm.insn_of_word w0) = 1)
    (l1 : vm.insn_len (vm.insn_of_word w1) = 1)
    (hopt : vm.OPT_CALL_THREADED_CODE = false) :
    (1 ≤ stack_max →
      ∃ st, mjit_compile vm ⟨[w0, w1], addr, stack_max⟩ funcname = some st ∧
        st.status.success = true ∧
        st.f =
          [⟨"VALUE %s(rb_thread_t *th, rb_control_frame_t *cfp) \x7b\n", [.s funcname]⟩,
           ⟨"  VALUE stack[%d];\n", [.d stack_max]⟩,
           ⟨"\nlabel_%d: /* %s */\n", [.d 0, .s (vm.insn_name (vm.insn_of_word w0))]⟩,
           ⟨"  cfp->pc = (VALUE *)0x%lx;\n", [.x (addr + 8 * 0)]⟩,
           ⟨"  stack[%d] = Qnil;\n", [.d 0]⟩,
           ⟨"\nlabel_%d: /* %s */\n", [.d 1, .s (vm.insn_name (vm.insn_of_word w1))]⟩,
           ⟨"  cfp->pc = (VALUE *)0x%lx;\n", [.x (addr + 8 * 1)]⟩,
           ⟨"  RUBY_VM_CHECK_INTS(th);\n", []⟩,
           ⟨"  vm_pop_frame(th, cfp, cfp->ep);\n", []⟩,
           ⟨"  return stack[%d];\n", [.d 0]⟩] ++
          compile_cancel_handler ⟨[w0, w1], addr, stack_max⟩ ++ [⟨"\x7d\n", []⟩]) ∧
    compile_cancel_handler ⟨[w0, w1], addr, 1⟩ =
      [⟨"cancel:\n", []⟩,
       ⟨"  *((VALUE *)cfp->ep + %d) = stack[%d];\n", [.d 1, .d 0]⟩,
       ⟨"  return Qundef;\n", []⟩] ∧
    (∃ st, mjit_compile vm ⟨[w0, w1], addr, 0⟩ funcname = some st ∧
      st.status.success = false) := by
  refine ⟨?_, rfl, ?_⟩
  · intro hmax
    have hm1 : ¬ (1 > stack_max) := by omega
    have hm0 : stack_max > 0 := by omega
    simp [mjit_compile, compile_insns, compile_insns_loop, mjit_compile_init,
      rb_iseq_constant_body.iseq_size, compile_insn, compile_insn_switch, compile_insn_goto,
      compile_state.emit, compile_state.fail, h0, h1, l0, l1, hopt, uadd, usub, hm1, hm0]
  · simp [mjit_compile, compile_insns, compile_insns_loop, mjit_compile_init,
      rb_iseq_constant_body.iseq_size, compile_insn, compile_insn_switch, compile_insn_goto,
      compile_state.emit, compile_state.fail, h0, h1, l0, l1, hopt, uadd, usub]

theorem putnil_leave_witness :
    ∃ st, mjit_compile sample_vm ⟨[15, 56], 4096, 1⟩ "f" = some st ∧
      st.status.success = true ∧
      st.f =
        [⟨"VALUE %s(rb_thread_t *th, rb_control_frame_t *cfp) \x7b\n", [.s "f"]⟩,
         ⟨"  VALUE stack[%d];\n", [.d 1]⟩,
         ⟨"\nlabel_%d: /* %s */\n", [.d 0, .s "putnil"]⟩,
         ⟨"  cfp->pc = (VALUE *)0x%lx;\n", [.x 4096]⟩,
         ⟨"  stack[%d] = Qnil;\n", [.d 0]⟩,
         ⟨"\nlabel_%d: /* %s */\n", [.d 1, .s "leave"]⟩,
         ⟨"  cfp->pc = (VALUE *)0x%lx;\n", [.x 4104]⟩,
         ⟨"  RUBY_VM_CHECK_INTS(th);\n", []⟩,
         ⟨"  vm_pop_frame(th, cfp, cfp->ep);\n", []⟩,
         ⟨"  return stack[%d];\n", [.d 0]⟩,
         ⟨"cancel:\n", []⟩,
         ⟨"  *((VALUE *)cfp->ep + %d) = stack[%d];\n", [.d 1, .d 0]⟩,
         ⟨"  return Qundef;\n", []⟩,
         ⟨"\x7d\n", []⟩] :=
  (putnil_leave sample_vm 15 56 4096 1 "f" (by decide) (by decide) (by decide) (by decide)
    rfl).1 (by decide)

/-- C15: the diamond `[getlocal idx level; branchunless -> 9; putobject a; jump -> 11;
9: putobject b; 11: leave]` (offsets 0, 3, 5, 7, 9, 11 with the instruction lengths 3, 2,
2, 2, 2, 1; build without `OPT_CALL_THREADED_CODE`) with `stack_max >= 1`: `mjit_compile`
returns true; each of the six offsets gets its label exactly once; the fall-through arm
(`putobject a`, `jump`) and the join at 11 are printed by the driver call made inside the
`branchunless` arm, before `label_9`; the `leave` at 11 is translated once, with
`stack_size` 1; and the taken arm at 9 ends with `goto label_11` in place of a second copy
of the `leave` body. -/
theorem diamond (vm : VMInfo) (w0 w3 w5 w7 w9 w11 idx level a b addr stack_max : Nat)
    (funcname : String)
    (h0 : vm.opcode (vm.insn_of_word w0) = .getlocal)
    (h3 : vm.opcode (vm.insn_of_word w3) = .branchunless)
    (h5 : vm.opcode (vm.insn_of_word w5) = .putobject)
    (h7 : vm.opcode (vm.insn_of_word w7) = .jump)
    (h9 : vm.opcode (vm.insn_of_word w9) = .putobject)
    (h11 : vm.opcode (vm.insn_of_word w11) = .leave)
    (l0 : vm.insn_len (vm.insn_of_word w0) = 3)
    (l3 : vm.insn_len (vm.insn_of_word w3) = 2)
    (l5 : vm.insn_len (vm.insn_of_word w5) = 2)
    (l7 : vm.insn_len (vm.insn_of_word w7) = 2)
    (l9 : vm.insn_len (vm.insn_of_word w9) = 2)
    (l11 : vm.insn_len (vm.insn_of_word w11) = 1)
    (hopt : vm.OPT_CALL_THREADED_CODE = false)
    (hmax : 1 ≤ stack_max) :
    ∃ st, mjit_compile vm ⟨[w0, idx, level, w3, 4, w5, a, w7, 2, w9, b, w11], addr, stack_max⟩
        funcname = some st ∧
      st.status.success = true ∧
      st.f =
        [⟨"VALUE %s(rb_thread_t *th, rb_control_frame_t *cfp) \x7b\n", [.s funcname]⟩,
         ⟨"  VALUE stack[%d];\n", [.d stack_max]⟩,
         ⟨"\nlabel_%d: /* %s */\n", [.d 0, .s (vm.insn_name (vm.insn_of_word w0))]⟩,
         ⟨"  cfp->pc = (VALUE *)0x%lx;\n", [.x (addr + 8 * 0)]⟩] ++
        fprint_getlocal 0 idx level ++
        [⟨"\nlabel_%d: /* %s */\n", [.d 3, .s (vm.insn_name (vm.insn_of_word w3))]⟩,
         ⟨"  cfp->pc = (VALUE *)0x%lx;\n", [.x (addr + 8 * 3)]⟩,
         ⟨"  if (!RTEST(stack[%d])) \x7b\n", [.d 0]⟩,
         ⟨"    RUBY_VM_CHECK_INTS(th);\n", []⟩,
         ⟨"    goto label_%d;\n", [.d 9]⟩,
         ⟨"  \x7d\n", []⟩,
         ⟨"\nlabel_%d: /* %s */\n", [.d 5, .s (vm.insn_name (vm.insn_of_word w5))]⟩,
         ⟨"  cfp->pc = (VALUE *)0x%lx;\n", [.x (addr + 8 * 5)]⟩,
         ⟨"  stack[%d] = (VALUE)0x%lx;\n", [.d 0, .x a]⟩,
         ⟨"\nlabel_%d: /* %s */\n", [.d 7, .s (vm.insn_name (vm.insn_of_word w7))]⟩,
         ⟨"  cfp->pc = (VALUE *)0x%lx;\n", [.x (addr + 8 * 7)]⟩,
         ⟨"  RUBY_VM_CHECK_INTS(th);\n", []⟩,
         ⟨"  goto label_%d;\n", [.d 11]⟩,
         ⟨"  goto label_%d;\n", [.d 11]⟩,
         ⟨"\nlabel_%d: /* %s */\n", [.d 11, .s (vm.insn_name (vm.insn_of_word w11))]⟩,
         ⟨"  cfp->pc = (VALUE *)0x%lx;\n", [.x (addr + 8 * 11)]⟩,
         ⟨"  RUBY_VM_CHECK_INTS(th);\n", []⟩,
         ⟨"  vm_pop_frame(th, cfp, cfp->ep);\n", []⟩,
         ⟨"  return stack[%d];\n", [.d 0]⟩,
         ⟨"\nlabel_%d: /* %s */\n", [.d 9, .s (vm.insn_name (vm.insn_of_word w9))]⟩,
         ⟨"  cfp->pc = (VALUE *)0x%lx;\n", [.x (addr + 8 * 9)]⟩,
         ⟨"  stack[%d] = (VALUE)0x%lx;\n", [.d 0, .x b]⟩,
         ⟨"  goto label_%d;\n", [.d 11]⟩] ++
        compile_cancel_handler
          ⟨[w0, idx, level, w3, 4, w5, a, w7, 2, w9, b, w11], addr, stack_max⟩ ++
        [⟨"\x7d\n", []⟩] ∧
      st.trace =
        [.start 0 (vm.insn_of_word w0) ⟨0, false⟩ true,
         .finish 0 (vm.insn_of_word w0) ⟨0, false⟩ 3 ⟨1, false⟩ true,
         .start 3 (vm.insn_of_word w3) ⟨1, false⟩ true,
         .start 5 (vm.insn_of_word w5) ⟨0, false⟩ true,
         .finish 5 (vm.insn_of_word w5) ⟨0, false⟩ 7 ⟨1, false⟩ true,
         .start 7 (vm.insn_of_word w7) ⟨1, false⟩ true,
         .finish 7 (vm.insn_of_word w7) ⟨1, false⟩ 11 ⟨1, false⟩ true,
         .start 11 (vm.insn_of_word w11) ⟨1, false⟩ true,
         .finish 11 (vm.insn_of_word w11) ⟨1, false⟩ 12 ⟨1, true⟩ true,
         .finish 3 (vm.insn_of_word w3) ⟨1, false⟩ 9 ⟨0, false⟩ true,
         .start 9 (vm.insn_of_word w9) ⟨0, false⟩ true,
         .finish 9 (vm.insn_of_word w9) ⟨0, false⟩ 11 ⟨1, false⟩ true] := by
  have hm1 : ¬ (1 > stack_max) := by omega
  have hm0 : stack_max > 0 := by omega
  have hm00 : ¬ (0 > stack_max) := by omega
  simp [mjit_compile, compile_insns, compile_insns_loop, mjit_compile_init,
    rb_iseq_constant_body.iseq_size, compile_insn, compile_insn_switch, compile_insn_goto,
    compile_state.emit, compile_state.fail, operands_at, h0, h3, h5, h7, h9, h11,
    l0, l3, l5, l7, l9, l11, hopt, uadd, usub, u32, hm1, hm0, hm00]

theorem diamond_witness :
    ∃ st, mjit_compile sample_vm
        ⟨[1, 2, 0, 60, 4, 17, 100, 58, 2, 17, 200, 56], 4096, 1⟩ "f" = some st ∧
      st.status.success = true ∧
      st.f.filterMap label_pos = [0, 3, 5, 7, 11, 9] ∧
      st.f.filterMap goto_target = [9, 11, 11, 11] := by
  obtain ⟨st, h, hs, hf, _⟩ := diamond sample_vm 1 60 17 58 17 56 2 0 100 200 4096 1 "f"
    (by decide) (by decide) (by decide) (by decide) (by decide) (by decide)
    (by decide) (by decide) (by decide) (by decide) (by decide) (by decide) rfl (by decide)
  refine ⟨st, h, hs, ?_, ?_⟩
  · rw [hf]; rfl
  · rw [hf]; rfl

/-! ## Indices into the simulated stack -/

/-- The call `mjit_compile` returns a state: its trace is the trace of the driver's run
from offset 0, its status is the status the driver left, and its records are the header,
what the driver printed, the cancel handler and the closing brace. -/
theorem mjit_compile_total (vm : VMInfo) (body : rb_iseq_constant_body) (funcname : String) :
    ∃ st st0 out, mjit_compile vm body funcname = some st ∧
      Run vm body (mjit_compile_init body funcname) st0 out st.trace ∧
      Extra vm body ⟨0, false⟩ 0 st0 out st.trace ∧
      st.status = st0.status ∧
      st.f = (mjit_compile_init body funcname).f ++ out ++ compile_cancel_handler body ++
        [⟨"\x7d\n", []⟩] := by
  obtain ⟨st0, out, evs, _, hrun, hext, hm⟩ := mjit_compile_run vm body funcname
  have htr : st0.trace = evs := by
    rw [hrun.trace_eq, mjit_compile_init_trace, List.nil_append]
  refine ⟨_, st0, out, hm, ?_, ?_, rfl, ?_⟩
  · simp only [htr]; exact hrun
  · simp only [htr]; exact hext
  · simp only [hrun.f_eq]

/-- The arm of `leave` keeps the flag exactly when `stack_size` is 1. -/
theorem arm_leave (vm : VMInfo) (insn : Nat) (operands : Nat → VALUE) (pos : Nat)
    (b : compile_branch) (r0 : insn_result) (hop : vm.opcode insn = .leave)
    (h : arm vm insn operands pos b = some r0) :
    r0.st.status.success = decide (b.stack_size = 1) := by
  unfold arm compile_insn_switch at h
  simp only [hop, Option.some.injEq] at h
  subst h
  by_cases h1 : b.stack_size = 1 <;> simp [h1, compile_state.emit, compile_state.fail]

/-- The default arm drops the flag. -/
theorem arm_no_arm (vm : VMInfo) (insn : Nat) (operands : Nat → VALUE) (pos : Nat)
    (b : compile_branch) (r0 : insn_result) (op : YARVINSN) (hop : vm.opcode insn = op)
    (hno : no_arm op = true) (h : arm vm insn operands pos b = some r0) :
    r0.st.status.success = false := by
  unfold arm compile_insn_switch at h
  cases op <;> simp only [no_arm, Bool.false_eq_true] at hno <;>
    simp only [hop, Option.some.injEq] at h <;> subst h <;> rfl

/-- Every arm other than the default and that of `leave` keeps the flag. -/
theorem arm_success (vm : VMInfo) (insn : Nat) (operands : Nat → VALUE) (pos : Nat)
    (b : compile_branch) (r0 : insn_result) (op : YARVINSN) (hop : vm.opcode insn = op)
    (hno : no_arm op = false) (hl : op ≠ .leave) (h : arm vm insn operands pos b = some r0) :
    r0.st.status.success = true := by
  unfold arm compile_insn_switch at h
  cases op <;> simp only [no_arm, Bool.true_eq_false] at hno <;>
    simp only [hop, Option.some.injEq] at h <;> subst h <;>
    first | rfl | exact absurd rfl hl

/-- In a run, an instruction whose arm drops the flag leaves the flag FALSE at the end. -/
theorem Run.arm_failure (vm : VMInfo) (body : rb_iseq_constant_body)
    (st st' : compile_state) (out : List Fprintf) (evs : List TraceEvent)
    (hrun : Run vm body st st' out evs) (pos insn : Nat) (b : compile_branch) (succ : Bool)
    (hev : TraceEvent.start pos insn b succ ∈ evs)
    (harm : ∀ r0, arm vm insn (operands_at body pos) pos b = some r0 →
      r0.st.status.success = false) :
    st'.status.success = false := by
  obtain ⟨_, _, _, _, np, b', succ', hfin⟩ := hrun.started pos insn b succ hev
  obtain ⟨_, hf, r0, h0, _, _, hs⟩ := hrun.finished pos insn b np b' succ' hfin
  cases succ' with
  | false => exact hf rfl
  | true =>
    have := (hs rfl).1
    rw [harm r0 h0] at this
    cases this

/-- No record of the header is a label line. -/
theorem label_pos_init (body : rb_iseq_constant_body) (funcname : String) :
    (mjit_compile_init body funcname).f.filterMap label_pos = [] := by
  rw [mjit_compile_init_f]
  split <;> rfl

/-- No record of the cancel handler is a label line. -/
theorem label_pos_cancel (body : rb_iseq_constant_body) :
    (compile_cancel_handler body).filterMap label_pos = [] := by
  rw [List.filterMap_eq_nil_iff]
  intro l hl
  unfold compile_cancel_handler at hl
  simp only [List.mem_append, List.mem_singleton, mem_for_lines] at hl
  rcases hl with (hl | ⟨i, _, hl⟩) | hl <;> rw [hl] <;> rfl

/-- The label lines of the whole output are those the driver printed. -/
theorem label_pos_output (body : rb_iseq_constant_body) (funcname : String)
    (out : List Fprintf) :
    List.filterMap label_pos ((mjit_compile_init body funcname).f ++ out ++
      compile_cancel_handler body ++ [⟨"\x7d\n", []⟩]) = out.filterMap label_pos := by
  have hc : ([⟨"\x7d\n", []⟩] : List Fprintf).filterMap label_pos = [] := rfl
  simp only [List.filterMap_append, label_pos_init, label_pos_cancel, hc, List.nil_append,
    List.append_nil]

/-- A start event of a run is at an offset inside the stream. -/
theorem Run.start_lt (vm : VMInfo) (body : rb_iseq_constant_body)
    (st st' : compile_state) (out : List Fprintf) (evs : List TraceEvent)
    (hrun : Run vm body st st' out evs) (k : Nat)
    (hk : k ∈ evs.filterMap TraceEvent.start_pos) :
    ∃ insn b succ w, TraceEvent.start k insn b succ ∈ evs ∧
      body.iseq_encoded[k]? = some w ∧ insn = vm.insn_of_word w ∧ k < body.iseq_size := by
  obtain ⟨e, he, hke⟩ := List.mem_filterMap.mp hk
  cases e with
  | finish _ _ _ _ _ _ => cases hke
  | start pos insn b succ =>
    simp only [TraceEvent.start_pos, Option.some.injEq] at hke
    subst hke
    obtain ⟨_, _, _, ⟨w, hw, hi⟩, _⟩ := hrun.started pos insn b succ he
    refine ⟨insn, b, succ, w, he, hw, hi, ?_⟩
    obtain ⟨hlt, _⟩ := List.getElem?_eq_some_iff.mp hw
    exact hlt

/-! ## C1 to C5: failure of the compile, and translation at most once -/

/-- C1: in every call of `mjit_compile` (any stream, any `stack_max`), which always
returns, if the driver translates a `leave` while the simulated `stack_size` is not 1, the
value returned is FALSE; the arm of `leave` itself sets the flag to FALSE when
`stack_size` is not 1 and leaves the status as it was when `stack_size` is 1. -/
theorem leave_stack_size (vm : VMInfo) (body : rb_iseq_constant_body) (funcname : String) :
    (∃ st, mjit_compile vm body funcname = some st ∧
      ∀ pos insn b succ, TraceEvent.start pos insn b succ ∈ st.trace →
        vm.opcode insn = .leave → b.stack_size ≠ 1 → st.status.success = false) ∧
    (∀ rec st1 insn operands pos b next_pos, vm.opcode insn = .leave →
      ∃ r, compile_insn_switch vm rec st1 insn operands pos b next_pos = some r ∧
        r.st.status.compiled_for_pos = st1.status.compiled_for_pos ∧
        (b.stack_size ≠ 1 → r.st.status.success = false) ∧
        (b.stack_size = 1 → r.st.status = st1.status)) := by
  constructor
  · obtain ⟨st, st0, out, h, hrun, _, hst, _⟩ := mjit_compile_total vm body funcname
    refine ⟨st, h, ?_⟩
    intro pos insn b succ hev hop hne
    rw [hst]
    refine hrun.arm_failure vm body _ _ _ _ pos insn b succ hev ?_
    intro r0 h0
    rw [arm_leave vm insn _ pos b r0 hop h0]
    exact decide_eq_false hne
  · intro rec st1 insn operands pos b next_pos hop
    unfold compile_insn_switch
    simp only [hop]
    refine ⟨_, rfl, ?_, ?_, ?_⟩
    · by_cases h1 : b.stack_size = 1 <;> simp [h1, compile_state.emit, compile_state.fail]
    · intro h1
      simp [h1, compile_state.emit, compile_state.fail]
    · intro h1
      simp [h1, compile_state.emit]

theorem leave_stack_size_witness :
    ∃ st, mjit_compile sample_vm ⟨[15, 15, 56], 4096, 2⟩ "f" = some st ∧
      TraceEvent.start 2 56 ⟨2, false⟩ true ∈ st.trace ∧ st.status.success = false := by
  obtain ⟨st, h, h1⟩ := (leave_stack_size sample_vm ⟨[15, 15, 56], 4096, 2⟩ "f").1
  have e : mjit_compile sample_vm ⟨[15, 15, 56], 4096, 2⟩ "f" = some _ := rfl
  rw [e] at h
  cases h
  exact ⟨_, e, by decide, h1 2 56 ⟨2, false⟩ true (by decide) rfl (by decide)⟩

/-- C2: in every call of `mjit_compile`, which always returns, if after the translation
of an instruction (by the outer walk or by a walk started inside a branch) the
`stack_size` of the branch is greater than `stack_max`, the value returned is FALSE. -/
theorem stack_max_exceeded (vm : VMInfo) (body : rb_iseq_constant_body)
    (funcname : String) :
    ∃ st, mjit_compile vm body funcname = some st ∧
      ∀ pos insn b np b' succ, TraceEvent.finish pos insn b np b' succ ∈ st.trace →
        b'.stack_size > body.stack_max → st.status.success = false := by
  obtain ⟨st, st0, out, h, hrun, _, hst, _⟩ := mjit_compile_total vm body funcname
  refine ⟨st, h, ?_⟩
  intro pos insn b np b' succ hev hgt
  rw [hst]
  obtain ⟨_, hf, r0, _, _, _, hs⟩ := hrun.finished pos insn b np b' succ hev
  cases succ with
  | false => exact hf rfl
  | true =>
    have := (hs rfl).2
    omega

theorem stack_max_exceeded_witness :
    ∃ st, mjit_compile sample_vm ⟨[15, 15, 56], 4096, 1⟩ "f" = some st ∧
      TraceEvent.finish 1 15 ⟨1, false⟩ 2 ⟨2, false⟩ false ∈ st.trace ∧
      st.status.success = false := by
  obtain ⟨st, h, h1⟩ := stack_max_exceeded sample_vm ⟨[15, 15, 56], 4096, 1⟩ "f"
  have e : mjit_compile sample_vm ⟨[15, 15, 56], 4096, 1⟩ "f" = some _ := rfl
  rw [e] at h
  cases h
  exact ⟨_, e, by decide,
    h1 1 15 ⟨1, false⟩ 2 ⟨2, false⟩ false (by decide) (by decide)⟩

/-- C3: an opcode with no arm in the `switch` (`getblockparam`, `setblockparam`,
`defineclass`, `once`, or a value that is none of the constants) takes the `default:` arm,
which sets the flag to FALSE and prints nothing; every other arm except that of `leave`
keeps the flag; and in every call of `mjit_compile`, which always returns, if the driver
translates an opcode with no arm, the value returned is FALSE. -/
theorem unsupported_opcode (vm : VMInfo) (body : rb_iseq_constant_body)
    (funcname : String) :
    (∀ rec st insn operands pos b next_pos, no_arm (vm.opcode insn) = true →
      compile_insn_switch vm rec st insn operands pos b next_pos =
        some ⟨next_pos, b, st.fail⟩) ∧
    (∀ insn operands pos b r0, no_arm (vm.opcode insn) = false →
      vm.opcode insn ≠ .leave → arm vm insn operands pos b = some r0 →
      r0.st.status.success = true) ∧
    ∃ st, mjit_compile vm body funcname = some st ∧
      ∀ pos insn b succ, TraceEvent.start pos insn b succ ∈ st.trace →
        no_arm (vm.opcode insn) = true → st.status.success = false := by
  refine ⟨?_, ?_, ?_⟩
  · intro rec st insn operands pos b next_pos hno
    unfold compile_insn_switch
    cases hop : vm.opcode insn <;> simp only [hop, no_arm, Bool.false_eq_true] at hno <;> rfl
  · intro insn operands pos b r0 hno hl h
    exact arm_success vm insn operands pos b r0 _ rfl hno hl h
  · obtain ⟨st, st0, out, h, hrun, _, hst, _⟩ := mjit_compile_total vm body funcname
    refine ⟨st, h, ?_⟩
    intro pos insn b succ hev hno
    rw [hst]
    exact hrun.arm_failure vm body _ _ _ _ pos insn b succ hev
      (fun r0 h0 => arm_no_arm vm insn _ pos b r0 _ rfl hno h0)

theorem unsupported_opcode_witness :
    ∃ st, mjit_compile sample_vm ⟨[15, 90, 56], 4096, 1⟩ "f" = some st ∧
      TraceEvent.start 1 90 ⟨1, false⟩ true ∈ st.trace ∧
      no_arm (sample_vm.opcode 90) = true ∧ st.status.success = false := by
  obtain ⟨st, h, h1⟩ := (unsupported_opcode sample_vm ⟨[15, 90, 56], 4096, 1⟩ "f").2.2
  have e : mjit_compile sample_vm ⟨[15, 90, 56], 4096, 1⟩ "f" = some _ := rfl
  rw [e] at h
  cases h
  exact ⟨_, e, by decide, by decide, h1 1 90 ⟨1, false⟩ true (by decide) (by decide)⟩

/-- C4, counterexample: the stream `putnil; leave; <opcode 90>` holds an opcode with no
arm at offset 2, which the walk from offset 0 never reaches, and `mjit_compile` returns
TRUE on it. -/
theorem opcode_without_arm_unreached :
    ∃ st w, mjit_compile sample_vm ⟨[15, 56, 90], 4096, 1⟩ "f" = some st ∧
      (⟨[15, 56, 90], 4096, 1⟩ : rb_iseq_constant_body).iseq_encoded[2]? = some w ∧
      no_arm (sample_vm.opcode (sample_vm.insn_of_word w)) = true ∧
      st.status.success = true :=
  ⟨_, 90, rfl, rfl, by decide, rfl⟩

/-- C4 (amended): in every call of `mjit_compile`, which always returns, if the stream
holds an opcode with no arm at an offset `k` that the walk reaches (the output has the
line `label_<k>:`, or equally `compiled_for_pos[k]` is set), the value returned is
FALSE. -/
theorem opcode_without_arm_reached (vm : VMInfo) (body : rb_iseq_constant_body)
    (funcname : String) :
    ∃ st, mjit_compile vm body funcname = some st ∧
      ∀ k w, body.iseq_encoded[k]? = some w →
        no_arm (vm.opcode (vm.insn_of_word w)) = true →
        ((∃ l ∈ st.f, label_pos l = some k) ∨
          st.status.compiled_for_pos[k]? = some true) →
        st.status.success = false := by
  obtain ⟨st, st0, out, h, hrun, _, hst, hf⟩ := mjit_compile_total vm body funcname
  refine ⟨st, h, ?_⟩
  intro k w hw hno hreach
  have hk : k ∈ st.trace.filterMap TraceEvent.start_pos := by
    rcases hreach with ⟨l, hl, hlk⟩ | hbit
    · rw [← hrun.labels, ← label_pos_output body funcname out, ← hf]
      exact List.mem_filterMap.mpr ⟨l, hl, hlk⟩
    · rw [hst] at hbit
      rcases (hrun.visited k).mp hbit with h0 | h0
      · rw [mjit_compile_init_status] at h0
        simp only [List.getElem?_replicate] at h0
        split at h0 <;> cases h0
      · exact h0
  obtain ⟨insn, b, succ, w', hev, hw', hi, _⟩ := hrun.start_lt vm body _ _ _ _ k hk
  rw [hw] at hw'
  cases hw'
  rw [hst]
  exact hrun.arm_failure vm body _ _ _ _ k insn b succ hev
    (fun r0 h0 => arm_no_arm vm insn _ k b r0 _ rfl (hi ▸ hno) h0)

theorem opcode_without_arm_reached_witness :
    ∃ st, mjit_compile sample_vm ⟨[15, 90, 56], 4096, 1⟩ "f" = some st ∧
      (⟨"\nlabel_%d: /* %s */\n", [.d 1, .s "opt_call_c_function"]⟩ : Fprintf) ∈ st.f ∧
      st.status.success = false := by
  obtain ⟨st, h, h1⟩ := opcode_without_arm_reached sample_vm ⟨[15, 90, 56], 4096, 1⟩ "f"
  have e : mjit_compile sample_vm ⟨[15, 90, 56], 4096, 1⟩ "f" = some _ := rfl
  rw [e] at h
  cases h
  exact ⟨_, e, by decide, h1 1 90 rfl (by decide)
    (Or.inl ⟨⟨"\nlabel_%d: /* %s */\n", [.d 1, .s "opt_call_c_function"]⟩, by decide,
      rfl⟩)⟩

/-- C5: in every call of `mjit_compile`, which always returns, each offset is translated
at most once: the offsets of the lines `label_<k>:` of the output, in order, are the
offsets of the instructions translated, no offset occurs twice among them (so each line
`label_<k>:` appears at most once), and each is below the size of the stream. -/
theorem label_at_most_once (vm : VMInfo) (body : rb_iseq_constant_body)
    (funcname : String) :
    ∃ st, mjit_compile vm body funcname = some st ∧
      st.f.filterMap label_pos = st.trace.filterMap TraceEvent.start_pos ∧
      (st.f.filterMap label_pos).Nodup ∧
      (∀ k, (st.f.filterMap label_pos).count k ≤ 1) ∧
      (∀ k ∈ st.f.filterMap label_pos, k < body.iseq_size) := by
  obtain ⟨st, st0, out, h, hrun, _, hst, hf⟩ := mjit_compile_total vm body funcname
  have hl : st.f.filterMap label_pos = st.trace.filterMap TraceEvent.start_pos := by
    rw [hf, label_pos_output, hrun.labels]
  refine ⟨st, h, hl, ?_, ?_, ?_⟩
  · rw [hl]; exact hrun.nodup
  · intro k
    rw [hl]
    exact List.nodup_iff_count_le_one.mp hrun.nodup k
  · intro k hk
    rw [hl] at hk
    obtain ⟨_, _, _, _, _, _, _, hlt⟩ := hrun.start_lt vm body _ _ _ _ k hk
    exact hlt

/-! ## C6 and C7: the targets of the gotos, and the stack at a leave -/

set_option maxHeartbeats 4000000 in
/-- An arm that neither redirects the walk nor jumps aside prints no `goto label_<k>;`. -/
theorem arm_no_goto (vm : VMInfo) (insn : Nat) (operands : Nat → VALUE) (pos : Nat)
    (b : compile_branch) (r0 : insn_result) (op : YARVINSN) (hop : vm.opcode insn = op)
    (h : arm vm insn operands pos b = some r0)
    (hr : redirects op = false) (hj : jumps_aside op = false) :
    r0.st.f.all no_goto = true := by
  unfold arm compile_insn_switch at h
  cases op <;> simp only [redirects, Bool.true_eq_false] at hr <;>
    simp only [jumps_aside, Bool.true_eq_false] at hj <;>
    simp only [hop, Option.some.injEq] at h <;> subst h <;>
    first
    | rfl
    | (simp only [compile_state.emit, compile_state.fail, fprint_getlocal, fprint_setlocal,
        fprint_args, fprint_call_method, compile_case_dispatch_each, List.nil_append]
       repeat' (first
         | rfl
         | apply all_append_intro
         | apply all_ite
         | apply all_for_lines
         | apply all_flatten_map
         | intro _
         | (split <;> rfl)))

/-- The `goto label_<k>;` that the arm of `jump`, `branchif`, `branchunless` or
`branchnil` prints names the next offset the arm returns. -/
theorem arm_redirect_goto (vm : VMInfo) (insn : Nat) (operands : Nat → VALUE) (pos : Nat)
    (b : compile_branch) (r0 : insn_result) (op : YARVINSN) (hop : vm.opcode insn = op)
    (h : arm vm insn operands pos b = some r0) (hr : redirects op = true)
    (l : Fprintf) (hl : l ∈ r0.st.f) (k : Nat) (hk : goto_target l = some k) :
    k = r0.next_pos := by
  unfold arm compile_insn_switch at h
  cases op <;> simp only [redirects, Bool.false_eq_true] at hr <;>
    simp only [hop, Option.some.injEq, compile_state.emit, List.nil_append] at h <;>
    subst h <;>
    simp only [List.mem_cons, List.not_mem_nil, or_false] at hl <;>
    first
    | (rcases hl with rfl | rfl <;> simp [goto_target] at hk <;> exact hk.symm)
    | (rcases hl with rfl | rfl | rfl | rfl <;> simp [goto_target] at hk
       exact hk.symm)

/-- No record of the header is a `goto`. -/
theorem goto_target_init (body : rb_iseq_constant_body) (funcname : String) (l : Fprintf)
    (hl : l ∈ (mjit_compile_init body funcname).f) : goto_target l = none := by
  rw [mjit_compile_init_f] at hl
  split at hl <;> simp only [List.mem_append, List.mem_singleton, List.not_mem_nil,
    or_false] at hl
  · rcases hl with hl | hl <;> rw [hl] <;> rfl
  · rw [hl]; rfl

/-- No record of the cancel handler is a `goto`. -/
theorem goto_target_cancel (body : rb_iseq_constant_body) (l : Fprintf)
    (hl : l ∈ compile_cancel_handler body) : goto_target l = none := by
  unfold compile_cancel_handler at hl
  simp only [List.mem_append, List.mem_singleton, mem_for_lines] at hl
  rcases hl with (hl | ⟨i, _, hl⟩) | hl <;> rw [hl] <;> rfl

/-- C6, counterexample: five calls of `mjit_compile` whose output has a
`goto label_<k>;` and no line `label_<k>:`. On `putnil; branchunless -> 4; <opcode 90>;
leave` the compile fails at offset 3, inside the walk of the fall-through arm, after the
`branchunless` has printed `goto label_4;`, and offset 4 is never translated. On
`jump -> 7`, a stream of size 2, the compile returns TRUE and prints `goto label_7;`.
The three others return TRUE with the target inside the stream: the arms of
`getinlinecache` (`getinlinecache -> 4; leave; putnil; leave`), of `opt_case_dispatch`
(`putnil; opt_case_dispatch; putnil; leave; 6: putnil; leave` with one entry of offset 2
in the hash) and of `branchiftype` (`putnil; branchiftype -> 6; putnil; leave; 6: putnil;
leave`) print a `goto` and let the walk go on after the instruction, which ends at a
`leave` before the target. -/
theorem goto_without_label :
    (∃ st, mjit_compile sample_vm ⟨[15, 60, 1, 90, 56], 4096, 1⟩ "f" = some st ∧
      st.status.success = false ∧
      (⟨"    goto label_%d;\n", [.d 4]⟩ : Fprintf) ∈ st.f ∧
      goto_target ⟨"    goto label_%d;\n", [.d 4]⟩ = some 4 ∧
      (st.f.filterMap label_pos).count 4 = 0) ∧
    (∃ st, mjit_compile sample_vm ⟨[58, 5], 4096, 1⟩ "f" = some st ∧
      st.status.success = true ∧
      (⟨"  goto label_%d;\n", [.d 7]⟩ : Fprintf) ∈ st.f ∧
      goto_target ⟨"  goto label_%d;\n", [.d 7]⟩ = some 7 ∧
      (st.f.filterMap label_pos).count 7 = 0) ∧
    (∃ st, mjit_compile sample_vm ⟨[63, 1, 0, 56, 15, 56], 4096, 1⟩ "f" = some st ∧
      st.status.success = true ∧ sample_vm.opcode 63 = .getinlinecache ∧
      (⟨"    goto label_%d;\n", [.d 4]⟩ : Fprintf) ∈ st.f ∧
      4 < (⟨[63, 1, 0, 56, 15, 56], 4096, 1⟩ : rb_iseq_constant_body).iseq_size ∧
      (st.f.filterMap label_pos).count 4 = 0) ∧
    (∃ st, mjit_compile { sample_vm with rb_hash_foreach := fun _ => [(0, 2)] }
        ⟨[15, 66, 0, 0, 15, 56, 15, 56], 4096, 1⟩ "f" = some st ∧
      st.status.success = true ∧ sample_vm.opcode 66 = .opt_case_dispatch ∧
      (⟨"      goto label_%d;\n", [.d 6]⟩ : Fprintf) ∈ st.f ∧
      goto_target ⟨"      goto label_%d;\n", [.d 6]⟩ = some 6 ∧
      6 < (⟨[15, 66, 0, 0, 15, 56, 15, 56], 4096, 1⟩ : rb_iseq_constant_body).iseq_size ∧
      (st.f.filterMap label_pos).count 6 = 0) ∧
    (∃ st, mjit_compile sample_vm ⟨[15, 62, 0, 2, 15, 56, 15, 56], 4096, 1⟩ "f" = some st ∧
      st.status.success = true ∧ sample_vm.opcode 62 = .branchiftype ∧
      (⟨"    goto label_%d;\n", [.d 6]⟩ : Fprintf) ∈ st.f ∧
      6 < (⟨[15, 62, 0, 2, 15, 56, 15, 56], 4096, 1⟩ : rb_iseq_constant_body).iseq_size ∧
      (st.f.filterMap label_pos).count 6 = 0) :=
  ⟨⟨_, rfl, rfl, by decide, rfl, by decide⟩, ⟨_, rfl, rfl, by decide, rfl, by decide⟩,
    ⟨_, rfl, rfl, rfl, by decide, by decide, by decide⟩,
    ⟨_, rfl, rfl, rfl, by decide, rfl, by decide, by decide⟩,
    ⟨_, rfl, rfl, rfl, by decide, by decide, by decide⟩⟩

/-- C6 (amended): in every call of `mjit_compile`, which always returns, the line
`label_<k>:` is in the output exactly once if and only if offset `k` was translated
(marked in `compiled_for_pos`). When the call returns TRUE, every `goto label_<k>;` with
`k` inside the stream that the arm of an instruction other than `branchiftype`,
`getinlinecache` and `opt_case_dispatch` prints (the arms of `jump`, `branchif`,
`branchunless`, `branchnil`) has its line `label_<k>:` in the output exactly once; and
every `goto label_<k>;` of the output with `k` inside the stream, the trailing `goto` of
an instruction included, has its line `label_<k>:` exactly once or is a line printed by
the arm of a `branchiftype`, a `getinlinecache` or an `opt_case_dispatch` that was
translated. -/
theorem goto_has_label (vm : VMInfo) (body : rb_iseq_constant_body) (funcname : String) :
    ∃ st, mjit_compile vm body funcname = some st ∧
      (∀ k : Nat, (st.f.filterMap label_pos).count k = 1 ↔
        st.status.compiled_for_pos[k]? = some true) ∧
      (st.status.success = true →
        (∀ p insn b np b' succ r0, TraceEvent.finish p insn b np b' succ ∈ st.trace →
          arm vm insn (operands_at body p) p b = some r0 →
          jumps_aside (vm.opcode insn) = false →
          ∀ l ∈ r0.st.f, ∀ k, goto_target l = some k → k < body.iseq_size →
            (st.f.filterMap label_pos).count k = 1) ∧
        (∀ l ∈ st.f, ∀ k, goto_target l = some k → k < body.iseq_size →
          (st.f.filterMap label_pos).count k = 1 ∨
          ∃ p insn b np b' succ r0, TraceEvent.finish p insn b np b' succ ∈ st.trace ∧
            jumps_aside (vm.opcode insn) = true ∧
            arm vm insn (operands_at body p) p b = some r0 ∧ l ∈ r0.st.f)) := by
  obtain ⟨st, st0, out, h, hrun, hext, hst, hf⟩ := mjit_compile_total vm body funcname
  have hlab : st.f.filterMap label_pos = st.trace.filterMap TraceEvent.start_pos := by
    rw [hf, label_pos_output, hrun.labels]
  have hvis : ∀ k : Nat, st0.status.compiled_for_pos[k]? = some true ↔
      k ∈ st.trace.filterMap TraceEvent.start_pos := by
    intro k
    rw [hrun.visited k]
    constructor
    · rintro (h0 | h0)
      · rw [mjit_compile_init_status] at h0
        simp only [List.getElem?_replicate] at h0
        split at h0 <;> cases h0
      · exact h0
    · exact Or.inr
  have hcount : ∀ k : Nat, (st.f.filterMap label_pos).count k = 1 ↔
      st.status.compiled_for_pos[k]? = some true := by
    intro k
    rw [hlab, hst, hvis k]
    constructor
    · intro hc
      exact List.count_pos_iff.mp (by omega)
    · exact List.count_eq_one_of_mem hrun.nodup
  refine ⟨st, h, hcount, ?_⟩
  intro hsucc
  -- the walk went on at the next offset of an instruction that redirects
  have hgo : ∀ p insn b np b' succ k, TraceEvent.finish p insn b np b' succ ∈ st.trace →
      redirects (vm.opcode insn) = true → np = k → k < body.iseq_size →
      (st.f.filterMap label_pos).count k = 1 := by
    intro p insn b np b' succ k hev hred hnp hklt
    obtain ⟨hs, hfl, r0, harm, _, hb, _⟩ := hrun.finished p insn b np b' succ hev
    obtain ⟨_, hfin, _⟩ := hrun.started p insn b true hs
    have hsucc' : succ = true := by
      cases succ with
      | true => rfl
      | false => rw [hst, hfl rfl] at hsucc; cases hsucc
    have hfp : b'.finish_p = false := by
      rw [hb, (arm_control vm insn _ p b r0 _ rfl harm).2, hfin]
      cases hop : vm.opcode insn <;> simp only [hop, redirects, Bool.false_eq_true] at hred <;>
        rfl
    rw [hcount k, hst]
    exact hnp ▸ hext.continued p insn b np b' succ hev hsucc' hfp (hnp ▸ hklt)
  have harms : ∀ p insn b np b' succ r0, TraceEvent.finish p insn b np b' succ ∈ st.trace →
      arm vm insn (operands_at body p) p b = some r0 →
      jumps_aside (vm.opcode insn) = false →
      ∀ l ∈ r0.st.f, ∀ k, goto_target l = some k → k < body.iseq_size →
        (st.f.filterMap label_pos).count k = 1 := by
    intro p insn b np b' succ r0 hev harm hja l hl k hk hklt
    obtain ⟨_, _, r1, harm1, hnp, _, _⟩ := hrun.finished p insn b np b' succ hev
    rw [harm] at harm1
    simp only [Option.some.injEq] at harm1
    subst harm1
    by_cases hred : redirects (vm.opcode insn) = true
    · have hkn := arm_redirect_goto vm insn _ p b r0 _ rfl harm hred l hl k hk
      exact hgo p insn b np b' succ k hev hred (by rw [hnp, hkn]) hklt
    · have hng := arm_no_goto vm insn _ p b r0 _ rfl harm
        (by cases hr : redirects (vm.opcode insn) <;> simp_all) hja
      have := List.all_eq_true.mp hng l hl
      simp only [no_goto, hk] at this
      cases this
  refine ⟨harms, ?_⟩
  intro l hl k hk hklt
  rw [hf] at hl
  simp only [List.mem_append, List.mem_singleton] at hl
  rcases hl with ((hl | hl) | hl) | hl
  · rw [goto_target_init body funcname l hl] at hk; cases hk
  · rcases hext.origin l hl with ⟨p, insn, b, succ, _, hl | hl⟩ |
      ⟨p, insn, b, np, b', succ, r0, hev, harm, hl⟩ | ⟨p, insn, b, np, b', succ, hev, hl, hc⟩
    · rw [hl] at hk; cases hk
    · rw [hl] at hk; cases hk
    · cases hja : jumps_aside (vm.opcode insn) with
      | true => exact Or.inr ⟨p, insn, b, np, b', succ, r0, hev, hja, harm, hl⟩
      | false => exact Or.inl (harms p insn b np b' succ r0 hev harm hja l hl k hk hklt)
    · left
      rw [hl] at hk
      simp only [goto_line, goto_target, true_or, if_true, Option.some.injEq] at hk
      rcases hc with ⟨_, hbit⟩ | hj
      · rw [hcount k, hst]
        exact hk ▸ hbit
      · exact hgo p insn b np b' succ k hev (by rw [hj]; rfl) hk hklt
  · rw [goto_target_cancel body l hl] at hk; cases hk
  · rw [hl] at hk; cases hk

theorem goto_has_label_witness :
    ∃ st, mjit_compile sample_vm ⟨[15, 60, 1, 15, 56], 4096, 1⟩ "f" = some st ∧
      st.status.success = true ∧
      TraceEvent.finish 1 60 ⟨1, false⟩ 4 ⟨0, false⟩ true ∈ st.trace ∧
      (⟨"    goto label_%d;\n", [.d 4]⟩ : Fprintf) ∈ st.f ∧
      (⟨"  goto label_%d;\n", [.d 4]⟩ : Fprintf) ∈ st.f ∧
      (st.f.filterMap label_pos).count 4 = 1 := by
  obtain ⟨st, h, _, h1⟩ := goto_has_label sample_vm ⟨[15, 60, 1, 15, 56], 4096, 1⟩ "f"
  have e : mjit_compile sample_vm ⟨[15, 60, 1, 15, 56], 4096, 1⟩ "f" = some _ := rfl
  rw [e] at h
  cases h
  have ea : arm sample_vm 60 (operands_at ⟨[15, 60, 1, 15, 56], 4096, 1⟩ 1) 1 ⟨1, false⟩ =
      some _ := rfl
  exact ⟨_, e, rfl, by decide, by decide, by decide,
    (h1 rfl).1 1 60 ⟨1, false⟩ 4 ⟨0, false⟩ true _ (by decide) ea rfl
      ⟨"    goto label_%d;\n", [.d 4]⟩ (by decide) 4 rfl (by decide)⟩

/-- C7, counterexample: on `putnil; branchunless -> 4; putnil; 4: leave` with
`stack_max = 1`, `mjit_compile` returns TRUE, and the control-flow path that takes the
branch at offset 1 arrives at the `leave` at offset 4 with the counter 0: the `leave`
was translated once, in the walk of the fall-through arm, with the counter 1, and the
taken path joins it without a check. -/
theorem unbalanced_join :
    ∃ st, mjit_compile sample_vm ⟨[15, 60, 1, 15, 56], 4096, 1⟩ "f" = some st ∧
      st.status.success = true ∧
      (⟨[15, 60, 1, 15, 56], 4096, 1⟩ : rb_iseq_constant_body).iseq_encoded[4]? = some 56 ∧
      sample_vm.opcode (sample_vm.insn_of_word 56) = .leave ∧
      Reach sample_vm ⟨[15, 60, 1, 15, 56], 4096, 1⟩ 4 ⟨0, false⟩ ∧
      (⟨0, false⟩ : compile_branch).stack_size ≠ 1 := by
  have h1 : Reach sample_vm ⟨[15, 60, 1, 15, 56], 4096, 1⟩ 1 ⟨1, false⟩ :=
    @Reach.next sample_vm ⟨[15, 60, 1, 15, 56], 4096, 1⟩ 0 15 ⟨0, false⟩ _ Reach.entry
      rfl rfl rfl
  have h4 : Reach sample_vm ⟨[15, 60, 1, 15, 56], 4096, 1⟩ 4 ⟨0, false⟩ :=
    @Reach.next sample_vm ⟨[15, 60, 1, 15, 56], 4096, 1⟩ 1 60 ⟨1, false⟩ _ h1 rfl rfl rfl
  exact ⟨_, rfl, rfl, rfl, rfl, h4, by decide⟩

/-- C7 (amended): in every call of `mjit_compile`, which always returns, every
instruction is translated at an offset and with a counter at which a control-flow path
from offset 0 (counter 0) arrives, the path the driver walked; and when `mjit_compile`
returns TRUE, every `leave` translated is translated with the counter 1. A path that joins
an offset already translated is not walked again, and its counter is not checked. -/
theorem translated_leave_balanced (vm : VMInfo) (body : rb_iseq_constant_body)
    (funcname : String) :
    ∃ st, mjit_compile vm body funcname = some st ∧
      (∀ pos insn b succ, TraceEvent.start pos insn b succ ∈ st.trace →
        Reach vm body pos b ∧ b.finish_p = false) ∧
      (st.status.success = true →
        ∀ pos insn b succ, TraceEvent.start pos insn b succ ∈ st.trace →
          vm.opcode insn = .leave → b.stack_size = 1) := by
  obtain ⟨st, st0, out, h, hrun, hext, hst, _⟩ := mjit_compile_total vm body funcname
  refine ⟨st, h, ?_, ?_⟩
  · intro pos insn b succ hev
    exact ⟨hext.reach Reach.entry pos insn b succ hev, (hrun.started pos insn b succ hev).2.1⟩
  · intro hsucc pos insn b succ hev hop
    by_contra hne
    have hfail := hrun.arm_failure vm body _ _ _ _ pos insn b succ hev (by
      intro r0 h0
      rw [arm_leave vm insn _ pos b r0 hop h0]
      exact decide_eq_false hne)
    rw [hst, hfail] at hsucc
    cases hsucc

theorem translated_leave_balanced_witness :
    ∃ st, mjit_compile sample_vm ⟨[15, 60, 1, 15, 56], 4096, 1⟩ "f" = some st ∧
      st.status.success = true ∧
      TraceEvent.start 4 56 ⟨1, false⟩ true ∈ st.trace ∧
      Reach sample_vm ⟨[15, 60, 1, 15, 56], 4096, 1⟩ 4 ⟨1, false⟩ ∧
      (⟨1, false⟩ : compile_branch).stack_size = 1 := by
  obtain ⟨st, h, h1, h2⟩ :=
    translated_leave_balanced sample_vm ⟨[15, 60, 1, 15, 56], 4096, 1⟩ "f"
  have e : mjit_compile sample_vm ⟨[15, 60, 1, 15, 56], 4096, 1⟩ "f" = some _ := rfl
  rw [e] at h
  cases h
  exact ⟨_, e, rfl, by decide, (h1 4 56 ⟨1, false⟩ true (by decide)).1,
    h2 rfl 4 56 ⟨1, false⟩ true (by decide) rfl⟩

/-! ## C8 to C10: the conditional branches and the short circuit -/

/-- C8, the code at a failing input: on the stream `putnil; branchiftype 0 -> 6; putnil;
leave; 6: putnil; leave` with `stack_max = 1`, `mjit_compile` returns TRUE, prints
`goto label_6;` inside the test of the `branchiftype` and never prints `label_6:`: the
walk goes on at offset 4, the offset after the `branchiftype`, and offsets 6 and 7 are
never translated. The arm of `branchiftype` returns the offset after the instruction as
the next offset and never calls the driver (run with a driver that never returns, it
returns all the same), where the arm of `branchif` at the same place calls it. -/
theorem branchiftype_no_recursion :
    ∃ st r, mjit_compile sample_vm ⟨[15, 62, 0, 2, 15, 56, 15, 56], 4096, 1⟩ "f" = some st ∧
      st.status.success = true ∧
      (⟨"    goto label_%d;\n", [.d 6]⟩ : Fprintf) ∈ st.f ∧
      st.f.filterMap label_pos = [0, 1, 4, 5] ∧
      st.status.compiled_for_pos = [true, true, false, false, true, true, false, false] ∧
      compile_insn sample_vm (fun _ _ _ => none)
        ⟨[], ⟨true, List.replicate 8 false⟩, []⟩ ⟨[15, 62, 0, 2, 15, 56, 15, 56], 4096, 1⟩
        62 (operands_at ⟨[15, 62, 0, 2, 15, 56, 15, 56], 4096, 1⟩ 1) 1 ⟨1, false⟩ = some r ∧
      r.next_pos = 4 ∧ r.b = ⟨0, false⟩ ∧
      compile_insn sample_vm (fun _ _ _ => none)
        ⟨[], ⟨true, List.replicate 8 false⟩, []⟩ ⟨[15, 59, 3, 2, 15, 56, 15, 56], 4096, 1⟩
        59 (operands_at ⟨[15, 59, 3, 2, 15, 56, 15, 56], 4096, 1⟩ 1) 1 ⟨1, false⟩ = none :=
  ⟨_, _, rfl, rfl, by decide, by decide, by decide, rfl, rfl, rfl, rfl⟩

/-- C9: for `branchif`, `branchunless` and `branchnil`, whatever the driver called on
the fall-through offset does (any function `rec` of the `stack_size` passed by value, the
offset and the shared state): it is called with `stack_size - 1` (as `unsigned int`) on
the offset after the instruction, and when it returns the state `st1`, `compile_insn`
returns the caller's branch with `stack_size - 1` and `finish_p` as it was, and leaves
the status and the trace as `rec` left them, adding only records to the sink. In every
call of `mjit_compile` the branch after such an instruction has the `stack_size` before
it minus 1 and `finish_p` FALSE. -/
theorem branch_isolation (vm : VMInfo) (body : rb_iseq_constant_body) (funcname : String) :
    (∀ rec st insn operands pos b, is_fork (vm.opcode insn) = true →
      ∃ lines, ∀ st1,
        rec (usub b.stack_size 1) (uadd pos (vm.insn_len insn))
          (st.emit (pc_line body pos :: lines)) = some st1 →
        st1.status.compiled_for_pos.length = body.iseq_size →
        ∃ r, compile_insn vm rec st body insn operands pos b = some r ∧
          r.b = ⟨usub b.stack_size 1, b.finish_p⟩ ∧
          r.st.status = st1.status ∧ r.st.trace = st1.trace ∧
          ∃ tail, r.st.f = st1.f ++ tail) ∧
    ∃ st, mjit_compile vm body funcname = some st ∧
      ∀ pos insn b np b' succ, TraceEvent.finish pos insn b np b' succ ∈ st.trace →
        is_fork (vm.opcode insn) = true → b' = ⟨usub b.stack_size 1, false⟩ := by
  constructor
  · intro rec st insn operands pos b hf
    obtain ⟨r0, harm, heq⟩ := compile_insn_eq vm rec st body insn operands pos b
    obtain ⟨_, hb, _⟩ := arm_fork vm insn operands pos b r0 harm hf
    refine ⟨r0.st.f, ?_⟩
    intro st1 hrec hlen
    rw [heq]
    simp only [hf, if_true, hb]
    have hst : (⟨st.f ++ pc_line body pos :: r0.st.f, st.status, st.trace⟩ : compile_state) =
        st.emit (pc_line body pos :: r0.st.f) := rfl
    rw [hst, hrec]
    simp only []
    rw [compile_insn_goto_eq vm body insn _ hlen]
    exact ⟨_, rfl, rfl, rfl, rfl, _, rfl⟩
  · obtain ⟨st, st0, out, h, hrun, _, hst, _⟩ := mjit_compile_total vm body funcname
    refine ⟨st, h, ?_⟩
    intro pos insn b np b' succ hev hf
    obtain ⟨hs, _, r0, harm, _, hb, _⟩ := hrun.finished pos insn b np b' succ hev
    obtain ⟨_, hfin, _⟩ := hrun.started pos insn b true hs
    obtain ⟨_, hb0, _⟩ := arm_fork vm insn _ pos b r0 harm hf
    rw [hb, hb0, hfin]

theorem branch_isolation_witness :
    ∃ st, mjit_compile sample_vm ⟨[15, 60, 1, 15, 56], 4096, 1⟩ "f" = some st ∧
      TraceEvent.finish 4 56 ⟨1, false⟩ 5 ⟨1, true⟩ true ∈ st.trace ∧
      TraceEvent.finish 1 60 ⟨1, false⟩ 4 ⟨0, false⟩ true ∈ st.trace ∧
      (⟨0, false⟩ : compile_branch) = ⟨usub 1 1, false⟩ := by
  obtain ⟨st, h, h1⟩ := (branch_isolation sample_vm ⟨[15, 60, 1, 15, 56], 4096, 1⟩ "f").2
  have e : mjit_compile sample_vm ⟨[15, 60, 1, 15, 56], 4096, 1⟩ "f" = some _ := rfl
  rw [e] at h
  cases h
  exact ⟨_, e, by decide, by decide,
    h1 1 60 ⟨1, false⟩ 4 ⟨0, false⟩ true (by decide) (by decide)⟩

/-- C10: in every call of `mjit_compile`, which always returns, the events of the trace
are in the order they happened: once an instruction has finished with the flag FALSE,
every later event is the finish of an instruction with the flag FALSE (the flag never
becomes TRUE again and the value returned is FALSE), and no later event is the start of
an instruction: every instruction is started with the flag TRUE. The lines `label_<k>:`
of the output, in order, and the offsets marked in `compiled_for_pos` are exactly those
of the start events, so after the failure no label is printed and no offset is marked, in
the driver invocation that failed or in an enclosing one. -/
theorem short_circuit (vm : VMInfo) (body : rb_iseq_constant_body) (funcname : String) :
    ∃ st, mjit_compile vm body funcname = some st ∧
      (∀ pos insn b succ, TraceEvent.start pos insn b succ ∈ st.trace → succ = true) ∧
      (∀ e ∈ st.trace, e.is_failure = true → st.status.success = false) ∧
      (∀ pre e post, st.trace = pre ++ e :: post → e.is_failure = true →
        ∀ e2 ∈ post, e2.is_failure = true ∧ e2.start_pos = none) ∧
      st.f.filterMap label_pos = st.trace.filterMap TraceEvent.start_pos ∧
      (∀ k : Nat, st.status.compiled_for_pos[k]? = some true ↔
        k ∈ st.trace.filterMap TraceEvent.start_pos) := by
  obtain ⟨st, st0, out, h, hrun, _, hst, hf⟩ := mjit_compile_total vm body funcname
  refine ⟨st, h, ?_, ?_, ?_, ?_, ?_⟩
  · intro pos insn b succ hev
    exact (hrun.started pos insn b succ hev).1
  · intro e he hfail
    cases e with
    | start _ _ _ _ => cases hfail
    | finish pos insn b np b' succ =>
      rw [hst]
      refine (hrun.finished pos insn b np b' succ he).2.1 ?_
      simpa [TraceEvent.is_failure] using hfail
  · intro pre e post htr hfail e2 he2
    have hp := hrun.stops
    rw [htr, List.pairwise_append] at hp
    have h2 : e2.is_failure = true := (List.pairwise_cons.mp hp.2.1).1 e2 he2 hfail
    refine ⟨h2, ?_⟩
    cases e2 with
    | start _ _ _ _ => cases h2
    | finish _ _ _ _ _ _ => rfl
  · rw [hf, label_pos_output, hrun.labels]
  · intro k
    rw [hst, hrun.visited k]
    constructor
    · rintro (h0 | h0)
      · rw [mjit_compile_init_status] at h0
        simp only [List.getElem?_replicate] at h0
        split at h0 <;> cases h0
      · exact h0
    · exact Or.inr

theorem short_circuit_witness :
    ∃ st, mjit_compile sample_vm ⟨[15, 60, 1, 90, 56], 4096, 1⟩ "f" = some st ∧
      st.trace =
        [.start 0 15 ⟨0, false⟩ true, .finish 0 15 ⟨0, false⟩ 1 ⟨1, false⟩ true,
         .start 1 60 ⟨1, false⟩ true, .start 3 90 ⟨0, false⟩ true] ++
        .finish 3 90 ⟨0, false⟩ 5 ⟨0, false⟩ false ::
          [.finish 1 60 ⟨1, false⟩ 4 ⟨0, false⟩ false] ∧
      st.status.success = false ∧
      (TraceEvent.finish 1 60 ⟨1, false⟩ 4 ⟨0, false⟩ false).start_pos = none := by
  obtain ⟨st, h, _, h2, h3, _⟩ := short_circuit sample_vm ⟨[15, 60, 1, 90, 56], 4096, 1⟩ "f"
  have e : mjit_compile sample_vm ⟨[15, 60, 1, 90, 56], 4096, 1⟩ "f" = some _ := rfl
  rw [e] at h
  cases h
  exact ⟨_, e, rfl, h2 (.finish 3 90 ⟨0, false⟩ 5 ⟨0, false⟩ false) (by decide) rfl,
    (h3 [.start 0 15 ⟨0, false⟩ true, .finish 0 15 ⟨0, false⟩ 1 ⟨1, false⟩ true,
        .start 1 60 ⟨1, false⟩ true, .start 3 90 ⟨0, false⟩ true]
      (.finish 3 90 ⟨0, false⟩ 5 ⟨0, false⟩ false)
      [.finish 1 60 ⟨1, false⟩ 4 ⟨0, false⟩ false] rfl rfl _
      (List.mem_singleton.mpr rfl)).2⟩

/-! ## C21 and C22: the stack effect of setconstant and the slot read by topn -/

/-- C21, the code at a failing input: on the stream `putobject 1; dup;
putspecialobject 3; setconstant 7; leave` with `stack_max = 3`, the arm of `setconstant`
hands the slots 1 and 2 to `rb_const_set`, prints no assignment to a slot, and leaves
`stack_size` at 3; the `leave` is then translated with `stack_size` 3 and `mjit_compile`
returns FALSE. The arm of `setclassvariable`, which hands one slot to `rb_cvar_set`,
lowers `stack_size` from 3 to 2. -/
theorem setconstant_keeps_stack_size :
    ∃ st r0 r1, mjit_compile sample_vm ⟨[17, 1, 34, 18, 3, 12, 7, 56], 4096, 3⟩ "f" = some st ∧
      st.status.success = false ∧
      TraceEvent.finish 5 12 ⟨3, false⟩ 7 ⟨3, false⟩ true ∈ st.trace ∧
      TraceEvent.finish 7 56 ⟨3, false⟩ 8 ⟨3, true⟩ false ∈ st.trace ∧
      sample_vm.opcode 12 = .setconstant ∧
      arm sample_vm 12 (operands_at ⟨[17, 1, 34, 18, 3, 12, 7, 56], 4096, 3⟩ 5) 5 ⟨3, false⟩ =
        some r0 ∧
      r0.b.stack_size = 3 ∧
      r0.st.f =
        [⟨"  vm_check_if_namespace(stack[%d]);\n", [.d 1]⟩,
         ⟨"  vm_ensure_not_refinement_module(cfp->self);\n", []⟩,
         ⟨"  rb_const_set(stack[%d], 0x%lx, stack[%d]);\n", [.d 1, .x 7, .d 2]⟩] ∧
      sample_vm.opcode 10 = .setclassvariable ∧
      arm sample_vm 10 (fun _ => 7) 5 ⟨3, false⟩ = some r1 ∧
      r1.b.stack_size = 2 :=
  ⟨_, _, _, rfl, rfl, by decide, by decide, rfl, rfl, rfl, rfl, rfl, rfl, rfl⟩

/-- C22, the code at a failing input: on the stream `putnil; topn 0; pop; leave` with
`stack_max = 2`, `mjit_compile` returns TRUE and the arm of `topn`, translated at
`stack_size` 1, prints `stack[1] = stack[1];`: it reads the slot `stack_size - n`, one
above the slot `stack_size - 1 - n` that `setn n` writes. The same stream with `dup` in
place of `topn 0` prints `stack[1] = stack[0];`. At `stack_size` 3, `topn 1` reads slot 2
(the top) and `setn 1` writes slot 1. -/
theorem topn_reads_one_above :
    ∃ st st2 r0 r1, mjit_compile sample_vm ⟨[15, 39, 0, 33, 56], 4096, 2⟩ "f" = some st ∧
      st.status.success = true ∧
      sample_vm.opcode 39 = .topn ∧
      TraceEvent.finish 1 39 ⟨1, false⟩ 3 ⟨2, false⟩ true ∈ st.trace ∧
      (⟨"  stack[%d] = stack[%d];\n", [.d 1, .d 1]⟩ : Fprintf) ∈ st.f ∧
      (⟨"  stack[%d] = stack[%d];\n", [.d 1, .d 0]⟩ : Fprintf) ∉ st.f ∧
      mjit_compile sample_vm ⟨[15, 34, 33, 56], 4096, 2⟩ "f" = some st2 ∧
      sample_vm.opcode 34 = .dup ∧
      (⟨"  stack[%d] = stack[%d];\n", [.d 1, .d 0]⟩ : Fprintf) ∈ st2.f ∧
      arm sample_vm 39 (fun _ => 1) 1 ⟨3, false⟩ = some r0 ∧
      r0.st.f = [⟨"  stack[%d] = stack[%d];\n", [.d 3, .d 2]⟩] ∧
      r0.b.stack_size = 4 ∧
      sample_vm.opcode 40 = .setn ∧
      arm sample_vm 40 (fun _ => 1) 1 ⟨3, false⟩ = some r1 ∧
      r1.st.f = [⟨"  stack[%d] = stack[%d];\n", [.d 1, .d 2]⟩] :=
  ⟨_, _, _, _, rfl, rfl, rfl, by decide, by decide, by decide, rfl, rfl, by decide, rfl, rfl,
    rfl, rfl, rfl, rfl⟩

/-! ## C23: the lines of reverse -/

/-- Running one swap exchanges the two slots and leaves the others. -/
theorem run_reverse_swap {α : Type} (m : reverse_vars α) (lo hi : Nat) :
    (run_lines m (reverse_swap lo hi)).stack =
      fun j => if j = hi then m.stack lo
        else if j = lo then m.stack hi else m.stack j := by
  funext j
  simp only [run_lines, reverse_swap, List.foldl_cons, List.foldl_nil, run_line]
  simp only [String.reduceEq, if_true, if_false]

theorem run_lines_append {α : Type} (m : reverse_vars α) (a b : List Fprintf) :
    run_lines m (a ++ b) = run_lines (run_lines m a) b := by
  simp only [run_lines, List.foldl_append]

/-- After the first `k` swaps of the `n` slots from `base` on, the `k` lowest and the `k`
highest of them are mirrored and the others are as they were. -/
theorem run_reverse_swaps {α : Type} (m : reverse_vars α) (base n : Nat) :
    ∀ k, k ≤ n / 2 → ∀ j,
      (run_lines m (for_lines k fun i => reverse_swap (base + i) (base + n - 1 - i))).stack j =
        if (base ≤ j ∧ j < base + k) ∨ (base + n - k ≤ j ∧ j < base + n) then
          m.stack (base + (base + n - 1 - j))
        else m.stack j := by
  intro k
  induction k with
  | zero =>
    intro _ j
    have hc : ¬ ((base ≤ j ∧ j < base + 0) ∨ (base + n - 0 ≤ j ∧ j < base + n)) := by omega
    rw [if_neg hc]
    rfl
  | succ k ih =>
    intro hk j
    have ih' := ih (by omega)
    simp only [for_lines]
    rw [run_lines_append, run_reverse_swap]
    simp only []
    rw [ih' (base + k), ih' (base + n - 1 - k)]
    have hlo : ¬ ((base ≤ base + k ∧ base + k < base + k) ∨
        (base + n - k ≤ base + k ∧ base + k < base + n)) := by omega
    have hhi : ¬ ((base ≤ base + n - 1 - k ∧ base + n - 1 - k < base + k) ∨
        (base + n - k ≤ base + n - 1 - k ∧ base + n - 1 - k < base + n)) := by omega
    rw [if_neg hlo, if_neg hhi]
    by_cases h1 : j = base + n - 1 - k
    · rw [if_pos h1, if_pos (by omega)]
      congr 1
      omega
    · rw [if_neg h1]
      by_cases h2 : j = base + k
      · rw [if_pos h2, if_pos (by omega)]
        congr 1
        omega
      · rw [if_neg h2, ih' j]
        by_cases h3 : (base ≤ j ∧ j < base + k) ∨ (base + n - k ≤ j ∧ j < base + n)
        · rw [if_pos h3, if_pos (by omega)]
        · rw [if_neg h3, if_neg (by omega)]

/-- C23: for `reverse` with operand `n` (as `unsigned int`) translated at a `stack_size`
`s >= n` (`s < 2^32`), the arm prints an opening brace, the declarations of `v0` and
`v1`, `floor(n/2)` swaps, the `i`-th of the slots `s - n + i` and `s - 1 - i`, and a
closing brace, and leaves the branch (and so `stack_size`) unchanged; running the lines
in order on any array reverses the top `n` slots, the old value of slot `s - n + i`
ending in slot `s - 1 - i` for every `i < n`, and leaves every slot below `s - n` or
from `s` on unchanged. -/
theorem reverse_arm (vm : VMInfo)
    (rec : Nat → Nat → compile_state → Option compile_state) (st : compile_state)
    (insn : Nat) (operands : Nat → VALUE) (pos : Nat) (b : compile_branch) (next_pos : Nat)
    (hop : vm.opcode insn = .reverse)
    (hn : u32 (operands 0) ≤ b.stack_size) (hs : b.stack_size < 4294967296) :
    ∃ lines,
      compile_insn_switch vm rec st insn operands pos b next_pos =
        some ⟨next_pos, b, st.emit lines⟩ ∧
      lines =
        [⟨"  \x7b\n", []⟩, ⟨"    VALUE v0;\n", []⟩, ⟨"    VALUE v1;\n", []⟩] ++
        ((List.range (u32 (operands 0) / 2)).map fun i =>
          reverse_swap (b.stack_size - u32 (operands 0) + i) (b.stack_size - 1 - i)).flatten ++
        [⟨"  \x7d\n", []⟩] ∧
      lines.length = 4 * (u32 (operands 0) / 2) + 4 ∧
      ∀ (α : Type) (m : reverse_vars α),
        (∀ i, i < u32 (operands 0) →
          (run_lines m lines).stack (b.stack_size - 1 - i) =
            m.stack (b.stack_size - u32 (operands 0) + i)) ∧
        (∀ k, k < b.stack_size - u32 (operands 0) ∨ b.stack_size ≤ k →
          (run_lines m lines).stack k = m.stack k) := by
  have hn32 : u32 (operands 0) < 4294967296 := Nat.mod_lt _ (by decide)
  generalize hnd : u32 (operands 0) = n at hn hn32 ⊢
  generalize hsd : b.stack_size = s at hn hs ⊢
  have hbase : usub s n = s - n := by unfold usub; omega
  have hstep : ∀ i, i < n / 2 →
      ([⟨"    v0 = stack[%d];\n", [.d (uadd (usub s n) i)]⟩,
        ⟨"    v1 = stack[%d];\n", [.d (usub (usub (uadd (usub s n) n) i) 1)]⟩,
        ⟨"    stack[%d] = v1;\n", [.d (uadd (usub s n) i)]⟩,
        ⟨"    stack[%d] = v0;\n", [.d (usub (usub (uadd (usub s n) n) i) 1)]⟩] :
          List Fprintf) = reverse_swap (s - n + i) (s - n + n - 1 - i) := by
    intro i hi
    have h1 : uadd (usub s n) i = s - n + i := by rw [hbase]; unfold uadd; omega
    have h2 : usub (usub (uadd (usub s n) n) i) 1 = s - n + n - 1 - i := by
      rw [hbase]; unfold usub uadd; omega
    rw [h1, h2]
    rfl
  have hfor := for_lines_congr (n / 2) _ _ hstep
  refine ⟨[⟨"  \x7b\n", []⟩, ⟨"    VALUE v0;\n", []⟩, ⟨"    VALUE v1;\n", []⟩] ++
      (for_lines (n / 2) fun i => reverse_swap (s - n + i) (s - n + n - 1 - i)) ++
      [⟨"  \x7d\n", []⟩], ?_, ?_, ?_, ?_⟩
  · unfold compile_insn_switch
    simp only [hop, hnd, hsd]
    rw [hfor]
  · rw [for_lines_eq]
    have : ∀ i, i < n / 2 → reverse_swap (s - n + i) (s - n + n - 1 - i) =
        reverse_swap (s - n + i) (s - 1 - i) := by
      intro i hi
      have : s - n + n - 1 - i = s - 1 - i := by omega
      rw [this]
    congr 3
    apply List.map_congr_left
    intro i hi
    exact this i (List.mem_range.mp hi)
  · rw [for_lines_eq]
    simp [reverse_swap, List.length_flatten, List.map_map, Function.comp_def]
    omega
  · intro α m
    have hrun : ∀ j, (run_lines m
        ([⟨"  \x7b\n", []⟩, ⟨"    VALUE v0;\n", []⟩, ⟨"    VALUE v1;\n", []⟩] ++
          (for_lines (n / 2) fun i => reverse_swap (s - n + i) (s - n + n - 1 - i)) ++
          [⟨"  \x7d\n", []⟩])).stack j =
        if (s - n ≤ j ∧ j < s - n + n / 2) ∨ (s - n + n - n / 2 ≤ j ∧ j < s - n + n) then
          m.stack (s - n + (s - n + n - 1 - j))
        else m.stack j := by
      intro j
      rw [run_lines_append, run_lines_append]
      exact run_reverse_swaps m (s - n) n (n / 2) (Nat.le_refl _) j
    constructor
    · intro i hi
      rw [hrun]
      by_cases hc : (s - n ≤ s - 1 - i ∧ s - 1 - i < s - n + n / 2) ∨
          (s - n + n - n / 2 ≤ s - 1 - i ∧ s - 1 - i < s - n + n)
      · rw [if_pos hc]
        congr 1
        omega
      · rw [if_neg hc]
        congr 1
        omega
    · intro k hk
      rw [hrun, if_neg (by omega)]

theorem reverse_arm_witness :
    ∃ lines,
      compile_insn_switch sample_vm (fun _ _ s => some s) ⟨[], ⟨true, []⟩, []⟩ 37
          (fun _ => 3) 0 ⟨3, false⟩ 2 =
        some ⟨2, ⟨3, false⟩, (⟨[], ⟨true, []⟩, []⟩ : compile_state).emit lines⟩ ∧
      lines.length = 8 ∧
      (run_lines (⟨fun j => 10 + j, 0, 0⟩ : reverse_vars Nat) lines).stack 2 = 10 ∧
      (run_lines (⟨fun j => 10 + j, 0, 0⟩ : reverse_vars Nat) lines).stack 1 = 11 ∧
      (run_lines (⟨fun j => 10 + j, 0, 0⟩ : reverse_vars Nat) lines).stack 0 = 12 ∧
      (run_lines (⟨fun j => 10 + j, 0, 0⟩ : reverse_vars Nat) lines).stack 3 = 13 := by
  obtain ⟨lines, h1, _, h3, h4⟩ := reverse_arm sample_vm (fun _ _ s => some s)
    ⟨[], ⟨true, []⟩, []⟩ 37 (fun _ => 3) 0 ⟨3, false⟩ 2 rfl (by decide) (by decide)
  have h5 := h4 Nat ⟨fun j => 10 + j, 0, 0⟩
  exact ⟨lines, h1, h3, h5.1 0 (by decide), h5.1 1 (by decide), h5.1 2 (by decide),
    h5.2 3 (Or.inr (Nat.le_refl 3))⟩

/-! ## C24: termination -/

/-- `compile_insn` with a driver that returns more often returns the same result. -/
theorem compile_insn_mono (vm : VMInfo)
    (rec rec2 : Nat → Nat → compile_state → Option compile_state)
    (hrec : ∀ s p st st2, rec s p st = some st2 → rec2 s p st = some st2)
    (st : compile_state) (body : rb_iseq_constant_body) (insn : Nat)
    (operands : Nat → VALUE) (pos : Nat) (b : compile_branch) (r : insn_result)
    (h : compile_insn vm rec st body insn operands pos b = some r) :
    compile_insn vm rec2 st body insn operands pos b = some r := by
  obtain ⟨r0, harm, heq⟩ := compile_insn_eq vm rec st body insn operands pos b
  obtain ⟨r1, harm1, heq1⟩ := compile_insn_eq vm rec2 st body insn operands pos b
  rw [harm] at harm1
  cases harm1
  rw [heq] at h
  rw [heq1]
  by_cases hf : is_fork (vm.opcode insn) = true
  · simp only [hf, if_true] at h ⊢
    cases hc : rec r0.b.stack_size (uadd pos (vm.insn_len insn))
        ⟨st.f ++ pc_line body pos :: r0.st.f, st.status, st.trace⟩ with
    | none => rw [hc] at h; cases h
    | some st3 =>
      rw [hc] at h
      rw [hrec _ _ _ _ hc]
      exact h
  · simp only [hf, if_false] at h ⊢
    exact h

/-- More fuel does not change what the loop of `compile_insns` returns. -/
theorem loop_fuel_succ (vm : VMInfo) (body : rb_iseq_constant_body) :
    ∀ (fuel : Nat) (branch : compile_branch) (pos : Nat) (st st2 : compile_state),
      compile_insns_loop vm body fuel branch pos st = some st2 →
      compile_insns_loop vm body (fuel + 1) branch pos st = some st2 := by
  intro fuel
  induction fuel with
  | zero =>
    intro branch pos st st2 h
    rw [compile_insns_loop] at h
    cases h
  | succ n ih =>
    intro branch pos st st2 h
    rw [compile_insns_loop] at h ⊢
    by_cases hlt : pos < body.iseq_size
    · simp only [hlt, if_true] at h ⊢
      cases hv : st.status.compiled_for_pos[pos]? with
      | none => rw [hv] at h; cases h
      | some v =>
        cases hw : body.iseq_encoded[pos]? with
        | none => rw [hv, hw] at h; cases h
        | some w =>
          rw [hv, hw] at h
          simp only [] at h ⊢
          by_cases hstop : v = true ∨ branch.finish_p = true
          · simp only [hstop, if_true] at h ⊢
            exact h
          · simp only [hstop, if_false] at h ⊢
            revert h
            generalize hst1 : (compile_state.emit _ _) = st1
            intro h
            cases hc : compile_insn vm
                (fun stack_size pos st => compile_insns_loop vm body n ⟨stack_size, false⟩ pos st)
                st1 body (vm.insn_of_word w) (operands_at body pos) pos branch with
            | none => rw [hc] at h; cases h
            | some r =>
              rw [hc] at h
              rw [compile_insn_mono vm _
                (fun stack_size pos st =>
                  compile_insns_loop vm body (n + 1) ⟨stack_size, false⟩ pos st)
                (fun s p st st2 hh => ih ⟨s, false⟩ p st st2 hh) _ _ _ _ _ _ _ hc]
              simp only [] at h ⊢
              generalize (if r.st.status.success = true ∧ r.b.stack_size > body.stack_max
                then r.st.fail else r.st) = st4 at h ⊢
              split at h
              · rename_i hfl
                rw [if_pos hfl]
                exact h
              · rename_i hfl
                rw [if_neg hfl]
                exact ih _ _ _ _ h
    · simp only [hlt, if_false] at h ⊢
      exact h

/-- Any fuel above `iseq_size` gives the result of the fuel `iseq_size + 1`. -/
theorem loop_fuel_ge (vm : VMInfo) (body : rb_iseq_constant_body) (fuel k : Nat)
    (branch : compile_branch) (pos : Nat) (st st2 : compile_state)
    (h : compile_insns_loop vm body fuel branch pos st = some st2) :
    compile_insns_loop vm body (fuel + k) branch pos st = some st2 := by
  induction k with
  | zero => exact h
  | succ j ih => exact loop_fuel_succ vm body (fuel + j) branch pos st st2 ih

/-- A list of distinct numbers below `n` has at most `n` entries. -/
theorem nodup_length_le (l : List Nat) (n : Nat) (hd : l.Nodup) (hlt : ∀ k ∈ l, k < n) :
    l.length ≤ n := by
  have hsub : l ⊆ List.range n := fun k hk => List.mem_range.mpr (hlt k hk)
  have := (List.subperm_of_subset hd hsub).length_le
  simpa using this

/-- C24: for every instruction stream, `mjit_compile` returns: the driver, run with the
fuel `iseq_size + 1`, returns a state, and with any larger fuel it returns the same
state, so the result does not depend on the fuel. Every instruction translated (in the
outer walk or in a walk started inside a branch arm) is at an offset below `iseq_size`
that no earlier instruction was translated at, and is the one that marks this offset in
`compiled_for_pos`; so at most `iseq_size` instructions are translated. -/
theorem mjit_compile_terminates (vm : VMInfo) (body : rb_iseq_constant_body)
    (funcname : String) :
    ∃ st st0, mjit_compile vm body funcname = some st ∧
      (∀ k, compile_insns vm body (body.iseq_size + 1 + k)
        (mjit_compile_init body funcname) 0 0 = some st0) ∧
      st.status = st0.status ∧ st.trace = st0.trace ∧
      (st.trace.filterMap TraceEvent.start_pos).Nodup ∧
      (∀ k ∈ st.trace.filterMap TraceEvent.start_pos, k < body.iseq_size) ∧
      (∀ k : Nat, st.status.compiled_for_pos[k]? = some true ↔
        k ∈ st.trace.filterMap TraceEvent.start_pos) ∧
      (st.trace.filterMap TraceEvent.start_pos).length ≤ body.iseq_size := by
  obtain ⟨st0, out, evs, h0, hrun, _, hm⟩ := mjit_compile_run vm body funcname
  have htr : st0.trace = evs := by
    rw [hrun.trace_eq, mjit_compile_init_trace, List.nil_append]
  have hlt : ∀ k ∈ evs.filterMap TraceEvent.start_pos, k < body.iseq_size := by
    intro k hk
    obtain ⟨_, _, _, _, _, _, _, h⟩ := hrun.start_lt vm body _ _ _ _ k hk
    exact h
  refine ⟨_, st0, hm, ?_, rfl, rfl, ?_, ?_, ?_, ?_⟩
  · intro k
    unfold compile_insns at h0 ⊢
    exact loop_fuel_ge vm body _ k _ _ _ _ h0
  · simp only [htr]; exact hrun.nodup
  · simp only [htr]; exact hlt
  · intro k
    simp only [htr]
    rw [hrun.visited k]
    constructor
    · rintro (h1 | h1)
      · rw [mjit_compile_init_status] at h1
        simp only [List.getElem?_replicate] at h1
        split at h1 <;> cases h1
      · exact h1
    · exact Or.inr
  · simp only [htr]
    exact nodup_length_le _ _ hrun.nodup hlt

theorem mjit_compile_terminates_witness :
    ∃ st, mjit_compile sample_vm ⟨[15, 33, 58, 4294967292], 4096, 1⟩ "f" = some st ∧
      TraceEvent.finish 2 58 ⟨0, false⟩ 0 ⟨0, false⟩ true ∈ st.trace ∧
      st.trace.filterMap TraceEvent.start_pos = [0, 1, 2] ∧
      (st.trace.filterMap TraceEvent.start_pos).length ≤ 4 := by
  obtain ⟨st, _, h, _, _, _, _, _, _, hle⟩ :=
    mjit_compile_terminates sample_vm ⟨[15, 33, 58, 4294967292], 4096, 1⟩ "f"
  have e : mjit_compile sample_vm ⟨[15, 33, 58, 4294967292], 4096, 1⟩ "f" = some _ := rfl
  rw [e] at h
  cases h
  exact ⟨_, e, by decide, by decide, hle⟩

/-! ## C25 and C26: a pop on the empty stack, and the bounds of compiled_for_pos -/

/-- The arm of a one-slot-popping opcode lowers `stack_size` by one, as `unsigned int`,
and keeps the flag. -/
theorem arm_pops_one (vm : VMInfo) (insn : Nat) (operands : Nat → VALUE) (pos : Nat)
    (b : compile_branch) (r0 : insn_result) (op : YARVINSN) (hop : vm.opcode insn = op)
    (hp : pops_one op = true) (h : arm vm insn operands pos b = some r0) :
    r0.b.stack_size = usub b.stack_size 1 ∧ r0.st.status.success = true := by
  unfold arm compile_insn_switch at h
  cases op <;> simp only [pops_one, Bool.false_eq_true] at hp <;>
    simp only [hop, Option.some.injEq] at h <;> subst h <;> exact ⟨rfl, rfl⟩

/-- C25: for every `stack_max < 2^32 - 1`, in every call of `mjit_compile`, which always
returns, if the driver translates `pop`, `setlocal`, `setglobal`, `setinstancevariable`,
`branchif`, `branchunless`, `branchnil` or `throw` with `stack_size` 0, the arm keeps the
flag and leaves the branch with `stack_size` `2^32 - 1`, the instruction finishes with
the flag FALSE (the check against `stack_max` after it, or a failure of the walk of the
fall-through arm before it), and the value returned is FALSE. -/
theorem pop_on_empty_stack (vm : VMInfo) (body : rb_iseq_constant_body)
    (funcname : String) (hmax : body.stack_max < 4294967295) :
    ∃ st, mjit_compile vm body funcname = some st ∧
      ∀ pos insn b succ, TraceEvent.start pos insn b succ ∈ st.trace →
        pops_one (vm.opcode insn) = true → b.stack_size = 0 →
        (∃ r0, arm vm insn (operands_at body pos) pos b = some r0 ∧
          r0.st.status.success = true ∧ r0.b.stack_size = 4294967295 ∧
          TraceEvent.finish pos insn b r0.next_pos r0.b false ∈ st.trace) ∧
        st.status.success = false := by
  obtain ⟨st, st0, out, h, hrun, _, hst, _⟩ := mjit_compile_total vm body funcname
  refine ⟨st, h, ?_⟩
  intro pos insn b succ hev hp hz
  obtain ⟨_, _, _, _, np, b', succ', hfin⟩ := hrun.started pos insn b succ hev
  obtain ⟨_, hf, r0, harm, hnp, hb, hs⟩ := hrun.finished pos insn b np b' succ' hfin
  obtain ⟨hsz, hok⟩ := arm_pops_one vm insn _ pos b r0 _ rfl hp harm
  have hwrap : r0.b.stack_size = 4294967295 := by rw [hsz, hz]; rfl
  have hfalse : succ' = false := by
    cases succ' with
    | false => rfl
    | true =>
      have := (hs rfl).2
      rw [hb, hwrap] at this
      omega
  subst hfalse
  subst hnp
  subst hb
  exact ⟨⟨r0, harm, hok, hwrap, hfin⟩, hst ▸ hf rfl⟩

theorem pop_on_empty_stack_witness :
    ∃ st, mjit_compile sample_vm ⟨[60, 0, 15, 15, 56], 4096, 1⟩ "f" = some st ∧
      TraceEvent.start 0 60 ⟨0, false⟩ true ∈ st.trace ∧
      TraceEvent.finish 4 56 ⟨1, false⟩ 5 ⟨1, true⟩ true ∈ st.trace ∧
      st.status.success = false := by
  obtain ⟨st, h, h1⟩ := pop_on_empty_stack sample_vm ⟨[60, 0, 15, 15, 56], 4096, 1⟩ "f"
    (by decide)
  have e : mjit_compile sample_vm ⟨[60, 0, 15, 15, 56], 4096, 1⟩ "f" = some _ := rfl
  rw [e] at h
  cases h
  exact ⟨_, e, by decide, by decide, (h1 0 60 ⟨0, false⟩ true (by decide) rfl rfl).2⟩

/-- C26: every access to `compiled_for_pos` is inside the array. The trailing `goto` of
`compile_insn` reads it only under `next_pos < iseq_size`, so with an array of
`iseq_size` entries it returns whatever `next_pos` is, a target at or beyond `iseq_size`
included; the loop of `compile_insns` reads and writes it only under `pos < iseq_size`;
and every call of `mjit_compile`, whatever the stream and its operands, returns (no read
of the embedding falls outside the array), leaves the array with `iseq_size` entries, and
has written it only at the offsets of the instructions translated, all below
`iseq_size`. -/
theorem compiled_for_pos_in_bounds (vm : VMInfo) (body : rb_iseq_constant_body)
    (funcname : String) :
    (∀ insn r, r.st.status.compiled_for_pos.length = body.iseq_size →
      ∃ r2, compile_insn_goto vm body insn r = some r2 ∧
        r2.st.status.compiled_for_pos = r.st.status.compiled_for_pos) ∧
    (∀ fuel branch pos st, ¬ pos < body.iseq_size →
      compile_insns_loop vm body (fuel + 1) branch pos st = some st) ∧
    ∃ st, mjit_compile vm body funcname = some st ∧
      st.status.compiled_for_pos.length = body.iseq_size ∧
      (∀ pos insn b succ, TraceEvent.start pos insn b succ ∈ st.trace →
        pos < body.iseq_size ∧ st.status.compiled_for_pos[pos]? = some true) ∧
      (∀ k : Nat, st.status.compiled_for_pos[k]? = some true →
        k < body.iseq_size ∧ k ∈ st.trace.filterMap TraceEvent.start_pos) := by
  refine ⟨?_, ?_, ?_⟩
  · intro insn r hlen
    rw [compile_insn_goto_eq vm body insn r hlen]
    exact ⟨_, rfl, rfl⟩
  · intro fuel branch pos st hge
    rw [compile_insns_loop]
    simp only [hge, if_false]
  · obtain ⟨st, st0, out, h, hrun, _, hst, _⟩ := mjit_compile_total vm body funcname
    have hvis : ∀ k : Nat, st.status.compiled_for_pos[k]? = some true →
        k ∈ st.trace.filterMap TraceEvent.start_pos := by
      intro k hk
      rw [hst] at hk
      rcases (hrun.visited k).mp hk with h0 | h0
      · rw [mjit_compile_init_status] at h0
        simp only [List.getElem?_replicate] at h0
        split at h0 <;> cases h0
      · exact h0
    refine ⟨st, h, ?_, ?_, ?_⟩
    · rw [hst, hrun.len, mjit_compile_init_status]
      simp
    · intro pos insn b succ hev
      have hk : pos ∈ st.trace.filterMap TraceEvent.start_pos :=
        List.mem_filterMap.mpr ⟨_, hev, rfl⟩
      obtain ⟨_, _, _, _, _, _, _, hlt⟩ := hrun.start_lt vm body _ _ _ _ pos hk
      exact ⟨hlt, hst ▸ (hrun.visited pos).mpr (Or.inr hk)⟩
    · intro k hk
      have hm := hvis k hk
      obtain ⟨_, _, _, _, _, _, _, hlt⟩ := hrun.start_lt vm body _ _ _ _ k hm
      exact ⟨hlt, hm⟩

theorem compiled_for_pos_in_bounds_witness :
    ∃ st, mjit_compile sample_vm ⟨[58, 5], 4096, 1⟩ "f" = some st ∧
      TraceEvent.finish 0 58 ⟨0, false⟩ 7 ⟨0, false⟩ true ∈ st.trace ∧
      ¬ 7 < (⟨[58, 5], 4096, 1⟩ : rb_iseq_constant_body).iseq_size ∧
      st.status.compiled_for_pos[0]? = some true ∧
      st.status.compiled_for_pos.length = 2 := by
  obtain ⟨st, h, hlen, h1, _⟩ :=
    (compiled_for_pos_in_bounds sample_vm ⟨[58, 5], 4096, 1⟩ "f").2.2
  have e : mjit_compile sample_vm ⟨[58, 5], 4096, 1⟩ "f" = some _ := rfl
  rw [e] at h
  cases h
  exact ⟨_, e, by decide, by decide, (h1 0 58 ⟨0, false⟩ true (by decide)).2, hlen⟩

end MJIT
